import Mathlib

/-!
# Command-line option engine of `src/cli/CommandLineOption.hpp`

A shallow embedding of the option classes (`Option`, `LongOption`,
`OptionHasValue`, `LongOptionHasValue`, `UnnamedOption`), of `Value`/`OptionValue`
and of the registry `OptionMap`, followed by theorems about them.

Conventions of the embedding
* A `std::string`, a `std::string_view` and a NUL-terminated `const char*` are all a
  `List Char` (the characters before the terminator), so `*p != '\0'` is a test for
  the end of the list.
* `std::size_t` is a `Nat`; `SIZE_MAX` is `std::numeric_limits<std::size_t>::max()`
  (64-bit). A position in a string that may be `std::string::npos` is an
  `Option Nat` with `none` for `npos`: no string is `SIZE_MAX` characters long.
* A member function that mutates `*this` and may throw returns the object after the
  call together with an `Except`: the state reached when the exception leaves the
  function is kept.
* Reference parameters `int& offset, int& argc` are returned with the result. They
  are `Nat`: an offset starts at 0 and never passes `argc` (`parse_returns`).
* `argv` is a `List Token` read with `getD`; the code reads `argv[k]` only for
  `k < argc`, and `argc` is at most the length of `argv`.
* The two `for` loops over arguments in `OptionHasValue::parse` and
  `LongOptionHasValue::parse` are the same text and are one function, `consume`;
  the two `for` loops over a bucket in `OptionMap::parse` are one function, `scan`.
* A loop of the code is a structural recursion on an iteration budget; a loop that
  used up its budget would return `Error.diverged`.
* The valued options of one `OptionMap T` share the value type `T`, as they do in
  every map the program declares (`T = std::string`, here `Token`); conversion for
  other types is the parameter `ValueType.transform`.
-/

namespace cli

/-- A `std::string` / C string: its characters. -/
abbrev Token := List Char

/-- The value `std::numeric_limits<std::size_t>::max()`. -/
def SIZE_MAX : Nat := 18446744073709551615

/-- The exceptions thrown by the header, one constructor per `throw` site (the
formatted message is kept as its arguments). `diverged` is not an exception of the
program: it marks a loop of the model that used up its iteration budget, which
`parse_returns` shows never happens in `OptionMap::parse`. -/
inductive Error (T : Type) where
  /-- Message `option {0} でこれ以上の引数を指定することはできません` -/
  | too_many_values (full_name : Token)
  /-- Message `option {0} には引数を指定する必要があります` -/
  | missing_value (full_name : Token)
  /-- Message `option {0} に対する引数 {1}` wrapping the exception of `append` -/
  | bad_argument (full_name : Token) (what : Error T)
  /-- Message `{0} は型 {1} に変換することはできません` thrown by `Value::transform` -/
  | cannot_convert (str : Token)
  /-- Message `{0} に該当するoptionは存在しません` -/
  | unknown_option (token : Token)
  /-- Message `{0} に該当するlong optionは存在しません` -/
  | unknown_long_option (token : Token)
  /-- Message `これ以上の名前なしオプション {0} は設定不可です` -/
  | unnamed_rejected (token : Token)
  /-- Message `名前なしオプションの設定はできません` -/
  | unnamed_not_allowed
  /-- Message `引数の数が多すぎます` thrown by `validateArg` -/
  | args_too_many
  /-- Message `引数の数が少なすぎます` thrown by `validateArg` -/
  | args_too_few
  /-- Message `{0} は制約条件を満たしていません` thrown by `validateArg` -/
  | constraint_violated (target : T)
  /-- Message `option {0} に対する{1}` wrapping an entry's `validate` in `OptionMap::validate` -/
  | validate_failed (full_name : Token) (what : Error T)
  /-- Message `名前なしオプションに対する引数 {0}` wrapping the positional's `validate` -/
  | unnamed_validate_failed (what : Error T)
  /-- Message `引数が設定されていません` thrown by `OptionValue::as` -/
  | no_value_set
  /-- Message `option {0} は{1}` wrapping the exception of `OptionValue::as` in `OptionWrapper::as` -/
  | as_failed (full_name : Token) (what : Error T)
  /-- Message `option {0} から型 {1} な引数を受け取ることはできません` (`std::logic_error`) -/
  | type_mismatch (full_name : Token)
  /-- Message `{0} というoptionは存在しません` / `{0} というlong optionは存在しません` -/
  | no_such_option (name : Token)
  /-- Message `option名の1文字目は'-'にすることはできません` (`std::invalid_argument`) -/
  | name_starts_with_dash
  /-- Message `optionに等号を含めることはできません` (`std::invalid_argument`) -/
  | name_contains_equal
  /-- Message `optionに空白スペースを含めることはできません` (`std::invalid_argument`) -/
  | name_contains_space
  /-- Message `デフォルト引数が満たさない制約条件を設定することはできません` (`std::logic_error`) -/
  | constraint_rejects_default
  /-- Message `保持する引数の数は0に設定することはできません` (`std::logic_error`) -/
  | limit_zero
  /-- Message `デフォルト引数の数が引数の数の制限を超過しています` (`std::logic_error`) -/
  | limit_below_defaults
  /-- Message `複数の名前なしオプションは定義できません` (`std::invalid_argument`) -/
  | second_unnamed
  /-- Message `option {0}は未知のoptionパターンです` thrown by `OptionMap::clone` (`std::logic_error`) -/
  | unknown_pattern (name : Token)
  /-- Message `ここに来ることはない` thrown by `arg_pattern_description` (`std::logic_error`) -/
  | arg_pattern_unknown
  /-- Iteration budget of a model loop exhausted -/
  | diverged
  deriving DecidableEq

deriving instance DecidableEq for Except

/-! ## Strings -/

/-- Models `std::string_view::find(c)`: the index of the first `c`; `none` is `npos`. -/
def find : Token → Char → Option Nat
  | [], _ => none
  | x :: rest, c => if x = c then some 0 else (find rest c).map (fun i => i + 1)

/-- Models `std::string_view::substr(pos, count)` for `pos <= size()`; the count `none` is
`npos` and reads up to the end. -/
def substr (str : Token) (pos : Nat) (count : Option Nat) : Token :=
  match count with
  | none => str.drop pos
  | some n => (str.drop pos).take n

/-- Models `str.length() - 1` computed in `std::size_t`: for the empty string it wraps to
`SIZE_MAX`, which is `npos`. -/
def length_minus_one (str : Token) : Option Nat :=
  if str.length = 0 then none else some (str.length - 1)

/-- Models `OptionBase::is_dash`: the string is non-empty and holds only `'-'`. -/
def is_dash (str : Token) : Bool :=
  str.all (fun c => c == '-') && !str.isEmpty

/-- Models `Option::is_option`: `*str == '-' && *(str + 1) != '-' && *(str + 1) != '\0'`. -/
def is_option : Token → Bool
  | c0 :: c1 :: _ => c0 == '-' && c1 != '-'
  | _ => false

/-- Models `LongOption::is_long_option`:
`*str == '-' && *(str + 1) == '-' && *(str + 2) != '-' && *(str + 2) != '\0'`. -/
def is_long_option : Token → Bool
  | c0 :: c1 :: c2 :: _ => c0 == '-' && c1 == '-' && c2 != '-'
  | _ => false

/-! ## `Value<T>` -/

/-- The part of `Value<T>::transform` that depends on `T`: the identity for
`std::string`, stream extraction followed by the end-of-input test otherwise
(`none` when the `runtime_error` is thrown). -/
class ValueType (T : Type) where
  transform : Token → Option T

/-- The case `T = std::string` of `Value<T>::transform`: it returns the string itself. -/
instance : ValueType Token where
  transform str := some str

/-- Models `class Value<T>`: the configuration of an option's arguments. -/
structure Value (T : Type) where
  _default_value : List T := []
  _constraint : Option (T → Bool) := none
  _limit : Nat := 1
  _name : Token := "arg".toList
  _required : Nat := 0

/-- Models `Value::has_default`. -/
def Value.has_default {T : Type} (self : Value T) : Bool :=
  !self._default_value.isEmpty

/-- Models `Value::transform`. -/
def Value.transform {T : Type} [ValueType T] (_self : Value T) (str_view : Token) :
    Except (Error T) T :=
  match ValueType.transform str_view with
  | some result => .ok result
  | none => .error (.cannot_convert str_view)

/-- Models `Value::Value()`. -/
def Value.new {T : Type} : Value T := {}

/-- Models `Value::Value(const T& x)`. -/
def Value.of {T : Type} (x : T) : Value T := { _default_value := [x] }

/-- Models `Value::Value(std::initializer_list<T> x)`. -/
def Value.of_list {T : Type} (x : List T) : Value T := { _default_value := x }

/-- Models `Value::constraint`. -/
def Value.constraint {T : Type} (self : Value T) (f : T → Bool) : Except (Error T) (Value T) :=
  if self._default_value.all f then .ok { self with _constraint := some f }
  else .error .constraint_rejects_default

/-- Models `Value::limit`. -/
def Value.limit {T : Type} (self : Value T) (l : Nat) : Except (Error T) (Value T) :=
  if l = 0 then .error .limit_zero
  else if l < self._default_value.length then .error .limit_below_defaults
  else .ok { self with _limit := l }

/-- Models `Value::unlimited`. -/
def Value.unlimited {T : Type} (self : Value T) : Value T :=
  { self with _limit := SIZE_MAX }

/-- Models `Value::name`. -/
def Value.name {T : Type} (self : Value T) (n : Token) : Value T :=
  { self with _name := n }

/-- Models `Value::required(n)`. -/
def Value.required_n {T : Type} (self : Value T) (n : Nat) : Value T :=
  { self with _required := n }

/-- Models `Value::required()` with its default argument `std::numeric_limits<std::size_t>::max()`. -/
def Value.required {T : Type} (self : Value T) : Value T :=
  self.required_n SIZE_MAX

/-! ## `OptionValue<T>` -/

/-- Models `class OptionValue<T>`: the configuration and the bound arguments. -/
structure OptionValue (T : Type) where
  _value_info : Value T
  _value : List T := []

namespace OptionValue

variable {T : Type}

/-- Models `OptionValue::append`: `_value.push_back(_value_info.transform(val))`. -/
def append [ValueType T] (self : OptionValue T) (val : Token) :
    Except (Error T) (OptionValue T) :=
  match self._value_info.transform val with
  | .ok x => .ok { self with _value := self._value ++ [x] }
  | .error e => .error e

/-- The constraint loop at the end of `validateArg`. -/
def check_constraint (constraint : Option (T → Bool)) (targets : List T) :
    Except (Error T) Unit :=
  match constraint with
  | none => .ok ()
  | some f =>
    match targets.find? (fun target => !f target) with
    | some target => .error (.constraint_violated target)
    | none => .ok ()

/-- Models `OptionValue::validateArg`. -/
def validateArg (self : OptionValue T) : Except (Error T) Unit :=
  let targets :=
    if self._value.length ≠ 0 then self._value else self._value_info._default_value
  if targets.length > self._value_info._limit then
    .error .args_too_many
  else if self._value_info._limit = SIZE_MAX ∧ self._value_info._required = SIZE_MAX then
    if self._value_info._default_value.length = 0 ∧ targets.length = 0 then
      .error .args_too_few
    else
      check_constraint self._value_info._constraint targets
  else
    let required := min self._value_info._limit self._value_info._required
    if targets.length < required then
      .error .args_too_few
    else
      check_constraint self._value_info._constraint targets

/-- Models `OptionValue::clearArg`. -/
def clearArg (self : OptionValue T) : OptionValue T :=
  { self with _value := [] }

/-- Models `OptionValue::argNum`. -/
def argNum (self : OptionValue T) : Nat := self._value.length

/-- Models `OptionValue::argLimit`. -/
def argLimit (self : OptionValue T) : Nat := self._value_info._limit

/-- Models `OptionValue::as<U>` for `U = std::vector<T>` (the overload taken when `U` is not `T`). -/
def as_vector (self : OptionValue T) : Except (Error T) (List T) :=
  if self._value.length = 0 then
    if self._value_info.has_default then .ok self._value_info._default_value
    else .error .no_value_set
  else .ok self._value

/-- Models `OptionValue::as<U>` for `U = T`: the element `[0]` of the bound arguments, of
the defaults when nothing is bound. -/
def as (self : OptionValue T) : Except (Error T) T :=
  match self._value with
  | [] =>
    match self._value_info._default_value with
    | [] => .error .no_value_set
    | x :: _ => .ok x
  | x :: _ => .ok x

end OptionValue

/-! ## Option classes -/

/-- Models `class OptionBase`: the data members shared by every option. -/
structure OptionBase where
  _name : Token
  _description : Token
  _use : Bool := false

/-- Models `OptionHasValueBase::ARG_PATTERN::NONE`. -/
def ARG_PATTERN.NONE : Nat := 0
/-- Models `OptionHasValueBase::ARG_PATTERN::ASSIGN`. -/
def ARG_PATTERN.ASSIGN : Nat := 1
/-- Models `OptionHasValueBase::ARG_PATTERN::SPACE`. -/
def ARG_PATTERN.SPACE : Nat := 2

/-- Models `class Option` (a short option without argument). -/
structure ShortOption extends OptionBase

/-- Models `class LongOption` (a long option without argument). -/
structure LongOption extends OptionBase

/-- Models `class OptionHasValue<T>`: `Option`, `OptionValue<T>` and `OptionHasValueBase`. -/
structure OptionHasValue (T : Type) extends OptionBase, OptionValue T where
  _arg_pattern : Nat := ARG_PATTERN.SPACE

/-- Models `class LongOptionHasValue<T>`: `LongOption`, `OptionValue<T>` and `OptionHasValueBase`. -/
structure LongOptionHasValue (T : Type) extends OptionBase, OptionValue T where
  _arg_pattern : Nat

/-- Models `class UnnamedOption<T>`: `OptionBase` and `OptionValue<T>`. -/
structure UnnamedOption (T : Type) extends OptionBase, OptionValue T where
  _pause : Bool := false

/-- Models `OptionBase::OptionBase(name, description)`; `name[0]` of an empty name is the
terminator. -/
def OptionBase.new {T : Type} (name description : Token) : Except (Error T) OptionBase :=
  if name.head? = some '-' then .error .name_starts_with_dash
  else if find name '=' ≠ none then .error .name_contains_equal
  else if find name ' ' ≠ none then .error .name_contains_space
  else .ok { _name := name, _description := description }

/-- The constructor of `Option` (inherited from `OptionBase`). -/
def ShortOption.new {T : Type} (name description : Token) : Except (Error T) ShortOption :=
  match OptionBase.new name description with
  | .ok b => .ok { toOptionBase := b }
  | .error e => .error e

/-- The constructor of `LongOption` (inherited from `OptionBase`). -/
def LongOption.new {T : Type} (name description : Token) : Except (Error T) LongOption :=
  match OptionBase.new name description with
  | .ok b => .ok { toOptionBase := b }
  | .error e => .error e

/-- Models `OptionHasValue::OptionHasValue(value_info, name, description)`. -/
def OptionHasValue.new {T : Type} (value_info : Value T) (name description : Token) :
    Except (Error T) (OptionHasValue T) :=
  match OptionBase.new name description with
  | .ok b =>
    .ok { toOptionBase := { b with _use := value_info.has_default }
          toOptionValue := { _value_info := value_info }
          _arg_pattern := ARG_PATTERN.SPACE }
  | .error e => .error e

/-- Models `LongOptionHasValue::LongOptionHasValue(value_info, name, description, arg_pattern)`. -/
def LongOptionHasValue.new {T : Type} (value_info : Value T) (name description : Token)
    (arg_pattern : Nat) : Except (Error T) (LongOptionHasValue T) :=
  match OptionBase.new name description with
  | .ok b =>
    .ok { toOptionBase := { b with _use := value_info.has_default }
          toOptionValue := { _value_info := value_info }
          _arg_pattern := arg_pattern }
  | .error e => .error e

/-- Models `UnnamedOption::UnnamedOption(value_info, description)`: the name is `""`. -/
def UnnamedOption.new {T : Type} (value_info : Value T) (description : Token) :
    Except (Error T) (UnnamedOption T) :=
  match OptionBase.new [] description with
  | .ok b => .ok { toOptionBase := b, toOptionValue := { _value_info := value_info } }
  | .error e => .error e

/-- Models `OptionBase::full_name`. -/
def OptionBase.full_name (self : OptionBase) : Token := self._name

/-- Models `Option::full_name`: `"-" + name()`. -/
def ShortOption.full_name (name : Token) : Token := '-' :: name

/-- Models `LongOption::full_name`: `"--" + name()`. -/
def LongOption.full_name (name : Token) : Token := '-' :: '-' :: name

/-- Models `Option::match_name`:
`str.size() >= 2 && str[0] == '-' && this->_name == str.substr(1)`. -/
def ShortOption.match_name (name : Token) (str : Token) : Bool :=
  decide (str.length ≥ 2) && str.head? == some '-' && name == substr str 1 none

/-- Models `LongOption::match_name`:
`str.size() >= 3 && str[0] == '-' && str[1] == '-' && this->_name == str.substr(2)`. -/
def LongOption.match_name (name : Token) (str : Token) : Bool :=
  decide (str.length ≥ 3) && str.head? == some '-' && str.get? 1 == some '-'
    && name == substr str 2 none

/-- What a `parse` member leaves in its reference parameters and returns:
`(result, offset, argc)`. -/
abbrev Parsed := Bool × Nat × Nat

/-- Models `Option::parse`. -/
def ShortOption.parse {T : Type} (self : ShortOption) (offset argc : Nat) (argv : List Token) :
    ShortOption × Except (Error T) Parsed :=
  if ShortOption.match_name self._name (argv.getD offset []) then
    ({ self with _use := true }, .ok (true, offset + 1, argc))
  else (self, .ok (false, offset, argc))

/-- Models `LongOption::parse`. -/
def LongOption.parse {T : Type} (self : LongOption) (offset argc : Nat) (argv : List Token) :
    LongOption × Except (Error T) Parsed :=
  if LongOption.match_name self._name (argv.getD offset []) then
    ({ self with _use := true }, .ok (true, offset + 1, argc))
  else (self, .ok (false, offset, argc))

/-- The loop `for (; j < limit && offset2 < argc; ++j, ++offset2)` that
`OptionHasValue::parse` and `LongOptionHasValue::parse` both contain. It returns the
bound arguments together with `(j, offset2)` at the exit of the loop, or the
exception thrown from its body. The first argument bounds the number of iterations. -/
def consume {T : Type} [ValueType T] (full_name : Token) (argc : Nat) (argv : List Token)
    (limit : Nat) : Nat → OptionValue T → Nat → Nat →
    OptionValue T × Except (Error T) (Nat × Nat)
  | 0, self, j, offset2 =>
    if j < limit ∧ offset2 < argc then (self, .error .diverged)
    else (self, .ok (j, offset2))
  | fuel + 1, self, j, offset2 =>
    if j < limit ∧ offset2 < argc then
      let token := argv.getD offset2 []
      if is_option token || is_long_option token then
        (self, .ok (j, offset2))
      else if is_dash token then
        if offset2 + 1 < argc ∧ (argv.getD (offset2 + 1) []).head? = some '-' then
          match self.append (argv.getD (offset2 + 1) []) with
          | .ok self' => consume full_name argc argv limit fuel self' (j + 1) (offset2 + 2)
          | .error e => (self, .error (.bad_argument full_name e))
        else
          (self, .ok (j, offset2 + 1))
      else
        match self.append token with
        | .ok self' => consume full_name argc argv limit fuel self' (j + 1) (offset2 + 1)
        | .error e => (self, .error (.bad_argument full_name e))
    else (self, .ok (j, offset2))

/-- Models `OptionHasValue<T>::parse`. -/
def OptionHasValue.parse {T : Type} [ValueType T] (self : OptionHasValue T)
    (offset argc : Nat) (argv : List Token) :
    OptionHasValue T × Except (Error T) Parsed :=
  if ShortOption.match_name self._name (argv.getD offset []) then
    let offset2 := offset + 1
    let i := self.argNum
    let limit := min (i + 1) self.argLimit
    if limit > 0 ∧ self.argNum = limit then
      (self, .error (.too_many_values (ShortOption.full_name self._name)))
    else
      match consume (ShortOption.full_name self._name) argc argv limit (argc - offset2)
          self.toOptionValue i offset2 with
      | (v, .error e) => ({ self with toOptionValue := v }, .error e)
      | (v, .ok (_, offset2)) =>
        if i = v.argNum ∧ limit > 0 then
          ({ self with toOptionValue := v },
            .error (.missing_value (ShortOption.full_name self._name)))
        else
          ({ self with toOptionValue := v, _use := true }, .ok (true, offset2, argc))
  else (self, .ok (false, offset, argc))

/-- Models `LongOptionHasValue<T>::parse`; the branch `some pos` is `i != std::string::npos`. -/
def LongOptionHasValue.parse {T : Type} [ValueType T] (self : LongOptionHasValue T)
    (offset argc : Nat) (argv : List Token) :
    LongOptionHasValue T × Except (Error T) Parsed :=
  let str := argv.getD offset []
  let i := find str '='
  if LongOption.match_name self._name (substr str 0 i) then
    let offset2 := offset + 1
    let limit := self.argLimit
    match i with
    | some pos =>
      if (self._arg_pattern &&& ARG_PATTERN.ASSIGN) ≠ ARG_PATTERN.ASSIGN then
        (self, .ok (false, offset, argc))
      else if limit > 0 ∧ self.argNum = limit then
        (self, .error (.too_many_values (LongOption.full_name self._name)))
      else
        match self.toOptionValue.append (substr str (pos + 1) none) with
        | .error e =>
          (self, .error (.bad_argument (LongOption.full_name self._name) e))
        | .ok v => ({ self with toOptionValue := v, _use := true }, .ok (true, offset2, argc))
    | none =>
      if (self._arg_pattern &&& ARG_PATTERN.SPACE) ≠ ARG_PATTERN.SPACE then
        (self, .ok (false, offset, argc))
      else if limit > 0 ∧ self.argNum = limit then
        (self, .error (.too_many_values (LongOption.full_name self._name)))
      else
        match consume (LongOption.full_name self._name) argc argv limit (argc - offset2)
            self.toOptionValue self.argNum offset2 with
        | (v, .error e) => ({ self with toOptionValue := v }, .error e)
        | (v, .ok (j, offset2)) =>
          if j = 0 ∧ limit > 0 then
            ({ self with toOptionValue := v },
              .error (.missing_value (LongOption.full_name self._name)))
          else
            ({ self with toOptionValue := v, _use := true }, .ok (true, offset2, argc))
  else (self, .ok (false, offset, argc))

/-- Models `UnnamedOption<T>::parse`. -/
def UnnamedOption.parse {T : Type} [ValueType T] (self : UnnamedOption T)
    (offset argc : Nat) (argv : List Token) :
    UnnamedOption T × Except (Error T) Parsed :=
  if self.argNum < self.argLimit then
    match self.toOptionValue.append (argv.getD offset []) with
    | .error e => (self, .error (.bad_argument self.toOptionBase.full_name e))
    | .ok v =>
      let self' : UnnamedOption T := { self with toOptionValue := v, _use := true }
      if self'.argNum = self'.argLimit ∧ self'._pause then
        (self', .ok (true, offset + 1, offset + 1))
      else
        (self', .ok (true, offset + 1, argc))
  else (self, .ok (false, offset, argc))

/-! ## `OptionMap` -/

/-- What a `shared_ptr<OptionBase>` of `OptionMap::_options` points to. -/
inductive ShortEntry (T : Type) where
  | option (o : ShortOption)
  | optionHasValue (o : OptionHasValue T)

/-- What a `shared_ptr<OptionBase>` of `OptionMap::_long_options` points to. -/
inductive LongEntry (T : Type) where
  | longOption (o : LongOption)
  | longOptionHasValue (o : LongOptionHasValue T)

/-- The dynamic type behind an `OptionBase*`. -/
inductive AnyOption (T : Type) where
  | short (e : ShortEntry T)
  | long (e : LongEntry T)
  | unnamed (u : UnnamedOption T)

/-- A `weak_ptr<OptionBase>` of `_ordered_options`: the place its target has in the map. -/
inductive OptionRef where
  | options (i : Nat)
  | long_options (i : Nat)
  | unnamed_options
  deriving DecidableEq

/-- Models `class OptionMap`. -/
structure OptionMap (T : Type) where
  _options : List (ShortEntry T) := []
  _long_options : List (LongEntry T) := []
  _unnamed_options : Option (UnnamedOption T) := none
  _ordered_options : List OptionRef := []

namespace ShortEntry

variable {T : Type}

/-- The `OptionBase` subobject. -/
def base : ShortEntry T → OptionBase
  | .option o => o.toOptionBase
  | .optionHasValue o => o.toOptionBase

/-- The `OptionValue<T>` subobject, when there is one (`dynamic_cast<OptionValue<T>*>`). -/
def value? : ShortEntry T → Option (OptionValue T)
  | .option _ => none
  | .optionHasValue o => some o.toOptionValue

/-- The arg-pattern of the `OptionHasValueBase` subobject (`dynamic_cast<OptionHasValueBase*>`). -/
def arg_pattern? : ShortEntry T → Option Nat
  | .option _ => none
  | .optionHasValue o => some o._arg_pattern

/-- The virtual `parse`. -/
def parse [ValueType T] (self : ShortEntry T) (offset argc : Nat) (argv : List Token) :
    ShortEntry T × Except (Error T) Parsed :=
  match self with
  | .option o => let r := o.parse offset argc argv; (.option r.1, r.2)
  | .optionHasValue o => let r := o.parse offset argc argv; (.optionHasValue r.1, r.2)

/-- The virtual `validate`. -/
def validate : ShortEntry T → Except (Error T) Unit
  | .option _ => .ok ()
  | .optionHasValue o => o.validateArg

/-- The virtual `init`. -/
def init : ShortEntry T → ShortEntry T
  | .option o => .option o
  | .optionHasValue o => .optionHasValue { o with toOptionValue := o.clearArg }

end ShortEntry

namespace LongEntry

variable {T : Type}

/-- The `OptionBase` subobject. -/
def base : LongEntry T → OptionBase
  | .longOption o => o.toOptionBase
  | .longOptionHasValue o => o.toOptionBase

/-- The `OptionValue<T>` subobject, when there is one (`dynamic_cast<OptionValue<T>*>`). -/
def value? : LongEntry T → Option (OptionValue T)
  | .longOption _ => none
  | .longOptionHasValue o => some o.toOptionValue

/-- The arg-pattern of the `OptionHasValueBase` subobject (`dynamic_cast<OptionHasValueBase*>`). -/
def arg_pattern? : LongEntry T → Option Nat
  | .longOption _ => none
  | .longOptionHasValue o => some o._arg_pattern

/-- The virtual `parse`. -/
def parse [ValueType T] (self : LongEntry T) (offset argc : Nat) (argv : List Token) :
    LongEntry T × Except (Error T) Parsed :=
  match self with
  | .longOption o => let r := o.parse offset argc argv; (.longOption r.1, r.2)
  | .longOptionHasValue o => let r := o.parse offset argc argv; (.longOptionHasValue r.1, r.2)

/-- The virtual `validate`. -/
def validate : LongEntry T → Except (Error T) Unit
  | .longOption _ => .ok ()
  | .longOptionHasValue o => o.validateArg

/-- The virtual `init`. -/
def init : LongEntry T → LongEntry T
  | .longOption o => .longOption o
  | .longOptionHasValue o => .longOptionHasValue { o with toOptionValue := o.clearArg }

end LongEntry

namespace AnyOption

variable {T : Type}

/-- The `OptionBase` subobject. -/
def base : AnyOption T → OptionBase
  | .short e => e.base
  | .long e => e.base
  | .unnamed u => u.toOptionBase

/-- Models `OptionBase::name`. -/
def name (self : AnyOption T) : Token := self.base._name

/-- Models `OptionBase::use`. -/
def use (self : AnyOption T) : Bool := self.base._use

/-- The virtual `full_name`. -/
def full_name : AnyOption T → Token
  | .short e => ShortOption.full_name e.base._name
  | .long e => LongOption.full_name e.base._name
  | .unnamed u => u.toOptionBase.full_name

/-- The `OptionValue<T>` subobject, when there is one (`dynamic_cast<OptionValue<T>*>`). -/
def value? : AnyOption T → Option (OptionValue T)
  | .short e => e.value?
  | .long e => e.value?
  | .unnamed u => some u.toOptionValue

/-- The arg-pattern of the `OptionHasValueBase` subobject (`dynamic_cast<OptionHasValueBase*>`). -/
def arg_pattern? : AnyOption T → Option Nat
  | .short e => e.arg_pattern?
  | .long e => e.arg_pattern?
  | .unnamed _ => none

/-- The virtual `validate`. -/
def validate : AnyOption T → Except (Error T) Unit
  | .short e => e.validate
  | .long e => e.validate
  | .unnamed u => u.validateArg

end AnyOption

/-- Models `class OptionWrapper`: the option a lookup found. -/
abbrev OptionWrapper (T : Type) := AnyOption T

namespace OptionWrapper

variable {T : Type}

/-- Models `OptionWrapper::operator bool`. -/
def toBool (self : OptionWrapper T) : Bool := self.use

/-- Models `OptionWrapper::as<T>` for the value type itself. -/
def as (self : OptionWrapper T) : Except (Error T) T :=
  match self.value? with
  | none => .error (.type_mismatch self.full_name)
  | some p =>
    match p.as with
    | .ok x => .ok x
    | .error e => .error (.as_failed self.full_name e)

/-- Models `OptionWrapper::as<std::vector<T>>`. -/
def as_vector (self : OptionWrapper T) : Except (Error T) (List T) :=
  match self.value? with
  | none => .error (.type_mismatch self.full_name)
  | some p =>
    match p.as_vector with
    | .ok x => .ok x
    | .error e => .error (.as_failed self.full_name e)

end OptionWrapper

/-- The loop `for (auto& ptr : bucket) if (ptr->parse(offset, argc, argv)) {...; break;}` of
`OptionMap::parse`: the bucket afterwards and `(exist, offset, argc)`. -/
def scan {α T : Type} (parse : α → Nat → Nat → List Token → α × Except (Error T) Parsed)
    (argv : List Token) : List α → Nat → Nat → List α × Except (Error T) Parsed
  | [], offset, argc => ([], .ok (false, offset, argc))
  | ptr :: rest, offset, argc =>
    match parse ptr offset argc argv with
    | (ptr', .error e) => (ptr' :: rest, .error e)
    | (ptr', .ok (true, offset', argc')) => (ptr' :: rest, .ok (true, offset', argc'))
    | (ptr', .ok (false, offset', argc')) =>
      let r := scan parse argv rest offset' argc'
      (ptr' :: r.1, r.2)

namespace OptionMap

variable {T : Type}

/-- Models `weak_ptr::lock` on an element of `_ordered_options`. -/
def lock (self : OptionMap T) : OptionRef → Option (AnyOption T)
  | .options i => (self._options.get? i).map .short
  | .long_options i => (self._long_options.get? i).map .long
  | .unnamed_options => self._unnamed_options.map .unnamed

/-- The first loop of `OptionMap::validate`, over `_ordered_options`. -/
def validate_ordered (self : OptionMap T) : List OptionRef → Except (Error T) Unit
  | [] => .ok ()
  | e :: rest =>
    match self.lock e with
    | none => validate_ordered self rest
    | some p =>
      match p.validate with
      | .error err => .error (.validate_failed p.full_name err)
      | .ok _ => validate_ordered self rest

/-- Models `OptionMap::validate`. -/
def validate (self : OptionMap T) : Except (Error T) Unit :=
  match self.validate_ordered self._ordered_options with
  | .error err => .error err
  | .ok _ =>
    match self._unnamed_options with
    | none => .ok ()
    | some u =>
      match u.validateArg with
      | .error err => .error (.unnamed_validate_failed err)
      | .ok _ => .ok ()

/-- The `while (offset < argc)` loop of `OptionMap::parse`: the map afterwards and the
final `offset`, or the exception that left the loop. The first argument bounds the
number of iterations. -/
def parse_loop [ValueType T] (argv : List Token) :
    Nat → OptionMap T → Nat → Nat → OptionMap T × Except (Error T) Nat
  | 0, self, offset, argc =>
    if offset < argc then (self, .error .diverged) else (self, .ok offset)
  | fuel + 1, self, offset, argc =>
    if offset < argc then
      if is_option (argv.getD offset []) then
        match scan ShortEntry.parse argv self._options offset argc with
        | (b, .error e) => ({ self with _options := b }, .error e)
        | (b, .ok (exist, offset', argc')) =>
          if !exist then
            ({ self with _options := b }, .error (.unknown_option (argv.getD offset' [])))
          else parse_loop argv fuel { self with _options := b } offset' argc'
      else if is_long_option (argv.getD offset []) then
        match scan LongEntry.parse argv self._long_options offset argc with
        | (b, .error e) => ({ self with _long_options := b }, .error e)
        | (b, .ok (exist, offset', argc')) =>
          if !exist then
            ({ self with _long_options := b },
              .error (.unknown_long_option (argv.getD offset' [])))
          else parse_loop argv fuel { self with _long_options := b } offset' argc'
      else
        let offset1 := if is_dash (argv.getD offset []) then offset + 1 else offset
        if is_dash (argv.getD offset []) ∧ offset1 ≥ argc then
          parse_loop argv fuel self offset1 argc
        else
          match self._unnamed_options with
          | some u =>
            match u.parse offset1 argc argv with
            | (u', .error e) => ({ self with _unnamed_options := some u' }, .error e)
            | (u', .ok (false, offset', _)) =>
              ({ self with _unnamed_options := some u' },
                .error (.unnamed_rejected (argv.getD offset' [])))
            | (u', .ok (true, offset', argc')) =>
              parse_loop argv fuel { self with _unnamed_options := some u' } offset' argc'
          | none => (self, .error .unnamed_not_allowed)
    else (self, .ok offset)

/-- Models `OptionMap::parse(argc, argv, validate)`: the map afterwards and the returned offset. -/
def parse [ValueType T] (self : OptionMap T) (argc : Nat) (argv : List Token)
    (validate : Bool) : OptionMap T × Except (Error T) Nat :=
  match parse_loop argv argc self 0 argc with
  | (self', .error e) => (self', .error e)
  | (self', .ok offset) =>
    if validate then
      match self'.validate with
      | .error e => (self', .error e)
      | .ok _ => (self', .ok offset)
    else (self', .ok offset)

/-- Models `OptionMap::use_impl`. -/
def use_impl (l : Token) (options : List (AnyOption T)) : Option (AnyOption T) :=
  if find l '=' = length_minus_one l then
    let ll := substr l 0 (find l '=')
    options.find? (fun option =>
      option.name == ll &&
        match option.arg_pattern? with
        | some p => (p &&& ARG_PATTERN.ASSIGN) == ARG_PATTERN.ASSIGN
        | none => false)
  else if find l ' ' = length_minus_one l then
    let ll := substr l 0 (find l ' ')
    options.find? (fun option =>
      option.name == ll &&
        match option.arg_pattern? with
        | some p => (p &&& ARG_PATTERN.SPACE) == ARG_PATTERN.SPACE
        | none => false)
  else
    options.find? (fun option => option.name == l)

/-- Models `OptionMap::ouse`. -/
def ouse (self : OptionMap T) (o : Token) : Except (Error T) (OptionWrapper T) :=
  match use_impl o (self._options.map .short) with
  | some p => .ok p
  | none => .error (.no_such_option o)

/-- Models `OptionMap::luse`. -/
def luse (self : OptionMap T) (l : Token) : Except (Error T) (OptionWrapper T) :=
  match use_impl l (self._long_options.map .long) with
  | some p => .ok p
  | none => .error (.no_such_option l)

/-- Models `OptionMap::use`. -/
def use (self : OptionMap T) (o : Token) : Except (Error T) (OptionWrapper T) :=
  match use_impl o (self._options.map .short) with
  | some p1 => .ok p1
  | none =>
    match use_impl o (self._long_options.map .long) with
    | some p2 => .ok p2
    | none => .error (.no_such_option o)

/-- Models `OptionMap::unnamed_options`. -/
def unnamed_options (self : OptionMap T) : Option (OptionWrapper T) :=
  self._unnamed_options.map .unnamed

/-- The call `e.lock()->init()` on one element of `_ordered_options`. -/
def init_one (self : OptionMap T) : OptionRef → OptionMap T
  | .options i => { self with _options := self._options.modify ShortEntry.init i }
  | .long_options i => { self with _long_options := self._long_options.modify LongEntry.init i }
  | .unnamed_options =>
    { self with
      _unnamed_options :=
        self._unnamed_options.map (fun u => { u with toOptionValue := u.clearArg }) }

/-- Models `OptionMap::init`. -/
def init (self : OptionMap T) : OptionMap T :=
  self._ordered_options.foldl init_one self

/-! ### Construction -/

/-- Models `OptionMap::add_option`. -/
def add_option (self : OptionMap T) (option : ShortEntry T) : OptionMap T :=
  { self with
    _options := self._options ++ [option]
    _ordered_options := self._ordered_options ++ [.options self._options.length] }

/-- Models `OptionMap::add_long_option`. -/
def add_long_option (self : OptionMap T) (option : LongEntry T) : OptionMap T :=
  { self with
    _long_options := self._long_options ++ [option]
    _ordered_options := self._ordered_options ++ [.long_options self._long_options.length] }

/-- Models `OptionMap::add_unnamed_option`. -/
def add_unnamed_option (self : OptionMap T) (option : UnnamedOption T) :
    Except (Error T) (OptionMap T) :=
  if self._unnamed_options.isSome then .error .second_unnamed
  else
    .ok { self with
      _unnamed_options := some option
      _ordered_options := self._ordered_options ++ [.unnamed_options] }

end OptionMap

/-! ## `AddOptions` -/

/-- Models `class AddOptions`: the map being filled and the `_pause` member of its
`UnnamedOptionBuilder u`. -/
structure AddOptions (T : Type) where
  _option_map : OptionMap T
  u_pause : Bool := false

namespace AddOptions

variable {T : Type}

/-- Models `OptionBuilder::operator()(name, desc)`. -/
def o (self : AddOptions T) (name desc : Token) : Except (Error T) (AddOptions T) :=
  match ShortOption.new name desc with
  | .ok opt => .ok { self with _option_map := self._option_map.add_option (.option opt) }
  | .error e => .error e

/-- Models `OptionBuilder::operator()(name, value, desc)`. -/
def o_value (self : AddOptions T) (name : Token) (value : Value T) (desc : Token) :
    Except (Error T) (AddOptions T) :=
  match OptionHasValue.new value name desc with
  | .ok opt =>
    .ok { self with _option_map := self._option_map.add_option (.optionHasValue opt) }
  | .error e => .error e

/-- Models `LongOptionBuilder::operator()(name, desc)`. -/
def l (self : AddOptions T) (name desc : Token) : Except (Error T) (AddOptions T) :=
  match LongOption.new name desc with
  | .ok opt =>
    .ok { self with _option_map := self._option_map.add_long_option (.longOption opt) }
  | .error e => .error e

/-- Models `LongOptionBuilder::operator()(name, value, desc)`. -/
def l_value (self : AddOptions T) (name : Token) (value : Value T) (desc : Token) :
    Except (Error T) (AddOptions T) :=
  let i := find name '='
  let j := find name ' '
  let temp : Except (Error T) (LongOptionHasValue T) :=
    if i = length_minus_one name then
      LongOptionHasValue.new value (substr name 0 i) desc ARG_PATTERN.ASSIGN
    else if j = length_minus_one name then
      LongOptionHasValue.new value (substr name 0 j) desc ARG_PATTERN.SPACE
    else
      LongOptionHasValue.new value name desc (ARG_PATTERN.ASSIGN ||| ARG_PATTERN.SPACE)
  match temp with
  | .ok opt =>
    .ok { self with
      _option_map := self._option_map.add_long_option (.longOptionHasValue opt) }
  | .error e => .error e

/-- Models `UnnamedOptionBuilder::pause`. -/
def pause (self : AddOptions T) : AddOptions T :=
  { self with u_pause := true }

/-- Models `UnnamedOptionBuilder::operator()(value, desc)`. -/
def u (self : AddOptions T) (value : Value T) (desc : Token) : Except (Error T) (AddOptions T) :=
  match UnnamedOption.new value desc with
  | .ok temp =>
    match self._option_map.add_unnamed_option { temp with _pause := self.u_pause } with
    | .ok m => .ok { _option_map := m, u_pause := false }
    | .error e => .error e
  | .error e => .error e

end AddOptions

/-- Models `class CommandLineOption`, default-constructed: its `_map`. -/
def CommandLineOption.new {T : Type} : OptionMap T := {}

/-- Models `CommandLineOption::add_options`. -/
def CommandLineOption.add_options {T : Type} (map : OptionMap T) : AddOptions T :=
  { _option_map := map }

/-! ## `OptionMap::clone` -/

namespace OptionMap

variable {T : Type}

/-- The loop of `OptionMap::clone` over `_ordered_options`: `p->clone()` is the copy
constructor of the entry's class, so the copy is the entry; a copy that is an `Option`
goes to `result._options`, one that is a `LongOption` to `result._long_options`, and
any other makes the loop throw. -/
def clone_loop (self : OptionMap T) :
    List OptionRef → OptionMap T → Except (Error T) (OptionMap T)
  | [], result => .ok result
  | e :: rest, result =>
    match self.lock e with
    | none => clone_loop self rest result
    | some (.short option) => clone_loop self rest (result.add_option option)
    | some (.long option) => clone_loop self rest (result.add_long_option option)
    | some (.unnamed p) => .error (.unknown_pattern p._name)

/-- Models `OptionMap::clone`. -/
def clone (self : OptionMap T) : Except (Error T) (OptionMap T) :=
  match self.clone_loop self._ordered_options {} with
  | .error e => .error e
  | .ok result =>
    match self._unnamed_options with
    | some u =>
      .ok { result with
        _unnamed_options := some u
        _ordered_options := result._ordered_options ++ [.unnamed_options] }
    | none => .ok result

end OptionMap

/-! ## `OptionMap::description` -/

/-- The part of `option_value_description` that depends on `T`: `stream << value`. -/
class StreamInsert (T : Type) where
  insert : T → Token

/-- The case `T = std::string` of `stream << value`: the string itself. -/
instance : StreamInsert Token where
  insert str := str

/-- Models `OptionHasValueBase::arg_pattern_description`. -/
def arg_pattern_description {T : Type} (arg_pattern : Nat) : Except (Error T) Token :=
  if arg_pattern = ARG_PATTERN.NONE then .ok []
  else if arg_pattern = ARG_PATTERN.ASSIGN then .ok "=".toList
  else if arg_pattern = ARG_PATTERN.SPACE then .ok " ".toList
  else if arg_pattern = (ARG_PATTERN.SPACE ||| ARG_PATTERN.ASSIGN) then .ok "[ |=]".toList
  else .error .arg_pattern_unknown

/-- Models `OptionValue::option_value_description`; `std::to_string(limit)` is the
decimal numeral. -/
def OptionValue.option_value_description {T : Type} [StreamInsert T] (self : OptionValue T) :
    Token :=
  let limit := self._value_info._limit
  "<".toList ++ self._value_info._name
    ++ (if limit = SIZE_MAX then "...".toList
        else if limit > 1 then "...[1-".toList ++ Nat.toDigits 10 limit ++ "]".toList
        else [])
    ++ ">".toList
    ++ (if self._value_info.has_default then
          "(=".toList
            ++ ",".toList.intercalate (self._value_info._default_value.map StreamInsert.insert)
            ++ ")".toList
        else [])

/-- The virtual `name_description`: `full_name()` for an option without argument,
`full_name() + arg_pattern_description() + option_value_description()` for a valued
short or long option, `option_value_description()` for the positional option. -/
def AnyOption.name_description {T : Type} [StreamInsert T] :
    AnyOption T → Except (Error T) Token
  | .short (.option o) => .ok (ShortOption.full_name o._name)
  | .long (.longOption o) => .ok (LongOption.full_name o._name)
  | .short (.optionHasValue o) =>
    match arg_pattern_description o._arg_pattern with
    | .ok a =>
      .ok (ShortOption.full_name o._name ++ a ++ o.toOptionValue.option_value_description)
    | .error e => .error e
  | .long (.longOptionHasValue o) =>
    match arg_pattern_description o._arg_pattern with
    | .ok a =>
      .ok (LongOption.full_name o._name ++ a ++ o.toOptionValue.option_value_description)
    | .error e => .error e
  | .unnamed u => .ok u.toOptionValue.option_value_description

/-- Models `OptionBase::description`. -/
def AnyOption.description {T : Type} (self : AnyOption T) : Token := self.base._description

namespace OptionMap

variable {T : Type}

/-- What one iteration of the loop of `OptionMap::description` sends to the stream:
the indent, the name description, the padding, the description and `std::endl`. The
sum and the difference are computed in `std::size_t`, modulo `SIZE_MAX + 1`; the
construction of the padding string is taken to succeed. -/
def description_line (optionCols lengthBetweenOptionAndDescription : Nat)
    (name_desc desc : Token) : Token :=
  "  ".toList ++ name_desc
    ++ (if optionCols
            < (name_desc.length + lengthBetweenOptionAndDescription) % (SIZE_MAX + 1) then
          List.replicate lengthBetweenOptionAndDescription ' '
        else
          List.replicate ((optionCols + (SIZE_MAX + 1) - name_desc.length) % (SIZE_MAX + 1)) ' ')
    ++ desc ++ "\n".toList

/-- The loop of `OptionMap::description` over `_ordered_options`. -/
def description_loop [StreamInsert T] (self : OptionMap T)
    (optionCols lengthBetweenOptionAndDescription : Nat) :
    List OptionRef → Except (Error T) Token
  | [] => .ok []
  | e :: rest =>
    match self.lock e with
    | none => description_loop self optionCols lengthBetweenOptionAndDescription rest
    | some p =>
      match p.name_description with
      | .error err => .error err
      | .ok name_desc =>
        match description_loop self optionCols lengthBetweenOptionAndDescription rest with
        | .error err => .error err
        | .ok oss =>
          .ok (description_line optionCols lengthBetweenOptionAndDescription name_desc
            p.description ++ oss)

/-- Models `OptionMap::description`. -/
def description [StreamInsert T] (self : OptionMap T)
    (optionCols lengthBetweenOptionAndDescription : Nat) : Except (Error T) Token :=
  match self.description_loop optionCols lengthBetweenOptionAndDescription
      self._ordered_options with
  | .error err => .error err
  | .ok oss =>
    if self._ordered_options.isEmpty then .ok (oss ++ "  None\n".toList) else .ok oss

end OptionMap

/-- The options that the elements of `_ordered_options` point to, in their order. -/
def OptionMap.entries {T : Type} (self : OptionMap T) : List (AnyOption T) :=
  self._ordered_options.filterMap self.lock

/-- The member `CommandLineOption::optionCols`. -/
def CommandLineOption.optionCols : Nat := 25

/-- The member `CommandLineOption::lengthBetweenOptionAndDescription`. -/
def CommandLineOption.lengthBetweenOptionAndDescription : Nat := 2

/-! ## Sequences of calls -/

/-- A call of one of the setters of `Value<T>`. -/
inductive ValueCall (T : Type) where
  | constraint (f : T → Bool)
  | limit (l : Nat)
  | unlimited
  | name (n : Token)
  | required (n : Nat)

/-- Whether the call sets `_limit`. -/
def ValueCall.sets_limit {T : Type} : ValueCall T → Bool
  | .limit _ => true
  | .unlimited => true
  | _ => false

/-- The setter call `c` on `self`. -/
def Value.call {T : Type} (self : Value T) : ValueCall T → Except (Error T) (Value T)
  | .constraint f => self.constraint f
  | .limit l => self.limit l
  | .unlimited => .ok self.unlimited
  | .name n => .ok (self.name n)
  | .required n => .ok (self.required_n n)

/-- A chain of setter calls `self.c1(..).c2(..)...`; it ends at the first call that
throws. -/
def Value.calls {T : Type} (self : Value T) : List (ValueCall T) → Except (Error T) (Value T)
  | [] => .ok self
  | c :: rest =>
    match self.call c with
    | .ok v => Value.calls v rest
    | .error e => .error e

/-- The value configuration was obtained from one of the constructors of `Value<T>`
by a chain of setter calls none of which threw. -/
def Value.constructed {T : Type} (v : Value T) : Prop :=
  ∃ (v0 : Value T) (cs : List (ValueCall T)),
    (v0 = Value.new ∨ (∃ x, v0 = Value.of x) ∨ ∃ xs, v0 = Value.of_list xs) ∧
      v0.calls cs = .ok v

/-- A call of `parse` or of `init` on an `OptionMap`. -/
inductive MapCall where
  | parse (argc : Nat) (argv : List Token) (validate : Bool)
  | init

/-- The map after the call `c`, whether `parse` returned or threw. -/
def OptionMap.call {T : Type} [ValueType T] (self : OptionMap T) : MapCall → OptionMap T
  | .parse argc argv validate => (self.parse argc argv validate).1
  | .init => self.init

/-- The map after a sequence of calls. -/
def OptionMap.calls {T : Type} [ValueType T] (self : OptionMap T) (cs : List MapCall) :
    OptionMap T :=
  cs.foldl OptionMap.call self

/-- A call of one of the builders of `AddOptions`. -/
inductive BuilderCall (T : Type) where
  | o (name desc : Token)
  | o_value (name : Token) (value : Value T) (desc : Token)
  | l (name desc : Token)
  | l_value (name : Token) (value : Value T) (desc : Token)
  | pause
  | u (value : Value T) (desc : Token)

/-- The `Value<T>` handed to the builder in the call, when there is one. -/
def BuilderCall.value? {T : Type} : BuilderCall T → Option (Value T)
  | .o_value _ value _ => some value
  | .l_value _ value _ => some value
  | .u value _ => some value
  | _ => none

/-- Whether the call declares the positional option. -/
def BuilderCall.is_u {T : Type} : BuilderCall T → Bool
  | .u _ _ => true
  | _ => false

/-- The builder call `c` on `self`. -/
def AddOptions.call {T : Type} (self : AddOptions T) :
    BuilderCall T → Except (Error T) (AddOptions T)
  | .o name desc => self.o name desc
  | .o_value name value desc => self.o_value name value desc
  | .l name desc => self.l name desc
  | .l_value name value desc => self.l_value name value desc
  | .pause => .ok self.pause
  | .u value desc => self.u value desc

/-- A chain of builder calls; it ends at the first call that throws. -/
def AddOptions.calls {T : Type} (self : AddOptions T) :
    List (BuilderCall T) → Except (Error T) (AddOptions T)
  | [] => .ok self
  | c :: rest =>
    match self.call c with
    | .ok ao => AddOptions.calls ao rest
    | .error e => .error e

/-- The map that a chain of builder calls on a fresh `CommandLineOption` leaves. -/
def CommandLineOption.declare {T : Type} (cs : List (BuilderCall T)) :
    Except (Error T) (OptionMap T) :=
  match (CommandLineOption.add_options CommandLineOption.new).calls cs with
  | .ok ao => .ok ao._option_map
  | .error e => .error e

/-! ## Relations between the states before and after a call -/

/-- Relation between the `OptionBase` part of an option before and after a call: the
name and the description are the same and `_use` has not gone from `true` to `false`. -/
def OptionBase.steps (b b' : OptionBase) : Prop :=
  b'._name = b._name ∧ b'._description = b._description ∧ (b._use = true → b'._use = true)

/-- Relation between the `OptionValue<T>` part of an option before and after a call:
the configuration is the same, the arguments bound before are the first arguments
bound afterwards, and the number of bound arguments stays within a limit of at
least 1 when it was within it. -/
def OptionValue.steps {T : Type} (v v' : OptionValue T) : Prop :=
  v'._value_info = v._value_info ∧ v._value <+: v'._value ∧
    (1 ≤ v.argLimit → v.argNum ≤ v.argLimit → v'.argNum ≤ v'.argLimit)

/-- The relation for an element of `_options`: the same class, `OptionBase.steps`, and
for a valued option `OptionValue.steps` and the same arg-pattern. -/
def ShortEntry.steps {T : Type} : ShortEntry T → ShortEntry T → Prop
  | .option o, .option o' => o.toOptionBase.steps o'.toOptionBase
  | .optionHasValue o, .optionHasValue o' =>
    o.toOptionBase.steps o'.toOptionBase ∧ o.toOptionValue.steps o'.toOptionValue ∧
      o'._arg_pattern = o._arg_pattern
  | _, _ => False

/-- The relation for an element of `_long_options`. -/
def LongEntry.steps {T : Type} : LongEntry T → LongEntry T → Prop
  | .longOption o, .longOption o' => o.toOptionBase.steps o'.toOptionBase
  | .longOptionHasValue o, .longOptionHasValue o' =>
    o.toOptionBase.steps o'.toOptionBase ∧ o.toOptionValue.steps o'.toOptionValue ∧
      o'._arg_pattern = o._arg_pattern
  | _, _ => False

/-- The relation for the positional option: `_pause` is the same too. -/
def UnnamedOption.steps {T : Type} (u u' : UnnamedOption T) : Prop :=
  u.toOptionBase.steps u'.toOptionBase ∧ u.toOptionValue.steps u'.toOptionValue ∧
    u'._pause = u._pause

/-- The relation for `_unnamed_options`. -/
def UnnamedOption.steps? {T : Type} : Option (UnnamedOption T) → Option (UnnamedOption T) → Prop
  | none, none => True
  | some u, some u' => u.steps u'
  | _, _ => False

/-- The relation for a whole map: the same entries in the same places, each related to
itself, and the same `_ordered_options`. -/
def OptionMap.steps {T : Type} (m m' : OptionMap T) : Prop :=
  List.Forall₂ ShortEntry.steps m._options m'._options ∧
    List.Forall₂ LongEntry.steps m._long_options m'._long_options ∧
    UnnamedOption.steps? m._unnamed_options m'._unnamed_options ∧
    m'._ordered_options = m._ordered_options

/-- Every valued entry of the map has a limit of at least 1 and no more bound arguments
than its limit. -/
def OptionMap.within_limits {T : Type} (m : OptionMap T) : Prop :=
  (∀ e ∈ m._options, ∀ v, e.value? = some v → 1 ≤ v.argLimit ∧ v.argNum ≤ v.argLimit) ∧
    (∀ e ∈ m._long_options, ∀ v, e.value? = some v → 1 ≤ v.argLimit ∧ v.argNum ≤ v.argLimit) ∧
    (∀ u, m._unnamed_options = some u → 1 ≤ u.argLimit ∧ u.argNum ≤ u.argLimit)

/-- Every valued short option of the map has the arg-pattern SPACE and every valued
long option one of ASSIGN, SPACE and ASSIGN with SPACE: the arg-patterns that the
builders give. -/
def OptionMap.known_patterns {T : Type} (m : OptionMap T) : Prop :=
  (∀ e ∈ m._options, ∀ p, e.arg_pattern? = some p → p = ARG_PATTERN.SPACE) ∧
    (∀ e ∈ m._long_options, ∀ p, e.arg_pattern? = some p →
      p = ARG_PATTERN.ASSIGN ∨ p = ARG_PATTERN.SPACE ∨
        p = ARG_PATTERN.ASSIGN ||| ARG_PATTERN.SPACE)

/-- A positional option with `_pause` set reached its limit between `m` and `m'`: it
was below the limit in `m` and is at the limit in `m'`. -/
def OptionMap.paused_filled {T : Type} (m m' : OptionMap T) : Prop :=
  match m._unnamed_options, m'._unnamed_options with
  | some u, some u' => u'._pause = true ∧ u.argNum < u.argLimit ∧ u'.argNum = u'.argLimit
  | _, _ => False

/-- What the loop of `OptionMap::parse`, started at `offset` on `m`, guarantees about
the offset `r` it returns with the map `m'`: `r` is between `offset` and `argc`, it is
`argc` unless a positional option with `_pause` set reached its limit, and in that
case the last argument of the positional option is the token at `r - 1`. -/
def cursor_spec {T : Type} [ValueType T] (argv : List Token) (m m' : OptionMap T)
    (offset argc r : Nat) : Prop :=
  r ≤ argc ∧ offset ≤ r ∧ (¬ m.paused_filled m' → r = argc) ∧
    (m.paused_filled m' → offset < r ∧
      ∃ u' x, m'._unnamed_options = some u' ∧
        ValueType.transform (argv.getD (r - 1) []) = some x ∧ u'._value.getLast? = some x)

/-- The argument vector `argv2` has the same tokens as `argv` at every index below `k`. -/
def agree (k : Nat) (argv argv2 : List Token) : Prop :=
  ∀ i, i < k → argv2.getD i [] = argv.getD i []

/-- The elements of `_ordered_options` point to the elements of `_options` and of
`_long_options` one after the other, from the places `s` and `l` on up to the ends
`send` and `lend`, and none points to the positional option. -/
def refs_in_order : List OptionRef → Nat → Nat → Nat → Nat → Prop
  | [], s, l, send, lend => s = send ∧ l = lend
  | .options i :: rest, s, l, send, lend => i = s ∧ refs_in_order rest (s + 1) l send lend
  | .long_options i :: rest, s, l, send, lend => i = l ∧ refs_in_order rest s (l + 1) send lend
  | .unnamed_options :: _, _, _, _, _ => False

/-- A map of short and long options only, with `_ordered_options` as the builders
leave it. -/
def OptionMap.named_only {T : Type} (m : OptionMap T) : Prop :=
  m._unnamed_options = none ∧
    refs_in_order m._ordered_options 0 0 m._options.length m._long_options.length

/-! ## Declarations used in the statements -/

/-- The declaration
`.l("service", Value<std::string>().name("service").required(), d1)`
`.l("user", Value<std::string>().name("user").required(), d2)`
on a fresh `CommandLineOption` (the two required options of `ins`). -/
def service_user_options (d1 d2 : Token) : Except (Error Token) (AddOptions Token) :=
  match (CommandLineOption.add_options CommandLineOption.new).l_value "service".toList
      ((Value.new.name "service".toList).required) d1 with
  | .ok ao => ao.l_value "user".toList ((Value.new.name "user".toList).required) d2
  | .error e => .error e

/-- The declaration `.l("x", Value<std::string>({"a", "b"}).limit(3), "")` on a fresh
`CommandLineOption`: two defaults and a limit of three. -/
def two_defaults_limit3 : Except (Error Token) (AddOptions Token) :=
  match (Value.of_list ["a".toList, "b".toList]).limit 3 with
  | .ok value =>
    (CommandLineOption.add_options CommandLineOption.new).l_value "x".toList value []
  | .error e => .error e

/-- The object that `LongOptionHasValue<std::string>(value_info, name, "", arg_pattern)`
constructs when the name is accepted. -/
def long_string_option (name : Token) (value_info : Value Token) (arg_pattern : Nat) :
    LongOptionHasValue Token :=
  { _name := name, _description := [], _use := value_info.has_default
    _value_info := value_info, _value := []
    _arg_pattern := arg_pattern }

/-- The positional option of `main`:
`.u.pause()(Value<std::string>().name("command"), description)`. -/
def command_option (description : Token) : UnnamedOption Token :=
  { _name := [], _description := description, _use := false
    _value_info := Value.new.name "command".toList, _value := []
    _pause := true }

/-- The map of a `CommandLineOption` on which only the positional option of `main` is
declared. -/
def command_map (description : Token) : OptionMap Token :=
  { _unnamed_options := some (command_option description)
    _ordered_options := [.unnamed_options] }

/-- The object that `OptionHasValue<std::string>(value_info, name, "")` constructs when
the name is accepted. -/
def short_string_option (name : Token) (value_info : Value Token) : OptionHasValue Token :=
  { _name := name, _description := [], _use := value_info.has_default
    _value_info := value_info, _value := []
    _arg_pattern := ARG_PATTERN.SPACE }

/-- The map after the declaration `.l(name, value, "")` on a fresh `CommandLineOption`;
`name` may end with the marker `=` or a space. -/
def declare_long (name : Token) (value : Value Token) : Except (Error Token) (OptionMap Token) :=
  match (CommandLineOption.add_options CommandLineOption.new).l_value name value [] with
  | .ok ao => .ok ao._option_map
  | .error e => .error e

/-- The map after the declaration `.o(name, value, "")` on a fresh `CommandLineOption`. -/
def declare_short (name : Token) (value : Value Token) : Except (Error Token) (OptionMap Token) :=
  match (CommandLineOption.add_options CommandLineOption.new).o_value name value [] with
  | .ok ao => .ok ao._option_map
  | .error e => .error e

/-- The map after the declaration `.u(value, "")` on a fresh `CommandLineOption`. -/
def declare_unnamed (value : Value Token) : Except (Error Token) (OptionMap Token) :=
  match (CommandLineOption.add_options CommandLineOption.new).u value [] with
  | .ok ao => .ok ao._option_map
  | .error e => .error e

/-- The first two declarations of `main`, `.l("help", "")` and
`.l("help=", Value<std::string>().name("option"), "")`, on a fresh `CommandLineOption`. -/
def help_options : Except (Error Token) (OptionMap Token) :=
  match (CommandLineOption.add_options CommandLineOption.new).l "help".toList [] with
  | .ok ao =>
    match ao.l_value "help=".toList (Value.new.name "option".toList) [] with
    | .ok ao' => .ok ao'._option_map
    | .error e => .error e
  | .error e => .error e

/-- The declarations of `help_options` in the other order. -/
def help_options_swapped : Except (Error Token) (OptionMap Token) :=
  match (CommandLineOption.add_options CommandLineOption.new).l_value "help=".toList
      (Value.new.name "option".toList) [] with
  | .ok ao =>
    match ao.l "help".toList [] with
    | .ok ao' => .ok ao'._option_map
    | .error e => .error e
  | .error e => .error e

/-- The value configuration that `Value<std::string>().limit(2)` returns. -/
def limit_two : Value Token := { _limit := 2 }

/-- The declarations of `main` on a fresh `CommandLineOption`: `.l("help", "")`,
`.l("help=", Value<std::string>().name("option"), "")`,
`.l("target", Value<std::string>("stdout").name("type"), "")`,
`.o("o", Value<std::string>().name("out"), "")` and
`.u.pause()(Value<std::string>().name("command"), "")`. -/
def main_options : Except (Error Token) (OptionMap Token) :=
  match (CommandLineOption.add_options CommandLineOption.new).l "help".toList [] with
  | .error e => .error e
  | .ok a1 =>
    match a1.l_value "help=".toList (Value.new.name "option".toList) [] with
    | .error e => .error e
    | .ok a2 =>
      match a2.l_value "target".toList ((Value.of "stdout".toList).name "type".toList) [] with
      | .error e => .error e
      | .ok a3 =>
        match a3.o_value "o".toList (Value.new.name "out".toList) [] with
        | .error e => .error e
        | .ok a4 =>
          match a4.pause.u (Value.new.name "command".toList) [] with
          | .error e => .error e
          | .ok a5 => .ok a5._option_map

/-- The declarations of `main` without the positional option. -/
def main_named_options : Except (Error Token) (OptionMap Token) :=
  match (CommandLineOption.add_options CommandLineOption.new).l "help".toList [] with
  | .error e => .error e
  | .ok a1 =>
    match a1.l_value "help=".toList (Value.new.name "option".toList) [] with
    | .error e => .error e
    | .ok a2 =>
      match a2.l_value "target".toList ((Value.of "stdout".toList).name "type".toList) [] with
      | .error e => .error e
      | .ok a3 =>
        match a3.o_value "o".toList (Value.new.name "out".toList) [] with
        | .error e => .error e
        | .ok a4 => .ok a4._option_map

/-- The map after the declaration `.l(name, description)` on a fresh `CommandLineOption`. -/
def declare_flag (name description : Token) : Except (Error Token) (OptionMap Token) :=
  match (CommandLineOption.add_options CommandLineOption.new).l name description with
  | .ok ao => .ok ao._option_map
  | .error e => .error e

/-! ## Outcomes of the model loops -/

/-- What every `parse` member guarantees about its outcome when called below `argc`:
it never runs out of iteration budget, a `true` result moves the offset forward, not
beyond the new `argc`, which is not above the old one, and a `false` result leaves
both untouched. -/
def parse_progress {T : Type} (offset argc : Nat) (r : Except (Error T) Parsed) : Prop :=
  match r with
  | .error e => e ≠ .diverged
  | .ok (true, offset', argc') => offset < offset' ∧ offset' ≤ argc' ∧ argc' ≤ argc
  | .ok (false, offset', argc') => offset' = offset ∧ argc' = argc

/-- What the consumption loop guarantees about its outcome: it never runs out of
iteration budget, never moves the offset backwards and never moves it beyond `argc`. -/
def consume_progress {T : Type} (argc offset2 : Nat) (r : Except (Error T) (Nat × Nat)) :
    Prop :=
  match r with
  | .error e => e ≠ .diverged
  | .ok (_, offset2') => offset2 ≤ offset2' ∧ (offset2 ≤ argc → offset2' ≤ argc)

/-- What the loop of `OptionMap::parse` guarantees about its outcome: it never runs
out of iteration budget, and the returned offset is not below the starting one and,
when the loop starts within `argc`, not above `argc`. -/
def loop_progress {T : Type} (offset argc : Nat) (r : Except (Error T) Nat) : Prop :=
  match r with
  | .error e => e ≠ .diverged
  | .ok offset' => offset ≤ offset' ∧ (offset ≤ argc → offset' ≤ argc)

/-! ## Lemmas on strings -/

theorem find_eq_none_iff (str : Token) (c : Char) : find str c = none ↔ c ∉ str := by
  induction str with
  | nil => simp [find]
  | cons x rest ih =>
    by_cases h : x = c
    · simp [find, h]
    · simp [find, h, ih, Ne.symm h]

theorem substr_find_of_not_mem (str : Token) (c : Char) (h : c ∉ str) :
    substr str 0 (find str c) = str := by
  rw [(find_eq_none_iff str c).2 h]
  simp [substr]

theorem find_append_cons (p v : Token) (c : Char) (h : c ∉ p) :
    find (p ++ c :: v) c = some p.length := by
  induction p with
  | nil => simp [find]
  | cons x rest ih =>
    have hx : x ≠ c := fun e => h (by simp [e])
    have hr : c ∉ rest := fun e => h (by simp [e])
    simp [find, hx, ih hr]

theorem find_eq_some (str : Token) (c : Char) (i : Nat) (h : find str c = some i) :
    c ∉ str.take i ∧ str = str.take i ++ c :: str.drop (i + 1) := by
  induction str generalizing i with
  | nil => simp [find] at h
  | cons x rest ih =>
    by_cases hx : x = c
    · simp [find, hx] at h
      subst h
      simp [hx]
    · simp only [find, hx, if_false, Option.map_eq_some'] at h
      obtain ⟨k, hk, rfl⟩ := h
      obtain ⟨h1, h2⟩ := ih k hk
      refine ⟨?_, ?_⟩
      · simp [List.take_succ_cons, Ne.symm hx, h1]
      · simp only [List.take_succ_cons, List.drop_succ_cons, List.cons_append]
        rw [← h2]

theorem substr_before (p v : Token) (c : Char) :
    substr (p ++ c :: v) 0 (some p.length) = p := by
  simp [substr]

theorem substr_after (p v : Token) (c : Char) :
    substr (p ++ c :: v) (p.length + 1) none = v := by
  simp [substr]

/-! ## Lemmas on name matching -/

theorem short_match_name_iff (n t : Token) (hn : n ≠ []) :
    ShortOption.match_name n t = true ↔ t = '-' :: n := by
  cases t with
  | nil => simp [ShortOption.match_name]
  | cons c rest =>
    cases rest with
    | nil =>
      simp only [ShortOption.match_name, substr]
      simp
      intro h
      exact fun e => hn e
    | cons c1 rest =>
      simp only [ShortOption.match_name, substr]
      simp
      intro _
      exact eq_comm

theorem long_match_name_iff (n t : Token) (hn : n ≠ []) :
    LongOption.match_name n t = true ↔ t = '-' :: '-' :: n := by
  match t with
  | [] => simp [LongOption.match_name]
  | [c] => simp [LongOption.match_name]
  | [c0, c1] =>
    simp only [LongOption.match_name, substr]
    simp
    intro _ _
    exact fun e => hn e
  | c0 :: c1 :: c2 :: rest =>
    simp only [LongOption.match_name, substr]
    simp
    constructor
    · rintro ⟨⟨h1, h2⟩, h3⟩; exact ⟨h1, h2, h3.symm⟩
    · rintro ⟨h1, h2, h3⟩; exact ⟨⟨h1, h2⟩, h3.symm⟩

theorem long_valued_match_iff (n t : Token) (hn : n ≠ []) (heq : '=' ∉ n) :
    LongOption.match_name n (substr t 0 (find t '=')) = true ↔
      t = '-' :: '-' :: n ∨ ∃ v, t = '-' :: '-' :: (n ++ '=' :: v) := by
  cases hf : find t '=' with
  | none =>
    have hnot : '=' ∉ t := (find_eq_none_iff t '=').1 hf
    have hs : substr t 0 none = t := by simp [substr]
    rw [hs, long_match_name_iff n t hn]
    constructor
    · exact fun h => Or.inl h
    · rintro (h | ⟨v, h⟩)
      · exact h
      · exact absurd (by simp [h]) hnot
  | some i =>
    obtain ⟨h1, h2⟩ := find_eq_some t '=' i hf
    have hs : substr t 0 (some i) = t.take i := by simp [substr]
    rw [hs, long_match_name_iff _ _ hn]
    constructor
    · intro h
      right
      exact ⟨t.drop (i + 1), by rw [h] at h2; simpa using h2⟩
    · rintro (h | ⟨v, h⟩)
      · have : '=' ∉ t := by simp [h, heq]
        rw [(find_eq_none_iff t '=').2 this] at hf
        exact absurd hf (by simp)
      · have hp : '=' ∉ ('-' :: '-' :: n) := by simp [heq]
        have := find_append_cons ('-' :: '-' :: n) v '=' hp
        have ht : t = ('-' :: '-' :: n) ++ '=' :: v := by simp [h]
        rw [ht] at hf
        rw [this] at hf
        have hi : i = ('-' :: '-' :: n).length := by simpa using hf.symm
        rw [hi, ht]
        simp

theorem getD_append_length (pre : List Token) (v : Token) (tail : List Token) :
    (pre ++ v :: tail).getD pre.length [] = v := by
  induction pre with
  | nil => rfl
  | cons x pre ih => simpa using ih

/-! ## Lemmas on the entry parsers -/

theorem append_string (self : OptionValue Token) (val : Token) :
    self.append val = .ok { self with _value := self._value ++ [val] } := by
  simp [OptionValue.append, Value.transform, ValueType.transform]

/-- The consumption loop on plain tokens: with room for all of `vs`, and either the
limit reached after them, the end of the arguments, or an option-shaped token next,
exactly `vs` is appended. -/
theorem consume_bare (full_name : Token) (limit : Nat) (vs : List Token) :
    ∀ (pre rest : List Token) (self : OptionValue Token) (j fuel : Nat),
      (∀ v ∈ vs, is_option v = false ∧ is_long_option v = false ∧ is_dash v = false) →
      j + vs.length ≤ limit →
      (j + vs.length = limit ∨ rest = [] ∨
        ∃ r rs, rest = r :: rs ∧ (is_option r || is_long_option r) = true) →
      vs.length + rest.length ≤ fuel →
      consume full_name (pre ++ vs ++ rest).length (pre ++ vs ++ rest) limit fuel self j
          pre.length
        = ({ self with _value := self._value ++ vs },
            .ok (j + vs.length, pre.length + vs.length)) := by
  induction vs with
  | nil =>
    intro pre rest self j fuel _ _ hrest hfuel
    cases fuel with
    | zero =>
      have hr : rest = [] := by
        cases rest with
        | nil => rfl
        | cons r rs => simp at hfuel
      subst hr
      simp [consume]
    | succ fuel =>
      by_cases hc : j < limit ∧ pre.length < (pre ++ [] ++ rest).length
      · rcases hrest with h | h | ⟨r, rs, h, hopt⟩
        · simp at h; omega
        · subst h; simp at hc
        · subst h
          have hg : (pre ++ [] ++ r :: rs).getD pre.length [] = r := by
            simpa using getD_append_length pre r rs
          simp only [consume, hc, and_self, if_true, hg, hopt]
          simp
      · simp only [consume, hc, if_false]
        simp
  | cons v vs ih =>
    intro pre rest self j fuel hvs hlim hrest hfuel
    cases fuel with
    | zero => simp at hfuel
    | succ fuel =>
      obtain ⟨hv1, hv2, hv3⟩ := hvs v (by simp)
      have hc : j < limit ∧ pre.length < (pre ++ v :: vs ++ rest).length := by
        constructor
        · simp at hlim; omega
        · simp
      have hg : (pre ++ v :: vs ++ rest).getD pre.length [] = v := by
        simpa using getD_append_length pre v (vs ++ rest)
      have hargv : pre ++ v :: vs ++ rest = (pre ++ [v]) ++ vs ++ rest := by simp
      have hih := ih (pre ++ [v]) rest { self with _value := self._value ++ [v] } (j + 1) fuel
        (fun w hw => hvs w (by simp [hw]))
        (by simp at hlim ⊢; omega)
        (by
          rcases hrest with h | h | h
          · left; simp at h ⊢; omega
          · right; left; exact h
          · right; right; exact h)
        (by simp at hfuel ⊢; omega)
      simp only [consume, hc, and_self, if_true, hg, hv1, hv2, hv3, Bool.or_self,
        Bool.false_eq_true, if_false, append_string]
      rw [hargv, show pre.length + 1 = (pre ++ [v]).length by simp, hih]
      simp [Nat.add_assoc, Nat.add_comm 1]

theorem find_long_name (n : Token) (heq : '=' ∉ n) : find ('-' :: '-' :: n) '=' = none :=
  (find_eq_none_iff _ _).2 (by simp [heq])

theorem find_long_assign (n v : Token) (heq : '=' ∉ n) :
    find ('-' :: '-' :: (n ++ '=' :: v)) '=' = some (n.length + 2) := by
  have := find_append_cons ('-' :: '-' :: n) v '=' (by simp [heq])
  simpa using this

/-- The `=` form: a matching token `--name=v` binds `v` and moves the offset by one. -/
theorem long_parse_assign (self : LongOptionHasValue Token) (v : Token) (offset argc : Nat)
    (argv : List Token) (hn : self._name ≠ []) (heq : '=' ∉ self._name)
    (hpat : (self._arg_pattern &&& ARG_PATTERN.ASSIGN) = ARG_PATTERN.ASSIGN)
    (hroom : self._value.length < self._value_info._limit)
    (htok : argv.getD offset [] = '-' :: '-' :: (self._name ++ '=' :: v)) :
    self.parse offset argc argv =
      ({ self with _value := self._value ++ [v], _use := true },
        .ok (true, offset + 1, argc)) := by
  have hm : LongOption.match_name self._name
      (substr ('-' :: '-' :: (self._name ++ '=' :: v)) 0 (some (self._name.length + 2)))
        = true := by
    rw [long_match_name_iff _ _ hn]
    have := substr_before ('-' :: '-' :: self._name) v '='
    simpa using this
  have hs : substr ('-' :: '-' :: (self._name ++ '=' :: v)) (self._name.length + 2 + 1) none
      = v := by
    have := substr_after ('-' :: '-' :: self._name) v '='
    simpa using this
  have hlt : ¬ (self._value_info._limit > 0 ∧
      self._value.length = self._value_info._limit) := by
    intro h; omega
  simp only [LongOptionHasValue.parse, htok, find_long_assign _ _ heq, hm, if_true, hpat,
    ne_eq, not_true_eq_false, if_false, OptionValue.argNum, OptionValue.argLimit, hlt,
    hs, append_string]

/-- A token whose part before the first `=` is not the option's full name is left alone. -/
theorem long_parse_no_match {T : Type} [ValueType T] (self : LongOptionHasValue T)
    (offset argc : Nat) (argv : List Token)
    (h : LongOption.match_name self._name
      (substr (argv.getD offset []) 0 (find (argv.getD offset []) '=')) = false) :
    self.parse offset argc argv = (self, .ok (false, offset, argc)) := by
  simp only [LongOptionHasValue.parse, h, Bool.false_eq_true, if_false]

/-- The space form with nothing to bind: a matching token `--name` that is the last
argument, or is followed by an option-shaped token, raises the missing-value error
when no value is bound yet. -/
theorem long_parse_missing {T : Type} [ValueType T] (self : LongOptionHasValue T)
    (offset argc : Nat) (argv : List Token) (hn : self._name ≠ []) (heq : '=' ∉ self._name)
    (hpat : (self._arg_pattern &&& ARG_PATTERN.SPACE) = ARG_PATTERN.SPACE)
    (hval : self._value = []) (hlimit : 0 < self._value_info._limit)
    (htok : argv.getD offset [] = '-' :: '-' :: self._name)
    (hnext : argc ≤ offset + 1 ∨
      (is_option (argv.getD (offset + 1) []) || is_long_option (argv.getD (offset + 1) []))
        = true) :
    self.parse offset argc argv =
      (self, .error (.missing_value (LongOption.full_name self._name))) := by
  have hm : LongOption.match_name self._name (substr ('-' :: '-' :: self._name) 0 none)
      = true := by
    rw [long_match_name_iff _ _ hn]
    simp [substr]
  have hlt : ¬ (self._value_info._limit > 0 ∧
      self._value.length = self._value_info._limit) := by
    intro h; rw [hval] at h; simp at h; omega
  have hcons : consume (LongOption.full_name self._name) argc argv self._value_info._limit
      (argc - (offset + 1)) self.toOptionValue 0 (offset + 1)
        = (self.toOptionValue, .ok (0, offset + 1)) := by
    by_cases hlast : argc ≤ offset + 1
    · have hc : ¬ (0 < self._value_info._limit ∧ offset + 1 < argc) := by omega
      cases argc - (offset + 1) <;> simp [consume, hc]
    · have hopt := hnext.resolve_left hlast
      obtain ⟨k, hk⟩ : ∃ k, argc - (offset + 1) = k + 1 := ⟨argc - (offset + 1) - 1, by omega⟩
      have hc : 0 < self._value_info._limit ∧ offset + 1 < argc := ⟨hlimit, by omega⟩
      rw [hk]
      simp only [consume, hc, and_self, if_true, hopt]
  simp only [LongOptionHasValue.parse, htok, find_long_name _ heq, hm, if_true, hpat, ne_eq,
    not_true_eq_false, if_false, OptionValue.argNum, OptionValue.argLimit, hlt]
  simp only [hval, List.length_nil] at hcons ⊢
  rw [hcons]
  simp [hlimit]

/-- The space form on plain tokens: a matching token `--name` followed by the plain
tokens `vs`, all of which fit under the limit, binds exactly `vs`. -/
theorem long_parse_space (self : LongOptionHasValue Token) (pre vs rest : List Token)
    (hn : self._name ≠ []) (heq : '=' ∉ self._name)
    (hpat : (self._arg_pattern &&& ARG_PATTERN.SPACE) = ARG_PATTERN.SPACE)
    (hroom : self._value.length < self._value_info._limit)
    (hvs : ∀ v ∈ vs, is_option v = false ∧ is_long_option v = false ∧ is_dash v = false)
    (hlim : self._value.length + vs.length ≤ self._value_info._limit)
    (hrest : self._value.length + vs.length = self._value_info._limit ∨ rest = [] ∨
      ∃ r rs, rest = r :: rs ∧ (is_option r || is_long_option r) = true)
    (hj : self._value.length + vs.length ≠ 0) :
    self.parse pre.length (pre ++ ('-' :: '-' :: self._name) :: vs ++ rest).length
        (pre ++ ('-' :: '-' :: self._name) :: vs ++ rest) =
      ({ self with _value := self._value ++ vs, _use := true },
        .ok (true, pre.length + 1 + vs.length,
          (pre ++ ('-' :: '-' :: self._name) :: vs ++ rest).length)) := by
  have htok : (pre ++ ('-' :: '-' :: self._name) :: vs ++ rest).getD pre.length []
      = '-' :: '-' :: self._name := by
    simpa using getD_append_length pre ('-' :: '-' :: self._name) (vs ++ rest)
  have hm : LongOption.match_name self._name (substr ('-' :: '-' :: self._name) 0 none)
      = true := by
    rw [long_match_name_iff _ _ hn]
    simp [substr]
  have hlt : ¬ (self._value_info._limit > 0 ∧
      self._value.length = self._value_info._limit) := by
    intro h; omega
  have hargv : pre ++ ('-' :: '-' :: self._name) :: vs ++ rest
      = (pre ++ [('-' :: '-' :: self._name)]) ++ vs ++ rest := by simp
  have hcons := consume_bare (LongOption.full_name self._name) self._value_info._limit vs
    (pre ++ [('-' :: '-' :: self._name)]) rest self.toOptionValue self._value.length
    (vs.length + rest.length) hvs hlim hrest (le_refl _)
  have hfuel : (pre ++ [('-' :: '-' :: self._name)] ++ vs ++ rest).length - (pre.length + 1)
      = vs.length + rest.length := by
    simp; omega
  simp only [LongOptionHasValue.parse, htok, find_long_name _ heq, hm, if_true, hpat, ne_eq,
    not_true_eq_false, if_false, OptionValue.argNum, OptionValue.argLimit, hlt]
  rw [hargv, hfuel, show pre.length + 1 = (pre ++ [('-' :: '-' :: self._name)]).length by simp,
    hcons]
  simp [hj]

/-! ## Lemmas on the registry -/

theorem parse_loop_exit {T : Type} [ValueType T] (argv : List Token) (fuel : Nat)
    (self : OptionMap T) (offset argc : Nat) (h : argc ≤ offset) :
    OptionMap.parse_loop argv fuel self offset argc = (self, .ok offset) := by
  have hc : ¬ offset < argc := by omega
  cases fuel <;> simp [OptionMap.parse_loop, hc]

theorem parse_loop_long {T : Type} [ValueType T] (argv : List Token) (fuel : Nat)
    (self : OptionMap T) (offset argc : Nat) (b : List (LongEntry T)) (offset' argc' : Nat)
    (hlt : offset < argc) (h1 : is_option (argv.getD offset []) = false)
    (h2 : is_long_option (argv.getD offset []) = true)
    (hs : scan LongEntry.parse argv self._long_options offset argc
      = (b, .ok (true, offset', argc'))) :
    OptionMap.parse_loop argv (fuel + 1) self offset argc
      = OptionMap.parse_loop argv fuel { self with _long_options := b } offset' argc' := by
  simp only [OptionMap.parse_loop, hlt, if_true, h1, h2, hs, Bool.false_eq_true, if_false,
    Bool.not_true]

theorem parse_loop_long_error {T : Type} [ValueType T] (argv : List Token) (fuel : Nat)
    (self : OptionMap T) (offset argc : Nat) (b : List (LongEntry T)) (e : Error T)
    (hlt : offset < argc) (h1 : is_option (argv.getD offset []) = false)
    (h2 : is_long_option (argv.getD offset []) = true)
    (hs : scan LongEntry.parse argv self._long_options offset argc = (b, .error e)) :
    OptionMap.parse_loop argv (fuel + 1) self offset argc
      = ({ self with _long_options := b }, .error e) := by
  simp only [OptionMap.parse_loop, hlt, if_true, h1, h2, hs, Bool.false_eq_true, if_false]

theorem scan_hit {α T : Type}
    (parse : α → Nat → Nat → List Token → α × Except (Error T) Parsed) (argv : List Token)
    (ptr ptr' : α) (rest : List α) (offset argc offset' argc' : Nat)
    (h : parse ptr offset argc argv = (ptr', .ok (true, offset', argc'))) :
    scan parse argv (ptr :: rest) offset argc = (ptr' :: rest, .ok (true, offset', argc')) := by
  simp only [scan, h]

theorem scan_miss {α T : Type}
    (parse : α → Nat → Nat → List Token → α × Except (Error T) Parsed) (argv : List Token)
    (ptr ptr' : α) (rest : List α) (offset argc offset' argc' : Nat)
    (h : parse ptr offset argc argv = (ptr', .ok (false, offset', argc'))) :
    scan parse argv (ptr :: rest) offset argc
      = (ptr' :: (scan parse argv rest offset' argc').1, (scan parse argv rest offset' argc').2) := by
  simp only [scan, h]

theorem scan_error {α T : Type}
    (parse : α → Nat → Nat → List Token → α × Except (Error T) Parsed) (argv : List Token)
    (ptr ptr' : α) (rest : List α) (offset argc : Nat) (e : Error T)
    (h : parse ptr offset argc argv = (ptr', .error e)) :
    scan parse argv (ptr :: rest) offset argc = (ptr' :: rest, .error e) := by
  simp only [scan, h]

/-- A matching token, in the space form or in the `=` form, on a long option whose
bound arguments have reached the limit raises the too-many-values error and leaves
the option as it was. -/
theorem long_parse_too_many {T : Type} [ValueType T] (self : LongOptionHasValue T)
    (offset argc : Nat) (argv : List Token) (hn : self._name ≠ []) (heq : '=' ∉ self._name)
    (hlimit : 0 < self._value_info._limit)
    (hfull : self._value.length = self._value_info._limit)
    (htok : (argv.getD offset [] = '-' :: '-' :: self._name ∧
        (self._arg_pattern &&& ARG_PATTERN.SPACE) = ARG_PATTERN.SPACE) ∨
      ((∃ v, argv.getD offset [] = '-' :: '-' :: (self._name ++ '=' :: v)) ∧
        (self._arg_pattern &&& ARG_PATTERN.ASSIGN) = ARG_PATTERN.ASSIGN)) :
    self.parse offset argc argv
      = (self, .error (.too_many_values (LongOption.full_name self._name))) := by
  have hlt : self._value_info._limit > 0 ∧ self._value.length = self._value_info._limit :=
    ⟨hlimit, hfull⟩
  rcases htok with ⟨htok, hpat⟩ | ⟨⟨v, htok⟩, hpat⟩
  · have hm : LongOption.match_name self._name (substr ('-' :: '-' :: self._name) 0 none)
        = true := by
      rw [long_match_name_iff _ _ hn]
      simp [substr]
    simp only [LongOptionHasValue.parse, htok, find_long_name _ heq, hm, if_true, hpat, ne_eq,
      not_true_eq_false, if_false, OptionValue.argNum, OptionValue.argLimit, hlt, and_self]
  · have hm : LongOption.match_name self._name
        (substr ('-' :: '-' :: (self._name ++ '=' :: v)) 0 (some (self._name.length + 2)))
          = true := by
      rw [long_match_name_iff _ _ hn]
      have := substr_before ('-' :: '-' :: self._name) v '='
      simpa using this
    simp only [LongOptionHasValue.parse, htok, find_long_assign _ _ heq, hm, if_true, hpat,
      ne_eq, not_true_eq_false, if_false, OptionValue.argNum, OptionValue.argLimit, hlt,
      and_self]

/-! ## Lemmas on validation and on the accessor -/

theorem check_constraint_error_iff {T : Type} (c : Option (T → Bool)) (ts : List T) :
    (∃ e, OptionValue.check_constraint c ts = .error e) ↔
      ∃ f, c = some f ∧ ∃ x ∈ ts, f x = false := by
  cases c with
  | none => simp [OptionValue.check_constraint]
  | some f =>
    simp only [OptionValue.check_constraint, Option.some.injEq, exists_eq_left']
    cases hf : ts.find? (fun target => !f target) with
    | none =>
      simp only [reduceCtorEq, exists_false, false_iff, not_exists, not_and]
      intro x hx
      have := List.find?_eq_none.1 hf x hx
      simpa using this
    | some y =>
      simp only [Except.error.injEq, exists_eq', true_iff]
      refine ⟨y, List.mem_of_find?_eq_some hf, ?_⟩
      have := List.find?_some hf
      simpa using this

theorem any_validate_eq {T : Type} (w : AnyOption T) (p : OptionValue T)
    (hp : AnyOption.value? w = some p) : AnyOption.validate w = p.validateArg := by
  cases w with
  | short e =>
    cases e with
    | option o => simp [AnyOption.value?, ShortEntry.value?] at hp
    | optionHasValue o =>
      simp only [AnyOption.value?, ShortEntry.value?, Option.some.injEq] at hp
      subst hp; rfl
  | long e =>
    cases e with
    | longOption o => simp [AnyOption.value?, LongEntry.value?] at hp
    | longOptionHasValue o =>
      simp only [AnyOption.value?, LongEntry.value?, Option.some.injEq] at hp
      subst hp; rfl
  | unnamed u =>
    simp only [AnyOption.value?, Option.some.injEq] at hp
    subst hp; rfl

theorem wrapper_as_eq {T : Type} (w : OptionWrapper T) (p : OptionValue T)
    (hp : AnyOption.value? w = some p) :
    OptionWrapper.as w = (match p.as with
      | .ok x => .ok x
      | .error e => .error (.as_failed (AnyOption.full_name w) e)) ∧
    OptionWrapper.as_vector w = (match p.as_vector with
      | .ok x => .ok x
      | .error e => .error (.as_failed (AnyOption.full_name w) e)) := by
  constructor
  · unfold OptionWrapper.as; rw [hp]
  · unfold OptionWrapper.as_vector; rw [hp]

/-! ## Termination of the model loops -/

theorem consume_progress_mono {T : Type} (argc a b : Nat) (r : Except (Error T) (Nat × Nat))
    (hab : a ≤ b) (hb : b ≤ argc) (h : consume_progress argc b r) :
    consume_progress argc a r := by
  cases r with
  | error e => exact h
  | ok p =>
    obtain ⟨j, o⟩ := p
    simp only [consume_progress] at h ⊢
    omega

theorem consume_makes_progress {T : Type} [ValueType T] (full_name : Token) (argc : Nat)
    (argv : List Token) (limit : Nat) :
    ∀ (fuel : Nat) (self : OptionValue T) (j offset2 : Nat), argc - offset2 ≤ fuel →
      consume_progress argc offset2 (consume full_name argc argv limit fuel self j offset2).2 := by
  intro fuel
  induction fuel with
  | zero =>
    intro self j offset2 hf
    have hc : ¬ (j < limit ∧ offset2 < argc) := by omega
    simp [consume, hc, consume_progress]
  | succ fuel ih =>
    intro self j offset2 hf
    by_cases hc : j < limit ∧ offset2 < argc
    · by_cases h1 : (is_option (argv.getD offset2 []) || is_long_option (argv.getD offset2 []))
          = true
      · simp only [consume, hc, and_self, if_true, h1, consume_progress]
        exact ⟨le_refl _, fun h => h⟩
      · by_cases h2 : is_dash (argv.getD offset2 []) = true
        · by_cases h3 : offset2 + 1 < argc ∧ (argv.getD (offset2 + 1) []).head? = some '-'
          · cases happ : self.append (argv.getD (offset2 + 1) []) with
            | error e =>
              simp only [consume, hc, and_self, if_true, h1, if_false, h2, h3, happ]
              simp [consume_progress]
            | ok self' =>
              simp only [consume, hc, and_self, if_true, h1, if_false, h2, h3, happ]
              exact consume_progress_mono _ _ _ _ (by omega) (by omega)
                (ih self' (j + 1) (offset2 + 2) (by omega))
          · simp only [consume, hc, and_self, if_true, h1, if_false, h2, h3]
            simp only [consume_progress]
            exact ⟨by omega, fun _ => by omega⟩
        · cases happ : self.append (argv.getD offset2 []) with
          | error e =>
            simp only [consume, hc, and_self, if_true, h1, if_false, h2, happ]
            simp [consume_progress]
          | ok self' =>
            simp only [consume, hc, and_self, if_true, h1, if_false, h2, happ]
            exact consume_progress_mono _ _ _ _ (by omega) (by omega)
              (ih self' (j + 1) (offset2 + 1) (by omega))
    · simp [consume, hc, consume_progress]

theorem short_option_progress {T : Type} (self : ShortOption) (offset argc : Nat)
    (argv : List Token) (hlt : offset < argc) :
    parse_progress offset argc (self.parse offset argc argv : _ × Except (Error T) Parsed).2 := by
  unfold ShortOption.parse
  split
  · simp only [parse_progress]; omega
  · simp [parse_progress]

theorem long_option_progress {T : Type} (self : LongOption) (offset argc : Nat)
    (argv : List Token) (hlt : offset < argc) :
    parse_progress offset argc (self.parse offset argc argv : _ × Except (Error T) Parsed).2 := by
  unfold LongOption.parse
  split
  · simp only [parse_progress]; omega
  · simp [parse_progress]

theorem option_has_value_progress {T : Type} [ValueType T] (self : OptionHasValue T)
    (offset argc : Nat) (argv : List Token) (hlt : offset < argc) :
    parse_progress offset argc (self.parse offset argc argv).2 := by
  unfold OptionHasValue.parse
  by_cases hm : ShortOption.match_name self._name (argv.getD offset []) = true
  · rw [if_pos hm]
    by_cases ht : min (self.argNum + 1) self.argLimit > 0 ∧
        self.argNum = min (self.argNum + 1) self.argLimit
    · simp only []
      rw [if_pos ht]
      simp [parse_progress]
    · simp only []
      rw [if_neg ht]
      have hp := consume_makes_progress (ShortOption.full_name self._name) argc argv
        (min (self.argNum + 1) self.argLimit) (argc - (offset + 1)) self.toOptionValue
        self.argNum (offset + 1) (le_refl _)
      revert hp
      generalize consume (ShortOption.full_name self._name) argc argv
        (min (self.argNum + 1) self.argLimit) (argc - (offset + 1)) self.toOptionValue
        self.argNum (offset + 1) = r
      obtain ⟨v, r2⟩ := r
      cases r2 with
      | error e => intro hp; exact hp
      | ok p =>
        obtain ⟨j, o⟩ := p
        intro hp
        simp only [consume_progress] at hp
        dsimp only
        split
        · simp [parse_progress]
        · simp only [parse_progress]
          omega
  · rw [if_neg hm]
    simp [parse_progress]

theorem long_option_has_value_progress {T : Type} [ValueType T] (self : LongOptionHasValue T)
    (offset argc : Nat) (argv : List Token) (hlt : offset < argc) :
    parse_progress offset argc (self.parse offset argc argv).2 := by
  unfold LongOptionHasValue.parse
  simp only []
  by_cases hm : LongOption.match_name self._name
      (substr (argv.getD offset []) 0 (find (argv.getD offset []) '=')) = true
  · rw [if_pos hm]
    cases hf : find (argv.getD offset []) '=' with
    | some pos =>
      simp only []
      by_cases hp : (self._arg_pattern &&& ARG_PATTERN.ASSIGN) ≠ ARG_PATTERN.ASSIGN
      · rw [if_pos hp]; simp [parse_progress]
      · rw [if_neg hp]
        by_cases ht : self.argLimit > 0 ∧ self.argNum = self.argLimit
        · rw [if_pos ht]; simp [parse_progress]
        · rw [if_neg ht]
          cases happ : self.toOptionValue.append
              (substr (argv.getD offset []) (pos + 1) none) with
          | error e => simp [parse_progress]
          | ok v => simp only [parse_progress]; omega
    | none =>
      simp only []
      by_cases hp : (self._arg_pattern &&& ARG_PATTERN.SPACE) ≠ ARG_PATTERN.SPACE
      · rw [if_pos hp]; simp [parse_progress]
      · rw [if_neg hp]
        by_cases ht : self.argLimit > 0 ∧ self.argNum = self.argLimit
        · rw [if_pos ht]; simp [parse_progress]
        · rw [if_neg ht]
          have hp := consume_makes_progress (LongOption.full_name self._name) argc argv
            self.argLimit (argc - (offset + 1)) self.toOptionValue
            self.argNum (offset + 1) (le_refl _)
          revert hp
          generalize consume (LongOption.full_name self._name) argc argv
            self.argLimit (argc - (offset + 1)) self.toOptionValue
            self.argNum (offset + 1) = r
          obtain ⟨v, r2⟩ := r
          cases r2 with
          | error e => intro hp; exact hp
          | ok p =>
            obtain ⟨j, o⟩ := p
            intro hp
            simp only [consume_progress] at hp
            dsimp only
            split
            · simp [parse_progress]
            · simp only [parse_progress]
              omega
  · rw [if_neg hm]
    simp [parse_progress]

theorem unnamed_option_progress {T : Type} [ValueType T] (self : UnnamedOption T)
    (offset argc : Nat) (argv : List Token) (hlt : offset < argc) :
    parse_progress offset argc (self.parse offset argc argv).2 := by
  unfold UnnamedOption.parse
  by_cases h : self.argNum < self.argLimit
  · rw [if_pos h]
    cases happ : self.toOptionValue.append (argv.getD offset []) with
    | error e => simp [parse_progress]
    | ok v =>
      simp only []
      split
      · simp only [parse_progress]; omega
      · simp only [parse_progress]; omega
  · rw [if_neg h]
    simp [parse_progress]

theorem short_entry_progress {T : Type} [ValueType T] (self : ShortEntry T)
    (offset argc : Nat) (argv : List Token) (hlt : offset < argc) :
    parse_progress offset argc (self.parse offset argc argv).2 := by
  cases self with
  | option o => exact short_option_progress o offset argc argv hlt
  | optionHasValue o => exact option_has_value_progress o offset argc argv hlt

theorem long_entry_progress {T : Type} [ValueType T] (self : LongEntry T)
    (offset argc : Nat) (argv : List Token) (hlt : offset < argc) :
    parse_progress offset argc (self.parse offset argc argv).2 := by
  cases self with
  | longOption o => exact long_option_progress o offset argc argv hlt
  | longOptionHasValue o => exact long_option_has_value_progress o offset argc argv hlt

theorem scan_progress {α T : Type}
    (parse : α → Nat → Nat → List Token → α × Except (Error T) Parsed) (argv : List Token)
    (hparse : ∀ ptr offset argc, offset < argc →
      parse_progress offset argc (parse ptr offset argc argv).2) :
    ∀ (bucket : List α) (offset argc : Nat), offset < argc →
      parse_progress offset argc (scan parse argv bucket offset argc).2 := by
  intro bucket
  induction bucket with
  | nil =>
    intro offset argc _
    simp [scan, parse_progress]
  | cons ptr rest ih =>
    intro offset argc hlt
    have hp := hparse ptr offset argc hlt
    revert hp
    unfold scan
    generalize parse ptr offset argc argv = r
    obtain ⟨ptr', r2⟩ := r
    cases r2 with
    | error e => intro hp; exact hp
    | ok p =>
      obtain ⟨b, o, a⟩ := p
      cases b with
      | true => intro hp; exact hp
      | false =>
        intro hp
        simp only [parse_progress] at hp
        obtain ⟨ho, ha⟩ := hp
        subst ho; subst ha
        exact ih o a hlt

theorem loop_progress_of_step {T : Type} (offset argc offset' argc' : Nat)
    (r : Except (Error T) Nat) (h1 : offset ≤ offset') (h2 : offset' ≤ argc')
    (h3 : argc' ≤ argc) (h : loop_progress offset' argc' r) : loop_progress offset argc r := by
  cases r with
  | error e => exact h
  | ok o =>
    simp only [loop_progress] at h ⊢
    obtain ⟨ha, hb⟩ := h
    have := hb h2
    exact ⟨by omega, fun _ => by omega⟩

theorem parse_loop_progress {T : Type} [ValueType T] (argv : List Token) :
    ∀ (fuel : Nat) (self : OptionMap T) (offset argc : Nat), argc - offset ≤ fuel →
      loop_progress offset argc (OptionMap.parse_loop argv fuel self offset argc).2 := by
  intro fuel
  induction fuel with
  | zero =>
    intro self offset argc hf
    have hc : ¬ offset < argc := by omega
    simp only [OptionMap.parse_loop, hc, if_false, loop_progress]
    exact ⟨le_refl _, fun h => h⟩
  | succ fuel ih =>
    intro self offset argc hf
    by_cases hc : offset < argc
    · unfold OptionMap.parse_loop
      rw [if_pos hc]
      by_cases h1 : is_option (argv.getD offset []) = true
      · rw [if_pos h1]
        have hp := scan_progress ShortEntry.parse argv
          (fun ptr o a h => short_entry_progress ptr o a argv h) self._options offset argc hc
        revert hp
        generalize scan ShortEntry.parse argv self._options offset argc = r
        obtain ⟨b, r2⟩ := r
        cases r2 with
        | error e => intro hp; exact hp
        | ok p =>
          obtain ⟨ex, o, a⟩ := p
          cases ex with
          | false => intro _; simp [loop_progress]
          | true =>
            intro hp
            simp only [parse_progress] at hp
            simp only [Bool.not_true, Bool.false_eq_true, if_false]
            exact loop_progress_of_step offset argc o a _ (by omega) hp.2.1 hp.2.2
              (ih _ o a (by omega))
      · rw [if_neg h1]
        by_cases h2 : is_long_option (argv.getD offset []) = true
        · rw [if_pos h2]
          have hp := scan_progress LongEntry.parse argv
            (fun ptr o a h => long_entry_progress ptr o a argv h) self._long_options offset
            argc hc
          revert hp
          generalize scan LongEntry.parse argv self._long_options offset argc = r
          obtain ⟨b, r2⟩ := r
          cases r2 with
          | error e => intro hp; exact hp
          | ok p =>
            obtain ⟨ex, o, a⟩ := p
            cases ex with
            | false => intro _; simp [loop_progress]
            | true =>
              intro hp
              simp only [parse_progress] at hp
              simp only [Bool.not_true, Bool.false_eq_true, if_false]
              exact loop_progress_of_step offset argc o a _ (by omega) hp.2.1 hp.2.2
                (ih _ o a (by omega))
        · rw [if_neg h2]
          simp only []
          by_cases h3 : is_dash (argv.getD offset []) = true
          · simp only [h3, if_true, true_and]
            by_cases h4 : offset + 1 ≥ argc
            · rw [if_pos h4]
              exact loop_progress_of_step offset argc (offset + 1) argc _ (by omega)
                (by omega) (le_refl _) (ih _ (offset + 1) argc (by omega))
            · rw [if_neg h4]
              cases hu : self._unnamed_options with
              | none => simp [loop_progress]
              | some u =>
                simp only []
                have hp := unnamed_option_progress u (offset + 1) argc argv (by omega)
                revert hp
                generalize u.parse (offset + 1) argc argv = r
                obtain ⟨u', r2⟩ := r
                cases r2 with
                | error e => intro hp; exact hp
                | ok p =>
                  obtain ⟨ex, o, a⟩ := p
                  cases ex with
                  | false => intro _; simp [loop_progress]
                  | true =>
                    intro hp
                    simp only [parse_progress] at hp
                    exact loop_progress_of_step offset argc o a _ (by omega) hp.2.1 hp.2.2
                      (ih _ o a (by omega))
          · simp only [h3, Bool.false_eq_true, if_false, false_and]
            cases hu : self._unnamed_options with
            | none => simp [loop_progress]
            | some u =>
              simp only []
              have hp := unnamed_option_progress u offset argc argv hc
              revert hp
              generalize u.parse offset argc argv = r
              obtain ⟨u', r2⟩ := r
              cases r2 with
              | error e => intro hp; exact hp
              | ok p =>
                obtain ⟨ex, o, a⟩ := p
                cases ex with
                | false => intro _; simp [loop_progress]
                | true =>
                  intro hp
                  simp only [parse_progress] at hp
                  exact loop_progress_of_step offset argc o a _ (by omega) hp.2.1 hp.2.2
                    (ih _ o a (by omega))
    · cases fuel <;>
        (simp only [OptionMap.parse_loop, hc, if_false, loop_progress]
         exact ⟨le_refl _, fun h => h⟩)

theorem validate_ordered_ne_diverged {T : Type} (self : OptionMap T) (refs : List OptionRef)
    (e : Error T) (h : self.validate_ordered refs = .error e) : e ≠ .diverged := by
  induction refs with
  | nil => simp [OptionMap.validate_ordered] at h
  | cons r rest ih =>
    unfold OptionMap.validate_ordered at h
    cases hl : self.lock r with
    | none => rw [hl] at h; exact ih h
    | some p =>
      rw [hl] at h
      cases hv : p.validate with
      | error err =>
        simp only [hv, Except.error.injEq] at h
        subst h
        simp
      | ok u => simp only [hv] at h; exact ih h

theorem validate_ne_diverged {T : Type} (self : OptionMap T) (e : Error T)
    (h : self.validate = .error e) : e ≠ .diverged := by
  unfold OptionMap.validate at h
  cases ho : self.validate_ordered self._ordered_options with
  | error err =>
    rw [ho] at h
    simp only [Except.error.injEq] at h
    subst h
    exact validate_ordered_ne_diverged self _ _ ho
  | ok u =>
    rw [ho] at h
    cases hu : self._unnamed_options with
    | none => rw [hu] at h; simp at h
    | some un =>
      rw [hu] at h
      cases hv : un.validateArg with
      | error err =>
        simp only [hv, Except.error.injEq] at h
        subst h
        simp
      | ok _ => simp [hv] at h

/-- The model of `OptionMap::parse` is total: the iteration budget `argc` given to its
loop is never used up, and a returned offset is at most `argc`. -/
theorem parse_returns {T : Type} [ValueType T] (self : OptionMap T) (argc : Nat)
    (argv : List Token) (validate : Bool) :
    match (self.parse argc argv validate).2 with
    | .error e => e ≠ .diverged
    | .ok offset => offset ≤ argc := by
  have hp := parse_loop_progress argv argc self 0 argc (by omega)
  revert hp
  unfold OptionMap.parse
  generalize OptionMap.parse_loop argv argc self 0 argc = r
  obtain ⟨m, r2⟩ := r
  cases r2 with
  | error e => intro hp; exact hp
  | ok o =>
    intro hp
    simp only [loop_progress] at hp
    have ho : o ≤ argc := hp.2 (Nat.zero_le _)
    cases validate with
    | false => exact ho
    | true =>
      simp only [if_true]
      cases hv : m.validate with
      | error e => exact validate_ne_diverged m e hv
      | ok _ => exact ho

/-! ## Lemmas on construction and lookup -/

theorem limit_two_eq : (Value.new : Value Token).limit 2 = .ok limit_two := rfl

theorem base_new_eq {T : Type} (name description : Token) :
    (OptionBase.new name description : Except (Error T) OptionBase) =
      if name.head? = some '-' then .error .name_starts_with_dash
      else if '=' ∈ name then .error .name_contains_equal
      else if ' ' ∈ name then .error .name_contains_space
      else .ok { _name := name, _description := description } := by
  unfold OptionBase.new
  have h1 : (find name '=' ≠ none) ↔ '=' ∈ name := by
    rw [ne_eq, find_eq_none_iff]; exact not_not
  have h2 : (find name ' ' ≠ none) ↔ ' ' ∈ name := by
    rw [ne_eq, find_eq_none_iff]; exact not_not
  by_cases ha : name.head? = some '-'
  · rw [if_pos ha, if_pos ha]
  · rw [if_neg ha, if_neg ha]
    by_cases hb : '=' ∈ name
    · rw [if_pos (h1.2 hb), if_pos hb]
    · rw [if_neg (fun h => hb (h1.1 h)), if_neg hb]
      by_cases hc : ' ' ∈ name
      · rw [if_pos (h2.2 hc), if_pos hc]
      · rw [if_neg (fun h => hc (h2.1 h)), if_neg hc]

theorem base_new_error_iff {T : Type} (name description : Token) :
    (∃ e, (OptionBase.new name description : Except (Error T) OptionBase) = .error e) ↔
      (name.head? = some '-' ∨ '=' ∈ name ∨ ' ' ∈ name) := by
  rw [base_new_eq]
  by_cases ha : name.head? = some '-'
  · simp [ha]
  · by_cases hb : '=' ∈ name
    · simp [ha, hb]
    · by_cases hc : ' ' ∈ name
      · simp [ha, hb, hc]
      · simp [ha, hb, hc]

theorem find_marker (n : Token) (c : Char) (h : c ∉ n) :
    find (n ++ [c]) c = some n.length := find_append_cons n [] c h

theorem find_other_marker (n : Token) (c d : Char) (h : c ∉ n) (hcd : c ≠ d) :
    find (n ++ [d]) c = none :=
  (find_eq_none_iff _ _).2 (by simp [h, hcd])

theorem length_minus_one_marker (n : Token) (c : Char) :
    length_minus_one (n ++ [c]) = some n.length := by
  simp [length_minus_one]

theorem length_minus_one_ne_none (n : Token) (hn : n ≠ []) : length_minus_one n ≠ none := by
  cases n with
  | nil => exact absurd rfl hn
  | cons x rest => simp [length_minus_one]

theorem substr_marker (n : Token) (c : Char) : substr (n ++ [c]) 0 (some n.length) = n :=
  substr_before n [] c

theorem use_impl_assign {T : Type} (n : Token) (options : List (AnyOption T))
    (heq : '=' ∉ n) :
    OptionMap.use_impl (n ++ ['=']) options =
      options.find? (fun option =>
        option.name == n &&
          match option.arg_pattern? with
          | some p => (p &&& ARG_PATTERN.ASSIGN) == ARG_PATTERN.ASSIGN
          | none => false) := by
  unfold OptionMap.use_impl
  rw [find_marker n '=' heq, length_minus_one_marker]
  simp only [if_true, substr_marker]

theorem use_impl_space {T : Type} (n : Token) (options : List (AnyOption T))
    (heq : '=' ∉ n) (hsp : ' ' ∉ n) :
    OptionMap.use_impl (n ++ [' ']) options =
      options.find? (fun option =>
        option.name == n &&
          match option.arg_pattern? with
          | some p => (p &&& ARG_PATTERN.SPACE) == ARG_PATTERN.SPACE
          | none => false) := by
  unfold OptionMap.use_impl
  rw [find_other_marker n '=' ' ' heq (by decide), find_marker n ' ' hsp,
    length_minus_one_marker]
  simp only [reduceCtorEq, if_false, if_true, substr_marker]

theorem use_impl_plain {T : Type} (n : Token) (options : List (AnyOption T))
    (hn : n ≠ []) (heq : '=' ∉ n) (hsp : ' ' ∉ n) :
    OptionMap.use_impl n options = options.find? (fun option => option.name == n) := by
  unfold OptionMap.use_impl
  rw [(find_eq_none_iff n '=').2 heq, (find_eq_none_iff n ' ').2 hsp]
  have h := length_minus_one_ne_none n hn
  rw [if_neg (fun e => h e.symm), if_neg (fun e => h e.symm)]

/-! ## Lemmas on the short valued option and on the value loop -/

theorem is_dash_not_option (str : Token) (h : is_dash str = true) :
    is_option str = false ∧ is_long_option str = false := by
  match str with
  | [] => simp [is_option, is_long_option]
  | [c] => simp [is_option, is_long_option]
  | [c0, c1] =>
    simp only [is_dash, List.all_cons, List.all_nil, Bool.and_true, List.isEmpty_cons,
      Bool.not_false, Bool.and_eq_true, beq_iff_eq] at h
    simp [is_option, is_long_option, h.1, h.2]
  | c0 :: c1 :: c2 :: rest =>
    simp only [is_dash, List.all_cons, List.isEmpty_cons, Bool.not_false, Bool.and_true,
      Bool.and_eq_true, beq_iff_eq] at h
    simp [is_option, is_long_option, h.1, h.2.1, h.2.2.1]

theorem is_long_option_not_option (str : Token) (h : is_long_option str = true) :
    is_option str = false := by
  match str with
  | [] => simp [is_option]
  | [c] => simp [is_option]
  | [c0, c1] => simp [is_long_option] at h
  | c0 :: c1 :: c2 :: rest =>
    simp only [is_long_option, Bool.and_eq_true, beq_iff_eq] at h
    simp [is_option, h.1.2]

/-- One step of the value loop on a dash-only token with a dash-led token behind it:
that token is appended and the loop goes on two places further. -/
theorem consume_dash_escape (full_name : Token) (argc : Nat) (argv : List Token)
    (limit fuel : Nat) (self : OptionValue Token) (j offset2 : Nat)
    (hcap : j < limit) (hin : offset2 < argc) (hd : is_dash (argv.getD offset2 []) = true)
    (hnext : offset2 + 1 < argc ∧ (argv.getD (offset2 + 1) []).head? = some '-') :
    consume full_name argc argv limit (fuel + 1) self j offset2 =
      consume full_name argc argv limit fuel
        { self with _value := self._value ++ [argv.getD (offset2 + 1) []] }
        (j + 1) (offset2 + 2) := by
  obtain ⟨h1, h2⟩ := is_dash_not_option _ hd
  simp only [consume, hcap, hin, and_self, if_true, h1, h2, Bool.or_self, Bool.false_eq_true,
    if_false, hd, hnext, append_string]

/-- One step of the value loop on a dash-only token without a dash-led token behind
it: the loop ends one place further and nothing is appended. -/
theorem consume_dash_stop {T : Type} [ValueType T] (full_name : Token) (argc : Nat)
    (argv : List Token) (limit fuel : Nat) (self : OptionValue T) (j offset2 : Nat)
    (hcap : j < limit) (hin : offset2 < argc) (hd : is_dash (argv.getD offset2 []) = true)
    (hnext : ¬ (offset2 + 1 < argc ∧ (argv.getD (offset2 + 1) []).head? = some '-')) :
    consume full_name argc argv limit (fuel + 1) self j offset2 =
      (self, .ok (j, offset2 + 1)) := by
  obtain ⟨h1, h2⟩ := is_dash_not_option _ hd
  simp only [consume, hcap, hin, and_self, if_true, h1, h2, Bool.or_self, Bool.false_eq_true,
    if_false, hd, hnext]

/-- A matching token on a short valued option whose bound arguments have reached the
limit raises the too-many-values error and leaves the option as it was. -/
theorem short_parse_too_many {T : Type} [ValueType T] (self : OptionHasValue T)
    (offset argc : Nat) (argv : List Token) (hn : self._name ≠ [])
    (hlimit : 0 < self._value_info._limit)
    (hfull : self._value.length = self._value_info._limit)
    (htok : argv.getD offset [] = '-' :: self._name) :
    self.parse offset argc argv
      = (self, .error (.too_many_values (ShortOption.full_name self._name))) := by
  have hm : ShortOption.match_name self._name ('-' :: self._name) = true :=
    (short_match_name_iff _ _ hn).2 rfl
  have hlt : min (self.argNum + 1) self.argLimit > 0 ∧
      self.argNum = min (self.argNum + 1) self.argLimit := by
    simp only [OptionValue.argNum, OptionValue.argLimit]
    constructor
    · omega
    · omega
  unfold OptionHasValue.parse
  rw [htok, if_pos hm]
  simp only []
  rw [if_pos hlt]

/-- A matching token on a short valued string option with room left, followed by a
plain token: exactly that one token is bound, whatever the limit and the later
arguments are. -/
theorem short_parse_one (self : OptionHasValue Token) (pre rest : List Token) (v : Token)
    (hn : self._name ≠ [])
    (hroom : self._value.length < self._value_info._limit)
    (hv : is_option v = false ∧ is_long_option v = false ∧ is_dash v = false) :
    self.parse pre.length (pre ++ ('-' :: self._name) :: v :: rest).length
        (pre ++ ('-' :: self._name) :: v :: rest) =
      ({ self with _value := self._value ++ [v], _use := true },
        .ok (true, pre.length + 2, (pre ++ ('-' :: self._name) :: v :: rest).length)) := by
  have htok : (pre ++ ('-' :: self._name) :: v :: rest).getD pre.length []
      = '-' :: self._name := getD_append_length pre ('-' :: self._name) (v :: rest)
  have hm : ShortOption.match_name self._name ('-' :: self._name) = true :=
    (short_match_name_iff _ _ hn).2 rfl
  have hmin : min (self._value.length + 1) self._value_info._limit = self._value.length + 1 := by
    omega
  have hlt : ¬ (self._value.length + 1 > 0 ∧ self._value.length = self._value.length + 1) := by
    omega
  have hargv : pre ++ ('-' :: self._name) :: v :: rest
      = (pre ++ [('-' :: self._name)]) ++ [v] ++ rest := by simp
  have hcons := consume_bare (ShortOption.full_name self._name) (self._value.length + 1) [v]
    (pre ++ [('-' :: self._name)]) rest self.toOptionValue self._value.length
    ([v].length + rest.length)
    (by intro w hw; simp only [List.mem_singleton] at hw; subst hw; exact hv)
    (le_refl _) (Or.inl rfl) (le_refl _)
  have hfuel : (pre ++ [('-' :: self._name)] ++ [v] ++ rest).length - (pre.length + 1)
      = [v].length + rest.length := by
    simp; omega
  simp only [OptionHasValue.parse, htok, hm, if_true, OptionValue.argNum,
    OptionValue.argLimit, hmin, hlt, if_false]
  rw [hargv, hfuel, show pre.length + 1 = (pre ++ [('-' :: self._name)]).length by simp,
    hcons]
  simp

/-- The space form of a long valued string option without bound arguments on `m >= 1`
plain tokens: the first `min(m, limit)` of them are bound. -/
theorem long_parse_space_min (self : LongOptionHasValue Token) (pre vs rest : List Token)
    (hn : self._name ≠ []) (heq : '=' ∉ self._name)
    (hpat : (self._arg_pattern &&& ARG_PATTERN.SPACE) = ARG_PATTERN.SPACE)
    (hval : self._value = []) (hlimit : 0 < self._value_info._limit) (hm : 1 ≤ vs.length)
    (hvs : ∀ v ∈ vs, is_option v = false ∧ is_long_option v = false ∧ is_dash v = false)
    (hrest : rest = [] ∨ ∃ r rs, rest = r :: rs ∧ (is_option r || is_long_option r) = true) :
    self.parse pre.length (pre ++ ('-' :: '-' :: self._name) :: vs ++ rest).length
        (pre ++ ('-' :: '-' :: self._name) :: vs ++ rest) =
      ({ self with _value := vs.take self._value_info._limit, _use := true },
        .ok (true, pre.length + 1 + min vs.length self._value_info._limit,
          (pre ++ ('-' :: '-' :: self._name) :: vs ++ rest).length)) := by
  have hsplit : pre ++ ('-' :: '-' :: self._name) :: vs ++ rest
      = pre ++ ('-' :: '-' :: self._name) :: vs.take self._value_info._limit
        ++ (vs.drop self._value_info._limit ++ rest) := by
    rw [show pre ++ ('-' :: '-' :: self._name) :: vs.take self._value_info._limit
        ++ (vs.drop self._value_info._limit ++ rest)
      = pre ++ ('-' :: '-' :: self._name)
        :: (vs.take self._value_info._limit ++ vs.drop self._value_info._limit) ++ rest by
        simp only [List.append_assoc, List.cons_append], List.take_append_drop]
  have hlen : (vs.take self._value_info._limit).length = min vs.length self._value_info._limit := by
    rw [List.length_take, Nat.min_comm]
  have h := long_parse_space self pre (vs.take self._value_info._limit)
    (vs.drop self._value_info._limit ++ rest) hn heq hpat
    (by rw [hval]; exact hlimit)
    (fun v hv => hvs v (List.mem_of_mem_take hv))
    (by rw [hval, hlen]; simp only [List.length_nil, Nat.zero_add]; omega)
    (by
      rw [hval, hlen]
      by_cases hc : self._value_info._limit ≤ vs.length
      · left; simp only [List.length_nil, Nat.zero_add]; omega
      · right
        have : vs.drop self._value_info._limit = [] := List.drop_eq_nil_of_le (by omega)
        rw [this, List.nil_append]
        exact hrest)
    (by rw [hval, hlen]; simp only [List.length_nil, Nat.zero_add]; omega)
  rw [← hsplit] at h
  rw [h, hval, hlen]
  rfl

/-! ## Lemmas on tokens that an entry leaves alone -/

/-- A long valued option whose arg-pattern lacks SPACE leaves a token without `=` alone. -/
theorem long_parse_without_space {T : Type} [ValueType T] (self : LongOptionHasValue T)
    (offset argc : Nat) (argv : List Token)
    (hpat : (self._arg_pattern &&& ARG_PATTERN.SPACE) ≠ ARG_PATTERN.SPACE)
    (htok : '=' ∉ argv.getD offset []) :
    self.parse offset argc argv = (self, .ok (false, offset, argc)) := by
  unfold LongOptionHasValue.parse
  simp only []
  rw [(find_eq_none_iff _ _).2 htok]
  simp only [hpat, ne_eq, not_false_eq_true, if_true, ite_self]

/-- A long valued option whose arg-pattern lacks ASSIGN leaves a token with `=` alone. -/
theorem long_parse_without_assign {T : Type} [ValueType T] (self : LongOptionHasValue T)
    (offset argc : Nat) (argv : List Token)
    (hpat : (self._arg_pattern &&& ARG_PATTERN.ASSIGN) ≠ ARG_PATTERN.ASSIGN)
    (htok : '=' ∈ argv.getD offset []) :
    self.parse offset argc argv = (self, .ok (false, offset, argc)) := by
  unfold LongOptionHasValue.parse
  simp only []
  cases hf : find (argv.getD offset []) '=' with
  | none => exact absurd htok ((find_eq_none_iff _ _).1 hf)
  | some pos => simp only [hpat, ne_eq, not_false_eq_true, if_true, ite_self]

theorem scan_all_false {α T : Type}
    (parse : α → Nat → Nat → List Token → α × Except (Error T) Parsed) (argv : List Token)
    (offset argc : Nat) :
    ∀ (bucket : List α),
      (∀ ptr ∈ bucket, parse ptr offset argc argv = (ptr, .ok (false, offset, argc))) →
      scan parse argv bucket offset argc = (bucket, .ok (false, offset, argc)) := by
  intro bucket
  induction bucket with
  | nil => intro _; rfl
  | cons ptr rest ih =>
    intro h
    rw [scan_miss parse argv ptr ptr rest offset argc offset argc (h ptr (by simp)),
      ih (fun p hp => h p (by simp [hp]))]

theorem parse_loop_short_unknown {T : Type} [ValueType T] (argv : List Token) (fuel : Nat)
    (self : OptionMap T) (offset argc : Nat) (b : List (ShortEntry T)) (offset' argc' : Nat)
    (hlt : offset < argc) (h1 : is_option (argv.getD offset []) = true)
    (hs : scan ShortEntry.parse argv self._options offset argc
      = (b, .ok (false, offset', argc'))) :
    OptionMap.parse_loop argv (fuel + 1) self offset argc
      = ({ self with _options := b }, .error (.unknown_option (argv.getD offset' []))) := by
  simp only [OptionMap.parse_loop, hlt, if_true, h1, hs, Bool.not_false]

theorem parse_loop_long_unknown {T : Type} [ValueType T] (argv : List Token) (fuel : Nat)
    (self : OptionMap T) (offset argc : Nat) (b : List (LongEntry T)) (offset' argc' : Nat)
    (hlt : offset < argc) (h2 : is_long_option (argv.getD offset []) = true)
    (hs : scan LongEntry.parse argv self._long_options offset argc
      = (b, .ok (false, offset', argc'))) :
    OptionMap.parse_loop argv (fuel + 1) self offset argc
      = ({ self with _long_options := b },
          .error (.unknown_long_option (argv.getD offset' []))) := by
  have h1 := is_long_option_not_option _ h2
  simp only [OptionMap.parse_loop, hlt, if_true, h1, h2, hs, Bool.not_false,
    Bool.false_eq_true, if_false]

/-- The step of the loop of `OptionMap::parse` on a token that is neither
option-shaped nor dash-only: it goes to the positional option. -/
theorem parse_loop_bare {T : Type} [ValueType T] (argv : List Token) (fuel : Nat)
    (self : OptionMap T) (offset argc : Nat) (hlt : offset < argc)
    (h1 : is_option (argv.getD offset []) = false)
    (h2 : is_long_option (argv.getD offset []) = false)
    (h3 : is_dash (argv.getD offset []) = false) :
    OptionMap.parse_loop argv (fuel + 1) self offset argc =
      match self._unnamed_options with
      | some u =>
        match u.parse offset argc argv with
        | (u', .error e) => ({ self with _unnamed_options := some u' }, .error e)
        | (u', .ok (false, offset', _)) =>
          ({ self with _unnamed_options := some u' },
            .error (.unnamed_rejected (argv.getD offset' [])))
        | (u', .ok (true, offset', argc')) =>
          OptionMap.parse_loop argv fuel { self with _unnamed_options := some u' } offset' argc'
      | none => (self, .error .unnamed_not_allowed) := by
  simp only [OptionMap.parse_loop, hlt, if_true, h1, h2, h3, Bool.false_eq_true, if_false,
    false_and]

theorem unnamed_parse_full {T : Type} [ValueType T] (self : UnnamedOption T)
    (offset argc : Nat) (argv : List Token)
    (hfull : self._value_info._limit ≤ self._value.length) :
    self.parse offset argc argv = (self, .ok (false, offset, argc)) := by
  have h : ¬ self.argNum < self.argLimit := by
    simp only [OptionValue.argNum, OptionValue.argLimit]; omega
  unfold UnnamedOption.parse
  rw [if_neg h]

theorem append_of_transform {T : Type} [ValueType T] (self : OptionValue T) (val : Token)
    (x : T) (h : ValueType.transform val = some x) :
    self.append val = .ok { self with _value := self._value ++ [x] } := by
  simp only [OptionValue.append, Value.transform, h]

theorem unnamed_parse_room {T : Type} [ValueType T] (self : UnnamedOption T)
    (offset argc : Nat) (argv : List Token) (x : T)
    (hroom : self._value.length < self._value_info._limit)
    (hx : ValueType.transform (argv.getD offset []) = some x) :
    self.parse offset argc argv =
      ({ self with _value := self._value ++ [x], _use := true },
        .ok (true, offset + 1,
          if self._value.length + 1 = self._value_info._limit ∧ self._pause = true
          then offset + 1 else argc)) := by
  have h : self.argNum < self.argLimit := hroom
  unfold UnnamedOption.parse
  rw [if_pos h, append_of_transform self.toOptionValue _ x hx]
  simp only [OptionValue.argNum, OptionValue.argLimit, List.length_append,
    List.length_singleton]
  split <;> rfl

/-! ## Lemmas on entries that return `false` -/

theorem short_option_false_unchanged {T : Type} (self : ShortOption) (offset argc : Nat)
    (argv : List Token) (offset' argc' : Nat)
    (h : (self.parse offset argc argv : ShortOption × Except (Error T) Parsed).2
      = .ok (false, offset', argc')) :
    (self.parse offset argc argv : ShortOption × Except (Error T) Parsed)
      = (self, .ok (false, offset, argc)) := by
  unfold ShortOption.parse at h ⊢
  by_cases hm : ShortOption.match_name self._name (argv.getD offset []) = true
  · rw [if_pos hm] at h; simp at h
  · rw [if_neg hm]

theorem long_option_false_unchanged {T : Type} (self : LongOption) (offset argc : Nat)
    (argv : List Token) (offset' argc' : Nat)
    (h : (self.parse offset argc argv : LongOption × Except (Error T) Parsed).2
      = .ok (false, offset', argc')) :
    (self.parse offset argc argv : LongOption × Except (Error T) Parsed)
      = (self, .ok (false, offset, argc)) := by
  unfold LongOption.parse at h ⊢
  by_cases hm : LongOption.match_name self._name (argv.getD offset []) = true
  · rw [if_pos hm] at h; simp at h
  · rw [if_neg hm]

theorem option_has_value_false_unchanged {T : Type} [ValueType T] (self : OptionHasValue T)
    (offset argc : Nat) (argv : List Token) (offset' argc' : Nat)
    (h : (self.parse offset argc argv).2 = .ok (false, offset', argc')) :
    self.parse offset argc argv = (self, .ok (false, offset, argc)) := by
  unfold OptionHasValue.parse at h ⊢
  by_cases hm : ShortOption.match_name self._name (argv.getD offset []) = true
  · rw [if_pos hm] at h
    simp only [] at h
    by_cases ht : min (self.argNum + 1) self.argLimit > 0 ∧
        self.argNum = min (self.argNum + 1) self.argLimit
    · rw [if_pos ht] at h; simp at h
    · rw [if_neg ht] at h
      revert h
      generalize consume (ShortOption.full_name self._name) argc argv
        (min (self.argNum + 1) self.argLimit) (argc - (offset + 1)) self.toOptionValue
        self.argNum (offset + 1) = r
      obtain ⟨v, r2⟩ := r
      cases r2 with
      | error e => intro h; simp at h
      | ok p =>
        obtain ⟨j, o⟩ := p
        dsimp only
        split <;> intro h <;> simp at h
  · rw [if_neg hm]

theorem long_option_has_value_false_unchanged {T : Type} [ValueType T]
    (self : LongOptionHasValue T) (offset argc : Nat) (argv : List Token)
    (offset' argc' : Nat)
    (h : (self.parse offset argc argv).2 = .ok (false, offset', argc')) :
    self.parse offset argc argv = (self, .ok (false, offset, argc)) := by
  unfold LongOptionHasValue.parse at h ⊢
  simp only [] at h ⊢
  by_cases hm : LongOption.match_name self._name
      (substr (argv.getD offset []) 0 (find (argv.getD offset []) '=')) = true
  · rw [if_pos hm] at h ⊢
    cases hf : find (argv.getD offset []) '=' with
    | some pos =>
      rw [hf] at h
      simp only [] at h ⊢
      by_cases hp : (self._arg_pattern &&& ARG_PATTERN.ASSIGN) ≠ ARG_PATTERN.ASSIGN
      · rw [if_pos hp]
      · rw [if_neg hp] at h
        by_cases ht : self.argLimit > 0 ∧ self.argNum = self.argLimit
        · rw [if_pos ht] at h; simp at h
        · rw [if_neg ht] at h
          cases happ : self.toOptionValue.append
              (substr (argv.getD offset []) (pos + 1) none) with
          | error e => rw [happ] at h; simp at h
          | ok v => rw [happ] at h; simp at h
    | none =>
      rw [hf] at h
      simp only [] at h ⊢
      by_cases hp : (self._arg_pattern &&& ARG_PATTERN.SPACE) ≠ ARG_PATTERN.SPACE
      · rw [if_pos hp]
      · rw [if_neg hp] at h
        by_cases ht : self.argLimit > 0 ∧ self.argNum = self.argLimit
        · rw [if_pos ht] at h; simp at h
        · rw [if_neg ht] at h
          revert h
          generalize consume (LongOption.full_name self._name) argc argv
            self.argLimit (argc - (offset + 1)) self.toOptionValue
            self.argNum (offset + 1) = r
          obtain ⟨v, r2⟩ := r
          cases r2 with
          | error e => intro h; simp at h
          | ok p =>
            obtain ⟨j, o⟩ := p
            dsimp only
            split <;> intro h <;> simp at h
  · rw [if_neg hm]

theorem short_entry_false_unchanged {T : Type} [ValueType T] (self : ShortEntry T)
    (offset argc : Nat) (argv : List Token) (offset' argc' : Nat)
    (h : (self.parse offset argc argv).2 = .ok (false, offset', argc')) :
    self.parse offset argc argv = (self, .ok (false, offset, argc)) := by
  cases self with
  | option o =>
    simp only [ShortEntry.parse] at h ⊢
    rw [short_option_false_unchanged o offset argc argv offset' argc' h]
  | optionHasValue o =>
    simp only [ShortEntry.parse] at h ⊢
    rw [option_has_value_false_unchanged o offset argc argv offset' argc' h]

theorem long_entry_false_unchanged {T : Type} [ValueType T] (self : LongEntry T)
    (offset argc : Nat) (argv : List Token) (offset' argc' : Nat)
    (h : (self.parse offset argc argv).2 = .ok (false, offset', argc')) :
    self.parse offset argc argv = (self, .ok (false, offset, argc)) := by
  cases self with
  | longOption o =>
    simp only [LongEntry.parse] at h ⊢
    rw [long_option_false_unchanged o offset argc argv offset' argc' h]
  | longOptionHasValue o =>
    simp only [LongEntry.parse] at h ⊢
    rw [long_option_has_value_false_unchanged o offset argc argv offset' argc' h]

/-! ## Lemmas on what a call of `parse` keeps -/

theorem base_steps_refl (b : OptionBase) : b.steps b := ⟨rfl, rfl, fun h => h⟩

theorem base_steps_trans {a b c : OptionBase} (h1 : a.steps b) (h2 : b.steps c) : a.steps c :=
  ⟨h2.1.trans h1.1, h2.2.1.trans h1.2.1, fun h => h2.2.2 (h1.2.2 h)⟩

theorem base_steps_use (b : OptionBase) : b.steps { b with _use := true } :=
  ⟨rfl, rfl, fun _ => rfl⟩

theorem value_steps_refl {T : Type} (v : OptionValue T) : v.steps v :=
  ⟨rfl, List.prefix_refl _, fun _ h => h⟩

theorem value_steps_trans {T : Type} {a b c : OptionValue T} (h1 : a.steps b) (h2 : b.steps c) :
    a.steps c := by
  obtain ⟨i1, p1, l1⟩ := h1
  obtain ⟨i2, p2, l2⟩ := h2
  refine ⟨i2.trans i1, p1.trans p2, fun h h' => ?_⟩
  have e : b.argLimit = a.argLimit := by unfold OptionValue.argLimit; rw [i1]
  exact l2 (by rw [e]; exact h) (l1 h h')

theorem short_steps_refl {T : Type} (e : ShortEntry T) : e.steps e := by
  cases e with
  | option o => exact base_steps_refl _
  | optionHasValue o => exact ⟨base_steps_refl _, value_steps_refl _, rfl⟩

theorem long_steps_refl {T : Type} (e : LongEntry T) : e.steps e := by
  cases e with
  | longOption o => exact base_steps_refl _
  | longOptionHasValue o => exact ⟨base_steps_refl _, value_steps_refl _, rfl⟩

theorem short_steps_trans {T : Type} {a b c : ShortEntry T} (h1 : a.steps b) (h2 : b.steps c) :
    a.steps c := by
  cases a <;> cases b <;> cases c <;> simp only [ShortEntry.steps] at h1 h2 ⊢
  · exact base_steps_trans h1 h2
  · exact ⟨base_steps_trans h1.1 h2.1, value_steps_trans h1.2.1 h2.2.1, h2.2.2.trans h1.2.2⟩

theorem long_steps_trans {T : Type} {a b c : LongEntry T} (h1 : a.steps b) (h2 : b.steps c) :
    a.steps c := by
  cases a <;> cases b <;> cases c <;> simp only [LongEntry.steps] at h1 h2 ⊢
  · exact base_steps_trans h1 h2
  · exact ⟨base_steps_trans h1.1 h2.1, value_steps_trans h1.2.1 h2.2.1, h2.2.2.trans h1.2.2⟩

theorem unnamed_steps_refl {T : Type} (u : UnnamedOption T) : u.steps u :=
  ⟨base_steps_refl _, value_steps_refl _, rfl⟩

theorem unnamed_steps_trans {T : Type} {a b c : UnnamedOption T} (h1 : a.steps b)
    (h2 : b.steps c) : a.steps c :=
  ⟨base_steps_trans h1.1 h2.1, value_steps_trans h1.2.1 h2.2.1, h2.2.2.trans h1.2.2⟩

theorem unnamed_opt_steps_refl {T : Type} (u : Option (UnnamedOption T)) :
    UnnamedOption.steps? u u := by
  cases u with
  | none => trivial
  | some u => exact unnamed_steps_refl u

theorem unnamed_opt_steps_trans {T : Type} {a b c : Option (UnnamedOption T)}
    (h1 : UnnamedOption.steps? a b) (h2 : UnnamedOption.steps? b c) :
    UnnamedOption.steps? a c := by
  cases a <;> cases b <;> cases c <;> simp only [UnnamedOption.steps?] at h1 h2 ⊢
  exact unnamed_steps_trans h1 h2

theorem forall2_refl {α : Type} {R : α → α → Prop} (h : ∀ a, R a a) (l : List α) :
    List.Forall₂ R l l := by
  induction l with
  | nil => exact .nil
  | cons a l ih => exact .cons (h a) ih

theorem forall2_trans {α : Type} {R : α → α → Prop} (h : ∀ a b c, R a b → R b c → R a c) :
    ∀ (l1 l2 l3 : List α), List.Forall₂ R l1 l2 → List.Forall₂ R l2 l3 → List.Forall₂ R l1 l3 := by
  intro l1 l2 l3 h1
  induction h1 generalizing l3 with
  | nil => intro h2; cases h2; exact .nil
  | cons hab _ ih =>
    intro h2
    cases h2 with
    | cons hbc h2 => exact .cons (h _ _ _ hab hbc) (ih _ h2)

theorem map_steps_refl {T : Type} (m : OptionMap T) : m.steps m :=
  ⟨@forall2_refl _ ShortEntry.steps short_steps_refl _, @forall2_refl _ LongEntry.steps long_steps_refl _, unnamed_opt_steps_refl _, rfl⟩

theorem map_steps_trans {T : Type} {a b c : OptionMap T} (h1 : a.steps b) (h2 : b.steps c) :
    a.steps c :=
  ⟨@forall2_trans _ ShortEntry.steps (fun _ _ _ => short_steps_trans) _ _ _ h1.1 h2.1,
    @forall2_trans _ LongEntry.steps (fun _ _ _ => long_steps_trans) _ _ _ h1.2.1 h2.2.1,
    unnamed_opt_steps_trans h1.2.2.1 h2.2.2.1, h2.2.2.2.trans h1.2.2.2⟩

theorem append_ok {T : Type} [ValueType T] (self self' : OptionValue T) (tok : Token)
    (h : self.append tok = .ok self') :
    ∃ x, ValueType.transform tok = some x ∧ self' = { self with _value := self._value ++ [x] } := by
  unfold OptionValue.append Value.transform at h
  cases hx : (ValueType.transform tok : Option T) with
  | none => rw [hx] at h; cases h
  | some x =>
    rw [hx] at h
    simp only [Except.ok.injEq] at h
    exact ⟨x, rfl, h.symm⟩

theorem append_frame {T : Type} [ValueType T] (self self' : OptionValue T) (tok : Token)
    (h : self.append tok = .ok self') :
    self'._value_info = self._value_info ∧ self._value <+: self'._value ∧
      self'.argNum = self.argNum + 1 := by
  obtain ⟨x, _, rfl⟩ := append_ok self self' tok h
  exact ⟨rfl, List.prefix_append _ _, by simp [OptionValue.argNum]⟩

theorem consume_frame {T : Type} [ValueType T] (full_name : Token) (argc : Nat)
    (argv : List Token) (limit : Nat) :
    ∀ (fuel : Nat) (self : OptionValue T) (j offset2 : Nat) (v : OptionValue T)
      (r : Except (Error T) (Nat × Nat)), j = self.argNum →
      consume full_name argc argv limit fuel self j offset2 = (v, r) →
      v._value_info = self._value_info ∧ self._value <+: v._value ∧
      v.argNum ≤ max j limit ∧ ∀ j' offset', r = .ok (j', offset') → j' = v.argNum := by
  intro fuel
  induction fuel with
  | zero =>
    intro self j offset2 v r hj h
    unfold consume at h
    split at h
    · cases h
      exact ⟨rfl, List.prefix_refl _, by omega, fun _ _ h => by cases h⟩
    · cases h
      exact ⟨rfl, List.prefix_refl _, by omega, fun _ _ h => by cases h; exact hj⟩
  | succ fuel ih =>
    intro self j offset2 v r hj h
    have hstay : ∀ o : Nat, (self, (Except.ok (j, o) : Except (Error T) (Nat × Nat))) = (v, r) →
        v._value_info = self._value_info ∧ self._value <+: v._value ∧
        v.argNum ≤ max j limit ∧ ∀ j' offset', r = .ok (j', offset') → j' = v.argNum := by
      intro o h
      cases h
      exact ⟨rfl, List.prefix_refl _, by omega, fun _ _ h => by cases h; exact hj⟩
    have herr : ∀ e : Error T, (self, (Except.error e : Except (Error T) (Nat × Nat))) = (v, r) →
        v._value_info = self._value_info ∧ self._value <+: v._value ∧
        v.argNum ≤ max j limit ∧ ∀ j' offset', r = .ok (j', offset') → j' = v.argNum := by
      intro e h
      cases h
      exact ⟨rfl, List.prefix_refl _, by omega, fun _ _ h => by cases h⟩
    by_cases hc : j < limit ∧ offset2 < argc
    · by_cases h1 : (is_option (argv.getD offset2 []) || is_long_option (argv.getD offset2 []))
          = true
      · simp only [consume, hc, and_self, if_true, h1] at h
        exact hstay _ h
      · by_cases h2 : is_dash (argv.getD offset2 []) = true
        · by_cases h3 : offset2 + 1 < argc ∧ (argv.getD (offset2 + 1) []).head? = some '-'
          · cases happ : self.append (argv.getD (offset2 + 1) []) with
            | error e =>
              simp only [consume, hc, and_self, if_true, h1, if_false, h2, h3, happ] at h
              exact herr _ h
            | ok self' =>
              simp only [consume, hc, and_self, if_true, h1, if_false, h2, h3, happ] at h
              obtain ⟨hi, hp, hn⟩ := append_frame _ _ _ happ
              obtain ⟨a, b, c, d⟩ := ih self' (j + 1) (offset2 + 2) v r (by omega) h
              exact ⟨a.trans hi, hp.trans b, by omega, d⟩
          · simp only [consume, hc, and_self, if_true, h1, if_false, h2, h3] at h
            exact hstay _ h
        · cases happ : self.append (argv.getD offset2 []) with
          | error e =>
            simp only [consume, hc, and_self, if_true, h1, if_false, h2, happ] at h
            exact herr _ h
          | ok self' =>
            simp only [consume, hc, and_self, if_true, h1, if_false, h2, happ] at h
            obtain ⟨hi, hp, hn⟩ := append_frame _ _ _ happ
            obtain ⟨a, b, c, d⟩ := ih self' (j + 1) (offset2 + 1) v r (by omega) h
            exact ⟨a.trans hi, hp.trans b, by omega, d⟩
    · simp only [consume, hc, if_false] at h
      exact hstay _ h

theorem value_steps_of_frame {T : Type} (self v : OptionValue T) (bound : Nat)
    (hi : v._value_info = self._value_info) (hp : self._value <+: v._value)
    (hn : v.argNum ≤ bound)
    (hb : 1 ≤ self.argLimit → self.argNum ≤ self.argLimit → bound ≤ self.argLimit) :
    self.steps v := by
  refine ⟨hi, hp, fun h1 h2 => ?_⟩
  have e : v.argLimit = self.argLimit := by unfold OptionValue.argLimit; rw [hi]
  rw [e]
  exact le_trans hn (hb h1 h2)

theorem short_option_steps {T : Type} (self : ShortOption) (offset argc : Nat)
    (argv : List Token) :
    self.toOptionBase.steps
        (self.parse offset argc argv : _ × Except (Error T) Parsed).1.toOptionBase ∧
      ∀ b o a, (self.parse offset argc argv : _ × Except (Error T) Parsed).2 = .ok (b, o, a) →
        a = argc := by
  unfold ShortOption.parse
  split
  · exact ⟨base_steps_use _, fun _ _ _ h => by cases h; rfl⟩
  · exact ⟨base_steps_refl _, fun _ _ _ h => by cases h; rfl⟩

theorem long_option_steps {T : Type} (self : LongOption) (offset argc : Nat)
    (argv : List Token) :
    self.toOptionBase.steps
        (self.parse offset argc argv : _ × Except (Error T) Parsed).1.toOptionBase ∧
      ∀ b o a, (self.parse offset argc argv : _ × Except (Error T) Parsed).2 = .ok (b, o, a) →
        a = argc := by
  unfold LongOption.parse
  split
  · exact ⟨base_steps_use _, fun _ _ _ h => by cases h; rfl⟩
  · exact ⟨base_steps_refl _, fun _ _ _ h => by cases h; rfl⟩

theorem option_has_value_steps {T : Type} [ValueType T] (self : OptionHasValue T)
    (offset argc : Nat) (argv : List Token) :
    ShortEntry.steps (.optionHasValue self) (.optionHasValue (self.parse offset argc argv).1) ∧
      ∀ b o a, (self.parse offset argc argv).2 = .ok (b, o, a) → a = argc := by
  have hrefl : ShortEntry.steps (.optionHasValue self) (.optionHasValue self) :=
    short_steps_refl _
  unfold OptionHasValue.parse
  by_cases hm : ShortOption.match_name self._name (argv.getD offset []) = true
  · rw [if_pos hm]
    simp only []
    by_cases ht : min (self.argNum + 1) self.argLimit > 0 ∧
        self.argNum = min (self.argNum + 1) self.argLimit
    · rw [if_pos ht]
      exact ⟨hrefl, fun _ _ _ h => by cases h⟩
    · rw [if_neg ht]
      cases hcons : consume (ShortOption.full_name self._name) argc argv
          (min (self.argNum + 1) self.argLimit) (argc - (offset + 1)) self.toOptionValue
          self.argNum (offset + 1) with
      | mk v r =>
        obtain ⟨hi, hp, hn, _⟩ := consume_frame _ _ _ _ _ _ _ _ v r rfl hcons
        have hv : self.toOptionValue.steps v :=
          value_steps_of_frame _ _ _ hi hp hn (fun h1 h2 => by
            simp only [OptionValue.argNum, OptionValue.argLimit] at h1 h2 ⊢; omega)
        cases r with
        | error e =>
          exact ⟨⟨base_steps_refl _, hv, rfl⟩, fun _ _ _ h => by cases h⟩
        | ok p =>
          obtain ⟨j, o2⟩ := p
          simp only []
          split
          · exact ⟨⟨base_steps_refl _, hv, rfl⟩, fun _ _ _ h => by cases h⟩
          · exact ⟨⟨base_steps_use _, hv, rfl⟩, fun _ _ _ h => by cases h; rfl⟩
  · rw [if_neg hm]
    exact ⟨hrefl, fun _ _ _ h => by cases h; rfl⟩

theorem long_option_has_value_steps {T : Type} [ValueType T] (self : LongOptionHasValue T)
    (offset argc : Nat) (argv : List Token) :
    LongEntry.steps (.longOptionHasValue self)
        (.longOptionHasValue (self.parse offset argc argv).1) ∧
      ∀ b o a, (self.parse offset argc argv).2 = .ok (b, o, a) → a = argc := by
  have hrefl : LongEntry.steps (.longOptionHasValue self) (.longOptionHasValue self) :=
    long_steps_refl _
  unfold LongOptionHasValue.parse
  simp only []
  by_cases hm : LongOption.match_name self._name
      (substr (argv.getD offset []) 0 (find (argv.getD offset []) '=')) = true
  · rw [if_pos hm]
    cases hf : find (argv.getD offset []) '=' with
    | some pos =>
      simp only []
      by_cases hp : (self._arg_pattern &&& ARG_PATTERN.ASSIGN) ≠ ARG_PATTERN.ASSIGN
      · rw [if_pos hp]
        exact ⟨hrefl, fun _ _ _ h => by cases h; rfl⟩
      · rw [if_neg hp]
        by_cases ht : self.argLimit > 0 ∧ self.argNum = self.argLimit
        · rw [if_pos ht]
          exact ⟨hrefl, fun _ _ _ h => by cases h⟩
        · rw [if_neg ht]
          cases happ : self.toOptionValue.append
              (substr (argv.getD offset []) (pos + 1) none) with
          | error e => exact ⟨hrefl, fun _ _ _ h => by cases h⟩
          | ok v =>
            obtain ⟨hi, hpre, hn⟩ := append_frame _ _ _ happ
            have hv : self.toOptionValue.steps v :=
              value_steps_of_frame _ _ (self.argNum + 1) hi hpre (le_of_eq hn) (fun h1 h2 => by
                simp only [OptionValue.argNum, OptionValue.argLimit] at h1 h2 ht ⊢; omega)
            exact ⟨⟨base_steps_use _, hv, rfl⟩, fun _ _ _ h => by cases h; rfl⟩
    | none =>
      simp only []
      by_cases hp : (self._arg_pattern &&& ARG_PATTERN.SPACE) ≠ ARG_PATTERN.SPACE
      · rw [if_pos hp]
        exact ⟨hrefl, fun _ _ _ h => by cases h; rfl⟩
      · rw [if_neg hp]
        by_cases ht : self.argLimit > 0 ∧ self.argNum = self.argLimit
        · rw [if_pos ht]
          exact ⟨hrefl, fun _ _ _ h => by cases h⟩
        · rw [if_neg ht]
          cases hcons : consume (LongOption.full_name self._name) argc argv
              self.argLimit (argc - (offset + 1)) self.toOptionValue
              self.argNum (offset + 1) with
          | mk v r =>
            obtain ⟨hi, hpre, hn, _⟩ := consume_frame _ _ _ _ _ _ _ _ v r rfl hcons
            have hv : self.toOptionValue.steps v :=
              value_steps_of_frame _ _ _ hi hpre hn (fun h1 h2 => by
                simp only [OptionValue.argNum, OptionValue.argLimit] at h1 h2 ⊢; omega)
            cases r with
            | error e =>
              exact ⟨⟨base_steps_refl _, hv, rfl⟩, fun _ _ _ h => by cases h⟩
            | ok p =>
              obtain ⟨j, o2⟩ := p
              simp only []
              split
              · exact ⟨⟨base_steps_refl _, hv, rfl⟩, fun _ _ _ h => by cases h⟩
              · exact ⟨⟨base_steps_use _, hv, rfl⟩, fun _ _ _ h => by cases h; rfl⟩
  · rw [if_neg hm]
    exact ⟨hrefl, fun _ _ _ h => by cases h; rfl⟩

theorem unnamed_option_steps {T : Type} [ValueType T] (self : UnnamedOption T)
    (offset argc : Nat) (argv : List Token) :
    self.steps (self.parse offset argc argv).1 := by
  unfold UnnamedOption.parse
  by_cases hroom : self.argNum < self.argLimit
  · rw [if_pos hroom]
    cases happ : self.toOptionValue.append (argv.getD offset []) with
    | error e => exact unnamed_steps_refl _
    | ok v =>
      obtain ⟨hi, hpre, hn⟩ := append_frame _ _ _ happ
      have hv : self.toOptionValue.steps v :=
        value_steps_of_frame _ _ (self.argNum + 1) hi hpre (le_of_eq hn) (fun h1 h2 => by
          simp only [OptionValue.argNum, OptionValue.argLimit] at h1 h2 hroom ⊢; omega)
      simp only []
      split
      · exact ⟨base_steps_use _, hv, rfl⟩
      · exact ⟨base_steps_use _, hv, rfl⟩
  · rw [if_neg hroom]
    exact unnamed_steps_refl _

theorem short_entry_steps {T : Type} [ValueType T] (self : ShortEntry T)
    (offset argc : Nat) (argv : List Token) :
    self.steps (self.parse offset argc argv).1 ∧
      ∀ b o a, (self.parse offset argc argv).2 = .ok (b, o, a) → a = argc := by
  cases self with
  | option o => exact short_option_steps o offset argc argv
  | optionHasValue o => exact option_has_value_steps o offset argc argv

theorem long_entry_steps {T : Type} [ValueType T] (self : LongEntry T)
    (offset argc : Nat) (argv : List Token) :
    self.steps (self.parse offset argc argv).1 ∧
      ∀ b o a, (self.parse offset argc argv).2 = .ok (b, o, a) → a = argc := by
  cases self with
  | longOption o => exact long_option_steps o offset argc argv
  | longOptionHasValue o => exact long_option_has_value_steps o offset argc argv

theorem scan_steps {α T : Type}
    (parse : α → Nat → Nat → List Token → α × Except (Error T) Parsed)
    (R : α → α → Prop) (hrefl : ∀ a, R a a) (argv : List Token)
    (hstep : ∀ (p : α) (offset argc : Nat), R p (parse p offset argc argv).1 ∧
      ∀ b o a, (parse p offset argc argv).2 = .ok (b, o, a) → a = argc) :
    ∀ (bucket : List α) (offset argc : Nat),
      List.Forall₂ R bucket (scan parse argv bucket offset argc).1 ∧
        ∀ b o a, (scan parse argv bucket offset argc).2 = .ok (b, o, a) → a = argc := by
  intro bucket
  induction bucket with
  | nil =>
    intro offset argc
    exact ⟨.nil, fun _ _ _ h => by cases h; rfl⟩
  | cons ptr rest ih =>
    intro offset argc
    obtain ⟨h1, h2⟩ := hstep ptr offset argc
    unfold scan
    cases hp : parse ptr offset argc argv with
    | mk ptr' r =>
      rw [hp] at h1 h2
      cases r with
      | error e => exact ⟨.cons h1 (forall2_refl hrefl _), fun _ _ _ h => by cases h⟩
      | ok p =>
        obtain ⟨b, o, a⟩ := p
        have ha : a = argc := h2 b o a rfl
        subst ha
        cases b with
        | true => exact ⟨.cons h1 (forall2_refl hrefl _), fun _ _ _ h => by cases h; rfl⟩
        | false =>
          obtain ⟨i1, i2⟩ := ih o a
          exact ⟨.cons h1 i1, i2⟩

theorem map_steps_options {T : Type} (m : OptionMap T) (b : List (ShortEntry T))
    (h : List.Forall₂ ShortEntry.steps m._options b) : m.steps { m with _options := b } :=
  ⟨h, @forall2_refl _ LongEntry.steps long_steps_refl _, unnamed_opt_steps_refl _, rfl⟩

theorem map_steps_long_options {T : Type} (m : OptionMap T) (b : List (LongEntry T))
    (h : List.Forall₂ LongEntry.steps m._long_options b) :
    m.steps { m with _long_options := b } :=
  ⟨@forall2_refl _ ShortEntry.steps short_steps_refl _, h, unnamed_opt_steps_refl _, rfl⟩

theorem map_steps_unnamed {T : Type} (m : OptionMap T) (u u' : UnnamedOption T)
    (hu : m._unnamed_options = some u) (h : u.steps u') :
    m.steps { m with _unnamed_options := some u' } := by
  refine ⟨@forall2_refl _ ShortEntry.steps short_steps_refl _,
    @forall2_refl _ LongEntry.steps long_steps_refl _, ?_, rfl⟩
  rw [hu]
  exact h

theorem parse_loop_steps {T : Type} [ValueType T] (argv : List Token) :
    ∀ (fuel : Nat) (self : OptionMap T) (offset argc : Nat),
      self.steps (OptionMap.parse_loop argv fuel self offset argc).1 := by
  intro fuel
  induction fuel with
  | zero =>
    intro self offset argc
    unfold OptionMap.parse_loop
    split <;> exact map_steps_refl _
  | succ fuel ih =>
    intro self offset argc
    unfold OptionMap.parse_loop
    by_cases hlt : offset < argc
    · rw [if_pos hlt]
      by_cases ho : is_option (argv.getD offset []) = true
      · rw [if_pos ho]
        have hs := (scan_steps ShortEntry.parse ShortEntry.steps short_steps_refl argv
          (fun p o a => short_entry_steps p o a argv) self._options offset argc).1
        cases hscan : scan ShortEntry.parse argv self._options offset argc with
        | mk b r =>
          rw [hscan] at hs
          have hm := map_steps_options self b hs
          cases r with
          | error e => exact hm
          | ok p =>
            obtain ⟨exist, o, a⟩ := p
            cases exist with
            | false => exact hm
            | true => exact map_steps_trans hm (ih _ o a)
      · rw [if_neg ho]
        by_cases hl : is_long_option (argv.getD offset []) = true
        · rw [if_pos hl]
          have hs := (scan_steps LongEntry.parse LongEntry.steps long_steps_refl argv
            (fun p o a => long_entry_steps p o a argv) self._long_options offset argc).1
          cases hscan : scan LongEntry.parse argv self._long_options offset argc with
          | mk b r =>
            rw [hscan] at hs
            have hm := map_steps_long_options self b hs
            cases r with
            | error e => exact hm
            | ok p =>
              obtain ⟨exist, o, a⟩ := p
              cases exist with
              | false => exact hm
              | true => exact map_steps_trans hm (ih _ o a)
        · rw [if_neg hl]
          have hpos : ∀ offset1 : Nat, self.steps
              (match self._unnamed_options with
                | some u =>
                  match u.parse offset1 argc argv with
                  | (u', .error e) => ({ self with _unnamed_options := some u' }, .error e)
                  | (u', .ok (false, offset', _)) =>
                    ({ self with _unnamed_options := some u' },
                      .error (.unnamed_rejected (argv.getD offset' [])))
                  | (u', .ok (true, offset', argc')) =>
                    OptionMap.parse_loop argv fuel { self with _unnamed_options := some u' }
                      offset' argc'
                | none => (self, .error .unnamed_not_allowed) :
                  OptionMap T × Except (Error T) Nat).1 := by
            intro offset1
            cases hu : self._unnamed_options with
            | none => exact map_steps_refl _
            | some u =>
              simp only []
              have hs := unnamed_option_steps u offset1 argc argv
              cases hp : u.parse offset1 argc argv with
              | mk u' r =>
                rw [hp] at hs
                have hm := map_steps_unnamed self u u' hu hs
                cases r with
                | error e => exact hm
                | ok p =>
                  obtain ⟨exist, o, a⟩ := p
                  cases exist with
                  | false => exact hm
                  | true => exact map_steps_trans hm (ih _ o a)
          by_cases hd : is_dash (argv.getD offset []) = true
          · simp only [hd, if_true, true_and]
            by_cases hge : offset + 1 ≥ argc
            · rw [if_pos hge]
              exact ih _ _ _
            · rw [if_neg hge]
              exact hpos _
          · simp only [hd, if_false, false_and]
            exact hpos _
    · rw [if_neg hlt]
      exact map_steps_refl _

theorem parse_steps {T : Type} [ValueType T] (self : OptionMap T) (argc : Nat)
    (argv : List Token) (validate : Bool) :
    self.steps (self.parse argc argv validate).1 := by
  have h := parse_loop_steps argv argc self 0 argc
  unfold OptionMap.parse
  cases hp : OptionMap.parse_loop argv argc self 0 argc with
  | mk m r =>
    rw [hp] at h
    cases r with
    | error e => exact h
    | ok o =>
      simp only []
      split
      · split <;> exact h
      · exact h

/-! ## Lemmas on the limits through sequences of calls -/

theorem forall2_transfer {α : Type} {R : α → α → Prop} {P : α → Prop}
    (h : ∀ a b, R a b → P a → P b) :
    ∀ (l l' : List α), List.Forall₂ R l l' → (∀ a ∈ l, P a) → ∀ b ∈ l', P b := by
  intro l l' hr
  induction hr with
  | nil => intro _ b hb; cases hb
  | cons hab _ ih =>
    intro hp b hb
    rcases List.mem_cons.1 hb with rfl | hb
    · exact h _ _ hab (hp _ (List.mem_cons_self _ _))
    · exact ih (fun a ha => hp a (List.mem_cons_of_mem _ ha)) b hb

theorem value_steps_within {T : Type} (v v' : OptionValue T) (h : v.steps v')
    (hv : 1 ≤ v.argLimit ∧ v.argNum ≤ v.argLimit) :
    1 ≤ v'.argLimit ∧ v'.argNum ≤ v'.argLimit := by
  obtain ⟨hi, _, hl⟩ := h
  have e : v'.argLimit = v.argLimit := by unfold OptionValue.argLimit; rw [hi]
  exact ⟨by rw [e]; exact hv.1, hl hv.1 hv.2⟩

theorem short_steps_within {T : Type} (e e' : ShortEntry T) (h : e.steps e')
    (hv : ∀ v, e.value? = some v → 1 ≤ v.argLimit ∧ v.argNum ≤ v.argLimit) :
    ∀ v, e'.value? = some v → 1 ≤ v.argLimit ∧ v.argNum ≤ v.argLimit := by
  cases e <;> cases e' <;> simp only [ShortEntry.steps] at h
  · intro v hv'; cases hv'
  · intro v hv'
    simp only [ShortEntry.value?, Option.some.injEq] at hv'
    subst hv'
    exact value_steps_within _ _ h.2.1 (hv _ rfl)

theorem long_steps_within {T : Type} (e e' : LongEntry T) (h : e.steps e')
    (hv : ∀ v, e.value? = some v → 1 ≤ v.argLimit ∧ v.argNum ≤ v.argLimit) :
    ∀ v, e'.value? = some v → 1 ≤ v.argLimit ∧ v.argNum ≤ v.argLimit := by
  cases e <;> cases e' <;> simp only [LongEntry.steps] at h
  · intro v hv'; cases hv'
  · intro v hv'
    simp only [LongEntry.value?, Option.some.injEq] at hv'
    subst hv'
    exact value_steps_within _ _ h.2.1 (hv _ rfl)

theorem within_limits_of_steps {T : Type} (m m' : OptionMap T) (h : m.steps m')
    (hm : m.within_limits) : m'.within_limits := by
  obtain ⟨hs, hl, hu, _⟩ := h
  obtain ⟨ws, wl, wu⟩ := hm
  refine ⟨?_, ?_, ?_⟩
  · exact forall2_transfer (fun a b => short_steps_within a b) _ _ hs ws
  · exact forall2_transfer (fun a b => long_steps_within a b) _ _ hl wl
  · intro u' hu'
    rw [hu'] at hu
    cases hm : m._unnamed_options with
    | none => rw [hm] at hu; exact hu.elim
    | some u =>
      rw [hm] at hu
      exact value_steps_within _ _ hu.2.1 (wu u hm)

theorem mem_modify {α : Type} (f : α → α) :
    ∀ (l : List α) (i : Nat) (b : α), b ∈ List.modify f i l → b ∈ l ∨ ∃ a ∈ l, b = f a := by
  intro l
  induction l with
  | nil => intro i b hb; rw [List.modify_nil] at hb; cases hb
  | cons a l ih =>
    intro i b hb
    cases i with
    | zero =>
      rw [List.modify_zero_cons] at hb
      rcases List.mem_cons.1 hb with rfl | hb
      · exact .inr ⟨a, List.mem_cons_self _ _, rfl⟩
      · exact .inl (List.mem_cons_of_mem _ hb)
    | succ i =>
      rw [List.modify_succ_cons] at hb
      rcases List.mem_cons.1 hb with rfl | hb
      · exact .inl (List.mem_cons_self _ _)
      · rcases ih i b hb with h | ⟨c, hc, rfl⟩
        · exact .inl (List.mem_cons_of_mem _ h)
        · exact .inr ⟨c, List.mem_cons_of_mem _ hc, rfl⟩

theorem clear_within {T : Type} (v : OptionValue T)
    (hv : 1 ≤ v.argLimit ∧ v.argNum ≤ v.argLimit) :
    1 ≤ v.clearArg.argLimit ∧ v.clearArg.argNum ≤ v.clearArg.argLimit :=
  ⟨hv.1, Nat.zero_le _⟩

theorem short_init_within {T : Type} (e : ShortEntry T)
    (hv : ∀ v, e.value? = some v → 1 ≤ v.argLimit ∧ v.argNum ≤ v.argLimit) :
    ∀ v, e.init.value? = some v → 1 ≤ v.argLimit ∧ v.argNum ≤ v.argLimit := by
  cases e with
  | option o => intro v h; cases h
  | optionHasValue o =>
    intro v h
    simp only [ShortEntry.init, ShortEntry.value?, Option.some.injEq] at h
    subst h
    exact clear_within _ (hv _ rfl)

theorem long_init_within {T : Type} (e : LongEntry T)
    (hv : ∀ v, e.value? = some v → 1 ≤ v.argLimit ∧ v.argNum ≤ v.argLimit) :
    ∀ v, e.init.value? = some v → 1 ≤ v.argLimit ∧ v.argNum ≤ v.argLimit := by
  cases e with
  | longOption o => intro v h; cases h
  | longOptionHasValue o =>
    intro v h
    simp only [LongEntry.init, LongEntry.value?, Option.some.injEq] at h
    subst h
    exact clear_within _ (hv _ rfl)

theorem init_one_within_limits {T : Type} (m : OptionMap T) (ref : OptionRef)
    (hm : m.within_limits) : (m.init_one ref).within_limits := by
  obtain ⟨ws, wl, wu⟩ := hm
  cases ref with
  | options i =>
    refine ⟨fun e he => ?_, wl, wu⟩
    rcases mem_modify _ _ _ _ he with h | ⟨a, ha, rfl⟩
    · exact ws e h
    · exact short_init_within a (ws a ha)
  | long_options i =>
    refine ⟨ws, fun e he => ?_, wu⟩
    rcases mem_modify _ _ _ _ he with h | ⟨a, ha, rfl⟩
    · exact wl e h
    · exact long_init_within a (wl a ha)
  | unnamed_options =>
    refine ⟨ws, wl, fun u hu => ?_⟩
    simp only [OptionMap.init_one] at hu
    cases hm : m._unnamed_options with
    | none => rw [hm] at hu; cases hu
    | some u0 =>
      rw [hm] at hu
      simp only [Option.map_some', Option.some.injEq] at hu
      subst hu
      exact clear_within _ (wu u0 hm)

theorem foldl_init_one_within_limits {T : Type} (refs : List OptionRef) :
    ∀ m : OptionMap T, m.within_limits → (refs.foldl OptionMap.init_one m).within_limits := by
  induction refs with
  | nil => intro m hm; exact hm
  | cons r refs ih =>
    intro m hm
    exact ih _ (init_one_within_limits m r hm)

theorem init_within_limits {T : Type} (m : OptionMap T) (hm : m.within_limits) :
    m.init.within_limits :=
  foldl_init_one_within_limits _ m hm

theorem call_within_limits {T : Type} [ValueType T] (m : OptionMap T) (c : MapCall)
    (hm : m.within_limits) : (m.call c).within_limits := by
  cases c with
  | parse argc argv validate =>
    exact within_limits_of_steps _ _ (parse_steps m argc argv validate) hm
  | init => exact init_within_limits m hm

theorem calls_within_limits {T : Type} [ValueType T] (cs : List MapCall) :
    ∀ m : OptionMap T, m.within_limits → (m.calls cs).within_limits := by
  induction cs with
  | nil => intro m hm; exact hm
  | cons c cs ih =>
    intro m hm
    exact ih _ (call_within_limits m c hm)

theorem builder_calls_induction {T : Type} (P : OptionMap T → Prop) (Q : BuilderCall T → Prop)
    (hstep : ∀ (ao : AddOptions T) (c : BuilderCall T) (ao' : AddOptions T),
      P ao._option_map → Q c → ao.call c = .ok ao' → P ao'._option_map) :
    ∀ (cs : List (BuilderCall T)) (ao ao' : AddOptions T), (∀ c ∈ cs, Q c) →
      P ao._option_map → ao.calls cs = .ok ao' → P ao'._option_map := by
  intro cs
  induction cs with
  | nil =>
    intro ao ao' _ hp h
    simp only [AddOptions.calls, Except.ok.injEq] at h
    subst h
    exact hp
  | cons c cs ih =>
    intro ao ao' hq hp h
    unfold AddOptions.calls at h
    cases hc : ao.call c with
    | error e => rw [hc] at h; cases h
    | ok ao1 =>
      rw [hc] at h
      exact ih ao1 ao' (fun c' hc' => hq c' (List.mem_cons_of_mem _ hc'))
        (hstep ao c ao1 hp (hq c (List.mem_cons_self _ _)) hc) h

theorem declare_induction {T : Type} (P : OptionMap T → Prop) (Q : BuilderCall T → Prop)
    (h0 : P {})
    (hstep : ∀ (ao : AddOptions T) (c : BuilderCall T) (ao' : AddOptions T),
      P ao._option_map → Q c → ao.call c = .ok ao' → P ao'._option_map)
    (cs : List (BuilderCall T)) (m : OptionMap T) (hq : ∀ c ∈ cs, Q c)
    (h : CommandLineOption.declare cs = .ok m) : P m := by
  unfold CommandLineOption.declare at h
  cases hc : (CommandLineOption.add_options CommandLineOption.new).calls cs with
  | error e => rw [hc] at h; cases h
  | ok ao =>
    rw [hc] at h
    simp only [Except.ok.injEq] at h
    subst h
    exact builder_calls_induction P Q hstep cs _ ao hq h0 hc

theorem option_has_value_new_ok {T : Type} (value : Value T) (name desc : Token)
    (opt : OptionHasValue T) (h : OptionHasValue.new value name desc = .ok opt) :
    opt.toOptionValue = { _value_info := value } := by
  unfold OptionHasValue.new at h
  cases hb : (OptionBase.new name desc : Except (Error T) OptionBase) with
  | error e => rw [hb] at h; cases h
  | ok b =>
    rw [hb] at h
    simp only [Except.ok.injEq] at h
    subst h
    rfl

theorem long_option_has_value_new_ok {T : Type} (value : Value T) (name desc : Token)
    (p : Nat) (opt : LongOptionHasValue T)
    (h : LongOptionHasValue.new value name desc p = .ok opt) :
    opt.toOptionValue = { _value_info := value } := by
  unfold LongOptionHasValue.new at h
  cases hb : (OptionBase.new name desc : Except (Error T) OptionBase) with
  | error e => rw [hb] at h; cases h
  | ok b =>
    rw [hb] at h
    simp only [Except.ok.injEq] at h
    subst h
    rfl

theorem unnamed_option_new_ok {T : Type} (value : Value T) (desc : Token)
    (opt : UnnamedOption T) (h : UnnamedOption.new value desc = .ok opt) :
    opt.toOptionValue = { _value_info := value } := by
  unfold UnnamedOption.new at h
  cases hb : (OptionBase.new [] desc : Except (Error T) OptionBase) with
  | error e => rw [hb] at h; cases h
  | ok b =>
    rw [hb] at h
    simp only [Except.ok.injEq] at h
    subst h
    rfl

theorem add_option_within_limits {T : Type} (m : OptionMap T) (e : ShortEntry T)
    (hm : m.within_limits)
    (he : ∀ v, e.value? = some v → 1 ≤ v.argLimit ∧ v.argNum ≤ v.argLimit) :
    (m.add_option e).within_limits := by
  obtain ⟨ws, wl, wu⟩ := hm
  refine ⟨fun a ha => ?_, wl, wu⟩
  simp only [OptionMap.add_option, List.mem_append, List.mem_singleton] at ha
  rcases ha with ha | rfl
  · exact ws a ha
  · exact he

theorem add_long_option_within_limits {T : Type} (m : OptionMap T) (e : LongEntry T)
    (hm : m.within_limits)
    (he : ∀ v, e.value? = some v → 1 ≤ v.argLimit ∧ v.argNum ≤ v.argLimit) :
    (m.add_long_option e).within_limits := by
  obtain ⟨ws, wl, wu⟩ := hm
  refine ⟨ws, fun a ha => ?_, wu⟩
  simp only [OptionMap.add_long_option, List.mem_append, List.mem_singleton] at ha
  rcases ha with ha | rfl
  · exact wl a ha
  · exact he

theorem fresh_within {T : Type} (value : Value T) (h : 1 ≤ value._limit) :
    1 ≤ ({ _value_info := value } : OptionValue T).argLimit ∧
      ({ _value_info := value } : OptionValue T).argNum
        ≤ ({ _value_info := value } : OptionValue T).argLimit :=
  ⟨h, Nat.zero_le _⟩

theorem builder_call_within_limits {T : Type} (ao : AddOptions T) (c : BuilderCall T)
    (ao' : AddOptions T) (hm : ao._option_map.within_limits)
    (hq : ∀ v, c.value? = some v → 1 ≤ v._limit) (h : ao.call c = .ok ao') :
    ao'._option_map.within_limits := by
  cases c with
  | o name desc =>
    simp only [AddOptions.call, AddOptions.o] at h
    cases hn : (ShortOption.new name desc : Except (Error T) ShortOption) with
    | error e => rw [hn] at h; cases h
    | ok opt =>
      rw [hn] at h
      simp only [Except.ok.injEq] at h
      subst h
      exact add_option_within_limits _ _ hm (fun v hv => by cases hv)
  | o_value name value desc =>
    simp only [AddOptions.call, AddOptions.o_value] at h
    cases hn : OptionHasValue.new value name desc with
    | error e => rw [hn] at h; cases h
    | ok opt =>
      rw [hn] at h
      simp only [Except.ok.injEq] at h
      subst h
      refine add_option_within_limits _ _ hm (fun v hv => ?_)
      simp only [ShortEntry.value?, Option.some.injEq] at hv
      subst hv
      rw [option_has_value_new_ok _ _ _ _ hn]
      exact fresh_within value (hq value rfl)
  | l name desc =>
    simp only [AddOptions.call, AddOptions.l] at h
    cases hn : (LongOption.new name desc : Except (Error T) LongOption) with
    | error e => rw [hn] at h; cases h
    | ok opt =>
      rw [hn] at h
      simp only [Except.ok.injEq] at h
      subst h
      exact add_long_option_within_limits _ _ hm (fun v hv => by cases hv)
  | l_value name value desc =>
    simp only [AddOptions.call, AddOptions.l_value] at h
    split at h
    · rename_i opt hn
      simp only [Except.ok.injEq] at h
      subst h
      refine add_long_option_within_limits _ _ hm (fun v hv => ?_)
      simp only [LongEntry.value?, Option.some.injEq] at hv
      subst hv
      have hopt : opt.toOptionValue = { _value_info := value } := by
        split at hn
        · exact long_option_has_value_new_ok _ _ _ _ _ hn
        · split at hn
          · exact long_option_has_value_new_ok _ _ _ _ _ hn
          · exact long_option_has_value_new_ok _ _ _ _ _ hn
      rw [hopt]
      exact fresh_within value (hq value rfl)
    · cases h
  | pause =>
    simp only [AddOptions.call, Except.ok.injEq] at h
    subst h
    exact hm
  | u value desc =>
    simp only [AddOptions.call, AddOptions.u] at h
    cases hn : UnnamedOption.new value desc with
    | error e => rw [hn] at h; cases h
    | ok opt =>
      rw [hn] at h
      simp only [OptionMap.add_unnamed_option] at h
      by_cases hsome : ao._option_map._unnamed_options.isSome = true
      · rw [if_pos hsome] at h
        cases h
      · rw [if_neg hsome] at h
        simp only [Except.ok.injEq] at h
        subst h
        obtain ⟨ws, wl, wu⟩ := hm
        refine ⟨ws, wl, fun u hu => ?_⟩
        simp only [Option.some.injEq] at hu
        subst hu
        show 1 ≤ opt.toOptionValue.argLimit ∧ opt.toOptionValue.argNum ≤ opt.toOptionValue.argLimit
        rw [unnamed_option_new_ok _ _ _ hn]
        exact fresh_within value (hq value rfl)

theorem empty_within_limits {T : Type} : ({} : OptionMap T).within_limits :=
  ⟨fun _ h _ _ => (by cases h), fun _ h _ _ => (by cases h), fun _ h => (by cases h)⟩

theorem declare_within_limits {T : Type} (cs : List (BuilderCall T)) (m : OptionMap T)
    (hq : ∀ c ∈ cs, ∀ v, c.value? = some v → 1 ≤ v._limit)
    (h : CommandLineOption.declare cs = .ok m) : m.within_limits :=
  declare_induction OptionMap.within_limits (fun c => ∀ v, c.value? = some v → 1 ≤ v._limit)
    empty_within_limits
    (fun ao c ao' hm hc hcall => builder_call_within_limits ao c ao' hm hc hcall) cs m hq h

/-! ## Lemmas on `clone` -/

theorem refs_in_order_le : ∀ (refs : List OptionRef) (s l send lend : Nat),
    refs_in_order refs s l send lend → s ≤ send ∧ l ≤ lend := by
  intro refs
  induction refs with
  | nil =>
    intro s l send lend h
    simp only [refs_in_order] at h
    omega
  | cons r refs ih =>
    intro s l send lend h
    cases r with
    | options i =>
      simp only [refs_in_order] at h
      have := ih _ _ _ _ h.2
      omega
    | long_options i =>
      simp only [refs_in_order] at h
      have := ih _ _ _ _ h.2
      omega
    | unnamed_options => exact absurd h (by simp only [refs_in_order, not_false_eq_true])

theorem refs_in_order_append_options : ∀ (refs : List OptionRef) (s l send lend : Nat),
    refs_in_order refs s l send lend →
      refs_in_order (refs ++ [.options send]) s l (send + 1) lend := by
  intro refs
  induction refs with
  | nil =>
    intro s l send lend h
    simp only [refs_in_order] at h
    simp only [List.nil_append, refs_in_order]
    omega
  | cons r refs ih =>
    intro s l send lend h
    cases r with
    | options i =>
      simp only [refs_in_order] at h
      simp only [List.cons_append, refs_in_order]
      exact ⟨h.1, ih _ _ _ _ h.2⟩
    | long_options i =>
      simp only [refs_in_order] at h
      simp only [List.cons_append, refs_in_order]
      exact ⟨h.1, ih _ _ _ _ h.2⟩
    | unnamed_options => exact absurd h (by simp only [refs_in_order, not_false_eq_true])

theorem refs_in_order_append_long_options : ∀ (refs : List OptionRef) (s l send lend : Nat),
    refs_in_order refs s l send lend →
      refs_in_order (refs ++ [.long_options lend]) s l send (lend + 1) := by
  intro refs
  induction refs with
  | nil =>
    intro s l send lend h
    simp only [refs_in_order] at h
    simp only [List.nil_append, refs_in_order]
    omega
  | cons r refs ih =>
    intro s l send lend h
    cases r with
    | options i =>
      simp only [refs_in_order] at h
      simp only [List.cons_append, refs_in_order]
      exact ⟨h.1, ih _ _ _ _ h.2⟩
    | long_options i =>
      simp only [refs_in_order] at h
      simp only [List.cons_append, refs_in_order]
      exact ⟨h.1, ih _ _ _ _ h.2⟩
    | unnamed_options => exact absurd h (by simp only [refs_in_order, not_false_eq_true])

theorem take_succ_of_lt {α : Type} (l : List α) (n : Nat) (h : n < l.length) :
    l.take n ++ [l.get ⟨n, h⟩] = l.take (n + 1) := by
  rw [List.take_succ, List.getElem?_eq_getElem h]
  rfl

theorem clone_loop_in_order {T : Type} (self : OptionMap T) :
    ∀ (refs pre : List OptionRef) (s l : Nat),
      refs_in_order refs s l self._options.length self._long_options.length →
      self.clone_loop refs
          { _options := self._options.take s, _long_options := self._long_options.take l,
            _unnamed_options := none, _ordered_options := pre }
        = .ok { _options := self._options, _long_options := self._long_options,
                _unnamed_options := none, _ordered_options := pre ++ refs } := by
  intro refs
  induction refs with
  | nil =>
    intro pre s l h
    simp only [refs_in_order] at h
    obtain ⟨rfl, rfl⟩ := h
    simp only [OptionMap.clone_loop, List.take_length, List.append_nil]
  | cons r refs ih =>
    intro pre s l h
    cases r with
    | options i =>
      simp only [refs_in_order] at h
      obtain ⟨rfl, h⟩ := h
      have hlt : i < self._options.length := by
        have := (refs_in_order_le _ _ _ _ _ h).1
        omega
      have hget : self._options.get? i = some (self._options.get ⟨i, hlt⟩) :=
        List.get?_eq_get hlt
      have hlen : (self._options.take i).length = i := by
        rw [List.length_take]; omega
      have := ih (pre ++ [.options i]) (i + 1) l h
      simp only [OptionMap.clone_loop, OptionMap.lock, hget, Option.map_some',
        OptionMap.add_option, hlen, take_succ_of_lt _ _ hlt]
      rw [this]
      simp only [List.append_assoc, List.singleton_append]
    | long_options i =>
      simp only [refs_in_order] at h
      obtain ⟨rfl, h⟩ := h
      have hlt : i < self._long_options.length := by
        have := (refs_in_order_le _ _ _ _ _ h).2
        omega
      have hget : self._long_options.get? i = some (self._long_options.get ⟨i, hlt⟩) :=
        List.get?_eq_get hlt
      have hlen : (self._long_options.take i).length = i := by
        rw [List.length_take]; omega
      have := ih (pre ++ [.long_options i]) s (i + 1) h
      simp only [OptionMap.clone_loop, OptionMap.lock, hget, Option.map_some',
        OptionMap.add_long_option, hlen, take_succ_of_lt _ _ hlt]
      rw [this]
      simp only [List.append_assoc, List.singleton_append]
    | unnamed_options => exact absurd h (by simp only [refs_in_order, not_false_eq_true])

theorem clone_named_only {T : Type} (self : OptionMap T) (h : self.named_only) :
    self.clone = .ok self := by
  obtain ⟨hu, hr⟩ := h
  have := clone_loop_in_order self self._ordered_options [] 0 0 hr
  simp only [List.take_zero, List.nil_append] at this
  unfold OptionMap.clone
  rw [this, hu]
  simp only []
  cases self
  simp only at hu
  subst hu
  rfl

theorem named_only_of_steps {T : Type} (m m' : OptionMap T) (h : m.steps m')
    (hm : m.named_only) : m'.named_only := by
  obtain ⟨hs, hl, hu, ho⟩ := h
  obtain ⟨n1, n2⟩ := hm
  refine ⟨?_, ?_⟩
  · rw [n1] at hu
    cases hu' : m'._unnamed_options with
    | none => rfl
    | some u => rw [hu'] at hu; exact hu.elim
  · rw [ho, ← hs.length_eq, ← hl.length_eq]
    exact n2

theorem init_one_named_only {T : Type} (m : OptionMap T) (ref : OptionRef)
    (hm : m.named_only) : (m.init_one ref).named_only := by
  obtain ⟨n1, n2⟩ := hm
  cases ref with
  | options i =>
    refine ⟨n1, ?_⟩
    simp only [OptionMap.init_one, List.length_modify]
    exact n2
  | long_options i =>
    refine ⟨n1, ?_⟩
    simp only [OptionMap.init_one, List.length_modify]
    exact n2
  | unnamed_options =>
    refine ⟨?_, n2⟩
    simp only [OptionMap.init_one, n1, Option.map_none']

theorem foldl_init_one_named_only {T : Type} (refs : List OptionRef) :
    ∀ m : OptionMap T, m.named_only → (refs.foldl OptionMap.init_one m).named_only := by
  induction refs with
  | nil => intro m hm; exact hm
  | cons r refs ih =>
    intro m hm
    exact ih _ (init_one_named_only m r hm)

theorem call_named_only {T : Type} [ValueType T] (m : OptionMap T) (c : MapCall)
    (hm : m.named_only) : (m.call c).named_only := by
  cases c with
  | parse argc argv validate =>
    exact named_only_of_steps _ _ (parse_steps m argc argv validate) hm
  | init => exact foldl_init_one_named_only _ m hm

theorem calls_named_only {T : Type} [ValueType T] (cs : List MapCall) :
    ∀ m : OptionMap T, m.named_only → (m.calls cs).named_only := by
  induction cs with
  | nil => intro m hm; exact hm
  | cons c cs ih =>
    intro m hm
    exact ih _ (call_named_only m c hm)

theorem add_option_named_only {T : Type} (m : OptionMap T) (e : ShortEntry T)
    (hm : m.named_only) : (m.add_option e).named_only := by
  obtain ⟨n1, n2⟩ := hm
  refine ⟨n1, ?_⟩
  simp only [OptionMap.add_option, List.length_append, List.length_singleton]
  exact refs_in_order_append_options _ _ _ _ _ n2

theorem add_long_option_named_only {T : Type} (m : OptionMap T) (e : LongEntry T)
    (hm : m.named_only) : (m.add_long_option e).named_only := by
  obtain ⟨n1, n2⟩ := hm
  refine ⟨n1, ?_⟩
  simp only [OptionMap.add_long_option, List.length_append, List.length_singleton]
  exact refs_in_order_append_long_options _ _ _ _ _ n2

theorem builder_call_named_only {T : Type} (ao : AddOptions T) (c : BuilderCall T)
    (ao' : AddOptions T) (hm : ao._option_map.named_only)
    (hq : c.is_u = false) (h : ao.call c = .ok ao') :
    ao'._option_map.named_only := by
  cases c with
  | o name desc =>
    simp only [AddOptions.call, AddOptions.o] at h
    cases hn : (ShortOption.new name desc : Except (Error T) ShortOption) with
    | error e => rw [hn] at h; cases h
    | ok opt =>
      rw [hn] at h
      simp only [Except.ok.injEq] at h
      subst h
      exact add_option_named_only _ _ hm
  | o_value name value desc =>
    simp only [AddOptions.call, AddOptions.o_value] at h
    cases hn : OptionHasValue.new value name desc with
    | error e => rw [hn] at h; cases h
    | ok opt =>
      rw [hn] at h
      simp only [Except.ok.injEq] at h
      subst h
      exact add_option_named_only _ _ hm
  | l name desc =>
    simp only [AddOptions.call, AddOptions.l] at h
    cases hn : (LongOption.new name desc : Except (Error T) LongOption) with
    | error e => rw [hn] at h; cases h
    | ok opt =>
      rw [hn] at h
      simp only [Except.ok.injEq] at h
      subst h
      exact add_long_option_named_only _ _ hm
  | l_value name value desc =>
    simp only [AddOptions.call, AddOptions.l_value] at h
    split at h
    · simp only [Except.ok.injEq] at h
      subst h
      exact add_long_option_named_only _ _ hm
    · cases h
  | pause =>
    simp only [AddOptions.call, Except.ok.injEq] at h
    subst h
    exact hm
  | u value desc => cases hq

theorem empty_named_only {T : Type} : ({} : OptionMap T).named_only :=
  ⟨rfl, rfl, rfl⟩

theorem declare_named_only {T : Type} (cs : List (BuilderCall T)) (m : OptionMap T)
    (hq : ∀ c ∈ cs, c.is_u = false)
    (h : CommandLineOption.declare cs = .ok m) : m.named_only :=
  declare_induction OptionMap.named_only (fun c => c.is_u = false)
    empty_named_only
    (fun ao c ao' hm hc hcall => builder_call_named_only ao c ao' hm hc hcall) cs m hq h

theorem clone_loop_unnamed {T : Type} (self : OptionMap T) (u : UnnamedOption T)
    (hu : self._unnamed_options = some u) :
    ∀ (refs : List OptionRef) (result : OptionMap T), OptionRef.unnamed_options ∈ refs →
      self.clone_loop refs result = .error (.unknown_pattern u._name) := by
  intro refs
  induction refs with
  | nil => intro result h; cases h
  | cons r refs ih =>
    intro result h
    cases r with
    | options i =>
      have h' : OptionRef.unnamed_options ∈ refs := by
        rcases List.mem_cons.1 h with h | h
        · cases h
        · exact h
      unfold OptionMap.clone_loop
      cases hl : self.lock (.options i) with
      | none => exact ih _ h'
      | some a =>
        cases a with
        | short e => exact ih _ h'
        | long e => simp only [OptionMap.lock] at hl; cases hg : self._options.get? i <;> rw [hg] at hl <;> cases hl
        | unnamed p => simp only [OptionMap.lock] at hl; cases hg : self._options.get? i <;> rw [hg] at hl <;> cases hl
    | long_options i =>
      have h' : OptionRef.unnamed_options ∈ refs := by
        rcases List.mem_cons.1 h with h | h
        · cases h
        · exact h
      unfold OptionMap.clone_loop
      cases hl : self.lock (.long_options i) with
      | none => exact ih _ h'
      | some a =>
        cases a with
        | long e => exact ih _ h'
        | short e => simp only [OptionMap.lock] at hl; cases hg : self._long_options.get? i <;> rw [hg] at hl <;> cases hl
        | unnamed p => simp only [OptionMap.lock] at hl; cases hg : self._long_options.get? i <;> rw [hg] at hl <;> cases hl
    | unnamed_options =>
      simp only [OptionMap.clone_loop, OptionMap.lock, hu, Option.map_some']

theorem clone_unnamed {T : Type} (self : OptionMap T) (u : UnnamedOption T)
    (hu : self._unnamed_options = some u)
    (ho : OptionRef.unnamed_options ∈ self._ordered_options) :
    self.clone = .error (.unknown_pattern u._name) := by
  unfold OptionMap.clone
  rw [clone_loop_unnamed self u hu _ _ ho]

/-! ## Lemmas on the offset that `parse` returns -/

theorem unnamed_parse_ok {T : Type} [ValueType T] (u u' : UnnamedOption T)
    (offset argc : Nat) (argv : List Token) (o a : Nat)
    (h : u.parse offset argc argv = (u', .ok (true, o, a))) :
    ∃ x, ValueType.transform (argv.getD offset []) = some x ∧ u.argNum < u.argLimit ∧
      u' = { u with _value := u._value ++ [x], _use := true } ∧ o = offset + 1 ∧
      a = if u'.argNum = u'.argLimit ∧ u'._pause = true then offset + 1 else argc := by
  unfold UnnamedOption.parse at h
  by_cases hroom : u.argNum < u.argLimit
  · rw [if_pos hroom] at h
    cases happ : u.toOptionValue.append (argv.getD offset []) with
    | error e => rw [happ] at h; cases h
    | ok v =>
      rw [happ] at h
      obtain ⟨x, hx, rfl⟩ := append_ok _ _ _ happ
      simp only [] at h
      refine ⟨x, hx, hroom, ?_⟩
      split at h
      · rename_i hc
        simp only [Prod.mk.injEq, Except.ok.injEq, true_and] at h
        obtain ⟨rfl, rfl, rfl⟩ := h
        exact ⟨rfl, rfl, by rw [if_pos hc]⟩
      · rename_i hc
        simp only [Prod.mk.injEq, Except.ok.injEq, true_and] at h
        obtain ⟨rfl, rfl, rfl⟩ := h
        exact ⟨rfl, rfl, by rw [if_neg hc]⟩
  · rw [if_neg hroom] at h
    simp only [Prod.mk.injEq, Except.ok.injEq, Bool.false_eq_true, false_and, and_false] at h

theorem parse_loop_at_end {T : Type} [ValueType T] (argv : List Token) (fuel : Nat)
    (self : OptionMap T) (offset argc : Nat) (h : ¬ offset < argc) :
    OptionMap.parse_loop argv fuel self offset argc = (self, .ok offset) := by
  cases fuel with
  | zero => simp only [OptionMap.parse_loop, h, if_false]
  | succ fuel => simp only [OptionMap.parse_loop, h, if_false]

theorem not_paused_filled_self {T : Type} (m : OptionMap T) : ¬ m.paused_filled m := by
  unfold OptionMap.paused_filled
  cases h : m._unnamed_options with
  | none => simp only [not_false_eq_true]
  | some u => simp only []; omega

theorem paused_filled_options {T : Type} (m m' : OptionMap T) (b : List (ShortEntry T)) :
    OptionMap.paused_filled { m with _options := b } m' ↔ m.paused_filled m' := Iff.rfl

theorem paused_filled_long_options {T : Type} (m m' : OptionMap T) (b : List (LongEntry T)) :
    OptionMap.paused_filled { m with _long_options := b } m' ↔ m.paused_filled m' := Iff.rfl

theorem cursor_spec_mono {T : Type} [ValueType T] (argv : List Token) (m m1 m' : OptionMap T)
    (offset o argc r : Nat) (ho : offset ≤ o)
    (hp : m.paused_filled m' ↔ m1.paused_filled m')
    (h : cursor_spec argv m1 m' o argc r) : cursor_spec argv m m' offset argc r := by
  obtain ⟨h1, h2, h3, h4⟩ := h
  refine ⟨h1, by omega, fun hn => h3 (fun hc => hn (hp.2 hc)), fun hc => ?_⟩
  obtain ⟨h5, h6⟩ := h4 (hp.1 hc)
  exact ⟨by omega, h6⟩

theorem parse_loop_cursor {T : Type} [ValueType T] (argv : List Token) :
    ∀ (fuel : Nat) (self : OptionMap T) (offset argc : Nat) (m' : OptionMap T) (r : Nat),
      offset ≤ argc → OptionMap.parse_loop argv fuel self offset argc = (m', .ok r) →
      cursor_spec argv self m' offset argc r := by
  intro fuel
  induction fuel with
  | zero =>
    intro self offset argc m' r hle h
    unfold OptionMap.parse_loop at h
    split at h
    · cases h
    · cases h
      exact ⟨by omega, le_refl _, fun _ => by omega,
        fun hc => absurd hc (not_paused_filled_self _)⟩
  | succ fuel ih =>
    intro self offset argc m' r hle h
    unfold OptionMap.parse_loop at h
    by_cases hlt : offset < argc
    · rw [if_pos hlt] at h
      by_cases ho : is_option (argv.getD offset []) = true
      · rw [if_pos ho] at h
        have hs := (scan_steps ShortEntry.parse ShortEntry.steps short_steps_refl argv
          (fun p o a => short_entry_steps p o a argv) self._options offset argc).2
        have hp := scan_progress ShortEntry.parse argv
          (fun p o a hl => short_entry_progress p o a argv hl) self._options offset argc hlt
        cases hscan : scan ShortEntry.parse argv self._options offset argc with
        | mk b res =>
          rw [hscan] at hs hp h
          cases res with
          | error e => cases h
          | ok p =>
            obtain ⟨exist, o, a⟩ := p
            have ha : a = argc := hs _ _ _ rfl
            subst ha
            cases exist with
            | false => cases h
            | true =>
              simp only [parse_progress] at hp
              exact cursor_spec_mono argv _ _ _ _ o _ _ (by omega)
                (paused_filled_options self m' b).symm (ih _ o a m' r hp.2.1 h)
      · rw [if_neg ho] at h
        by_cases hl : is_long_option (argv.getD offset []) = true
        · rw [if_pos hl] at h
          have hs := (scan_steps LongEntry.parse LongEntry.steps long_steps_refl argv
            (fun p o a => long_entry_steps p o a argv) self._long_options offset argc).2
          have hp := scan_progress LongEntry.parse argv
            (fun p o a hl => long_entry_progress p o a argv hl) self._long_options offset argc hlt
          cases hscan : scan LongEntry.parse argv self._long_options offset argc with
          | mk b res =>
            rw [hscan] at hs hp h
            cases res with
            | error e => cases h
            | ok p =>
              obtain ⟨exist, o, a⟩ := p
              have ha : a = argc := hs _ _ _ rfl
              subst ha
              cases exist with
              | false => cases h
              | true =>
                simp only [parse_progress] at hp
                exact cursor_spec_mono argv _ _ _ _ o _ _ (by omega)
                  (paused_filled_long_options self m' b).symm (ih _ o a m' r hp.2.1 h)
        · rw [if_neg hl] at h
          have hpos : ∀ offset1 : Nat, offset ≤ offset1 → offset1 < argc →
              (match self._unnamed_options with
                | some u =>
                  match u.parse offset1 argc argv with
                  | (u', .error e) => ({ self with _unnamed_options := some u' }, .error e)
                  | (u', .ok (false, offset', _)) =>
                    ({ self with _unnamed_options := some u' },
                      .error (.unnamed_rejected (argv.getD offset' [])))
                  | (u', .ok (true, offset', argc')) =>
                    OptionMap.parse_loop argv fuel { self with _unnamed_options := some u' }
                      offset' argc'
                | none => (self, .error .unnamed_not_allowed) :
                  OptionMap T × Except (Error T) Nat) = (m', .ok r) →
              cursor_spec argv self m' offset argc r := by
            intro offset1 h01 h1lt h2
            cases hu : self._unnamed_options with
            | none => rw [hu] at h2; cases h2
            | some u =>
              rw [hu] at h2
              simp only [] at h2
              cases hp : u.parse offset1 argc argv with
              | mk u' res =>
                rw [hp] at h2
                cases res with
                | error e => cases h2
                | ok p =>
                  obtain ⟨exist, o, a⟩ := p
                  cases exist with
                  | false => cases h2
                  | true =>
                    simp only [] at h2
                    obtain ⟨x, hx, hroom, hu', rfl, ha⟩ := unnamed_parse_ok u u' _ _ _ _ _ hp
                    have hnum : u'.argNum = u.argNum + 1 := by
                      rw [hu']; simp [OptionValue.argNum]
                    have hlim : u'.argLimit = u.argLimit := by rw [hu']; rfl
                    have hpause : u'._pause = u._pause := by rw [hu']
                    have hlast : u'._value.getLast? = some x := by
                      rw [hu']; exact List.getLast?_concat _
                    by_cases hc : u'.argNum = u'.argLimit ∧ u'._pause = true
                    · rw [if_pos hc] at ha
                      rw [ha, parse_loop_at_end argv fuel _ _ _ (by omega)] at h2
                      simp only [Prod.mk.injEq, Except.ok.injEq] at h2
                      obtain ⟨rfl, rfl⟩ := h2
                      have hpf : self.paused_filled
                          { self with _unnamed_options := some u' } := by
                        unfold OptionMap.paused_filled
                        rw [hu]
                        exact ⟨hc.2, hroom, hc.1⟩
                      refine ⟨by omega, by omega, fun hn => absurd hpf hn, fun _ => ?_⟩
                      exact ⟨by omega, u', x, rfl, by simpa using hx, hlast⟩
                    · rw [if_neg hc] at ha
                      rw [ha] at h2
                      have hst := parse_loop_steps argv fuel
                        { self with _unnamed_options := some u' } (offset1 + 1) argc
                      rw [h2] at hst
                      have hiff : self.paused_filled m' ↔
                          OptionMap.paused_filled
                            { self with _unnamed_options := some u' } m' := by
                        have hst3 := hst.2.2.1
                        unfold OptionMap.paused_filled
                        rw [hu]
                        cases hm' : m'._unnamed_options with
                        | none => exact Iff.rfl
                        | some u'' =>
                          rw [hm'] at hst3
                          simp only [UnnamedOption.steps?] at hst3
                          obtain ⟨_, ⟨hi, _, _⟩, hps⟩ := hst3
                          simp only []
                          constructor
                          · rintro ⟨p1, p2, p3⟩
                            refine ⟨p1, ?_, p3⟩
                            have : u'._pause = true := by rw [← hps]; exact p1
                            have hne : ¬ u'.argNum = u'.argLimit := fun e => hc ⟨e, this⟩
                            omega
                          · rintro ⟨p1, p2, p3⟩
                            exact ⟨p1, hroom, p3⟩
                      exact cursor_spec_mono argv _ _ _ _ (offset1 + 1) _ _ (by omega) hiff
                        (ih _ (offset1 + 1) argc m' r (by omega) h2)
          by_cases hd : is_dash (argv.getD offset []) = true
          · simp only [hd, if_true, true_and] at h
            by_cases hge : offset + 1 ≥ argc
            · rw [if_pos hge] at h
              have := ih self (offset + 1) argc m' r (by omega) h
              exact cursor_spec_mono argv _ _ _ _ (offset + 1) _ _ (by omega) Iff.rfl this
            · rw [if_neg hge] at h
              exact hpos _ (by omega) (by omega) h
          · simp only [hd, if_false, false_and] at h
            exact hpos _ (le_refl _) hlt h
    · rw [if_neg hlt] at h
      cases h
      exact ⟨by omega, le_refl _, fun _ => by omega,
        fun hc => absurd hc (not_paused_filled_self _)⟩

theorem consume_agree {T : Type} [ValueType T] (full_name : Token) (argc : Nat)
    (argv argv2 : List Token) (limit : Nat) :
    ∀ (fuel : Nat) (self : OptionValue T) (j offset2 : Nat) (v : OptionValue T)
      (j' offset' : Nat),
      consume full_name argc argv limit fuel self j offset2 = (v, .ok (j', offset')) →
      (∀ i, i < argc → i ≤ offset' → argv2.getD i [] = argv.getD i []) →
      offset2 ≤ offset' ∧
        consume full_name argc argv2 limit fuel self j offset2 = (v, .ok (j', offset')) := by
  intro fuel
  induction fuel with
  | zero =>
    intro self j offset2 v j' offset' h _
    unfold consume at h ⊢
    split at h
    · cases h
    · rename_i hc
      rw [if_neg hc]
      cases h
      exact ⟨le_refl _, rfl⟩
  | succ fuel ih =>
    intro self j offset2 v j' offset' h hag
    by_cases hc : j < limit ∧ offset2 < argc
    · by_cases h1 : (is_option (argv.getD offset2 []) || is_long_option (argv.getD offset2 []))
          = true
      · simp only [consume, hc, and_self, if_true, h1] at h
        cases h
        have ht := hag offset2 hc.2 (le_refl _)
        refine ⟨le_refl _, ?_⟩
        simp only [consume, hc, and_self, if_true, ht, h1]
      · by_cases h2 : is_dash (argv.getD offset2 []) = true
        · by_cases h3 : offset2 + 1 < argc ∧ (argv.getD (offset2 + 1) []).head? = some '-'
          · cases happ : self.append (argv.getD (offset2 + 1) []) with
            | error e =>
              simp only [consume, hc, and_self, if_true, h1, if_false, h2, h3, happ] at h
              cases h
            | ok self' =>
              simp only [consume, hc, and_self, if_true, h1, if_false, h2, h3, happ] at h
              obtain ⟨hle, hrec⟩ := ih self' (j + 1) (offset2 + 2) v j' offset' h hag
              have ht := hag offset2 hc.2 (by omega)
              have ht1 := hag (offset2 + 1) h3.1 (by omega)
              refine ⟨by omega, ?_⟩
              simp only [consume, hc, and_self, if_true, ht, ht1, h1, if_false, h2, h3, happ]
              exact hrec
          · simp only [consume, hc, and_self, if_true, h1, if_false, h2, h3] at h
            cases h
            have ht := hag offset2 hc.2 (by omega)
            have h3' : ¬ (offset2 + 1 < argc ∧
                (argv2.getD (offset2 + 1) []).head? = some '-') := by
              intro hh
              exact h3 ⟨hh.1, by rw [← hag (offset2 + 1) hh.1 (le_refl _)]; exact hh.2⟩
            refine ⟨by omega, ?_⟩
            simp only [consume, hc, and_self, if_true, ht, h1, if_false, h2, h3', Bool.false_eq_true]
        · cases happ : self.append (argv.getD offset2 []) with
          | error e =>
            simp only [consume, hc, and_self, if_true, h1, if_false, h2, happ] at h
            cases h
          | ok self' =>
            simp only [consume, hc, and_self, if_true, h1, if_false, h2, happ] at h
            obtain ⟨hle, hrec⟩ := ih self' (j + 1) (offset2 + 1) v j' offset' h hag
            have ht := hag offset2 hc.2 (by omega)
            refine ⟨by omega, ?_⟩
            simp only [consume, hc, and_self, if_true, ht, h1, if_false, h2, happ]
            exact hrec
    · simp only [consume, hc, if_false] at h
      cases h
      refine ⟨le_refl _, ?_⟩
      simp only [consume, hc, if_false]

theorem short_option_agree {T : Type} (self : ShortOption) (offset argc : Nat)
    (argv argv2 : List Token) (ht : argv2.getD offset [] = argv.getD offset []) :
    (self.parse offset argc argv2 : _ × Except (Error T) Parsed)
      = self.parse offset argc argv := by
  unfold ShortOption.parse
  rw [ht]

theorem long_option_agree {T : Type} (self : LongOption) (offset argc : Nat)
    (argv argv2 : List Token) (ht : argv2.getD offset [] = argv.getD offset []) :
    (self.parse offset argc argv2 : _ × Except (Error T) Parsed)
      = self.parse offset argc argv := by
  unfold LongOption.parse
  rw [ht]

theorem unnamed_option_agree {T : Type} [ValueType T] (self : UnnamedOption T)
    (offset argc : Nat) (argv argv2 : List Token)
    (ht : argv2.getD offset [] = argv.getD offset []) :
    self.parse offset argc argv2 = self.parse offset argc argv := by
  unfold UnnamedOption.parse
  rw [ht]

theorem option_has_value_agree {T : Type} [ValueType T] (self e' : OptionHasValue T)
    (offset argc : Nat) (argv argv2 : List Token) (b : Bool) (o' a' : Nat)
    (hlt : offset < argc) (h : self.parse offset argc argv = (e', .ok (b, o', a')))
    (hag : ∀ i, i < argc → i ≤ o' → argv2.getD i [] = argv.getD i []) :
    self.parse offset argc argv2 = (e', .ok (b, o', a')) := by
  have hprog := option_has_value_progress self offset argc argv hlt
  rw [h] at hprog
  have hle : offset ≤ o' := by
    cases b <;> simp only [parse_progress] at hprog <;> omega
  have ht := hag offset hlt hle
  unfold OptionHasValue.parse at h ⊢
  rw [ht]
  by_cases hm : ShortOption.match_name self._name (argv.getD offset []) = true
  · rw [if_pos hm] at h ⊢
    simp only [] at h ⊢
    by_cases htoo : min (self.argNum + 1) self.argLimit > 0 ∧
        self.argNum = min (self.argNum + 1) self.argLimit
    · rw [if_pos htoo] at h
      cases h
    · rw [if_neg htoo] at h ⊢
      cases hcons : consume (ShortOption.full_name self._name) argc argv
          (min (self.argNum + 1) self.argLimit) (argc - (offset + 1)) self.toOptionValue
          self.argNum (offset + 1) with
      | mk v r =>
        rw [hcons] at h
        cases r with
        | error e => cases h
        | ok p =>
          obtain ⟨j, o2⟩ := p
          simp only [] at h
          by_cases hmiss : self.argNum = v.argNum ∧ min (self.argNum + 1) self.argLimit > 0
          · rw [if_pos hmiss] at h
            cases h
          · rw [if_neg hmiss] at h
            simp only [Prod.mk.injEq, Except.ok.injEq] at h
            obtain ⟨he, hb, ho, ha⟩ := h
            subst ho
            rw [(consume_agree _ _ argv argv2 _ _ _ _ _ v j o2 hcons hag).2]
            simp only []
            rw [if_neg hmiss]
            simp only [Prod.mk.injEq, Except.ok.injEq]
            exact ⟨he, hb, by trivial, ha⟩
  · rw [if_neg hm] at h ⊢
    exact h

theorem long_option_has_value_agree {T : Type} [ValueType T] (self e' : LongOptionHasValue T)
    (offset argc : Nat) (argv argv2 : List Token) (b : Bool) (o' a' : Nat)
    (hlt : offset < argc) (h : self.parse offset argc argv = (e', .ok (b, o', a')))
    (hag : ∀ i, i < argc → i ≤ o' → argv2.getD i [] = argv.getD i []) :
    self.parse offset argc argv2 = (e', .ok (b, o', a')) := by
  have hprog := long_option_has_value_progress self offset argc argv hlt
  rw [h] at hprog
  have hle : offset ≤ o' := by
    cases b <;> simp only [parse_progress] at hprog <;> omega
  have ht := hag offset hlt hle
  unfold LongOptionHasValue.parse at h ⊢
  rw [ht]
  simp only [] at h ⊢
  by_cases hm : LongOption.match_name self._name
      (substr (argv.getD offset []) 0 (find (argv.getD offset []) '=')) = true
  · rw [if_pos hm] at h ⊢
    cases hf : find (argv.getD offset []) '=' with
    | some pos =>
      rw [hf] at h
      exact h
    | none =>
      rw [hf] at h
      simp only [] at h ⊢
      by_cases hp : (self._arg_pattern &&& ARG_PATTERN.SPACE) ≠ ARG_PATTERN.SPACE
      · rw [if_pos hp] at h ⊢
        exact h
      · rw [if_neg hp] at h ⊢
        by_cases htoo : self.argLimit > 0 ∧ self.argNum = self.argLimit
        · rw [if_pos htoo] at h
          cases h
        · rw [if_neg htoo] at h ⊢
          cases hcons : consume (LongOption.full_name self._name) argc argv
              self.argLimit (argc - (offset + 1)) self.toOptionValue
              self.argNum (offset + 1) with
          | mk v r =>
            rw [hcons] at h
            cases r with
            | error e => cases h
            | ok p =>
              obtain ⟨j, o2⟩ := p
              simp only [] at h
              by_cases hmiss : j = 0 ∧ self.argLimit > 0
              · rw [if_pos hmiss] at h
                cases h
              · rw [if_neg hmiss] at h
                simp only [Prod.mk.injEq, Except.ok.injEq] at h
                obtain ⟨he, hb, ho, ha⟩ := h
                subst ho
                rw [(consume_agree _ _ argv argv2 _ _ _ _ _ v j o2 hcons hag).2]
                simp only []
                rw [if_neg hmiss]
                simp only [Prod.mk.injEq, Except.ok.injEq]
                exact ⟨he, hb, by trivial, ha⟩
  · rw [if_neg hm] at h ⊢
    exact h

theorem short_entry_agree {T : Type} [ValueType T] (self e' : ShortEntry T)
    (offset argc : Nat) (argv argv2 : List Token) (b : Bool) (o' a' : Nat)
    (hlt : offset < argc) (h : self.parse offset argc argv = (e', .ok (b, o', a')))
    (hag : ∀ i, i < argc → i ≤ o' → argv2.getD i [] = argv.getD i []) :
    self.parse offset argc argv2 = (e', .ok (b, o', a')) := by
  have hprog := short_entry_progress self offset argc argv hlt
  rw [h] at hprog
  have hle : offset ≤ o' := by
    cases b <;> simp only [parse_progress] at hprog <;> omega
  cases self with
  | option o =>
    simp only [ShortEntry.parse] at h ⊢
    rw [short_option_agree o offset argc argv argv2 (hag offset hlt hle)]
    exact h
  | optionHasValue o =>
    simp only [ShortEntry.parse] at h ⊢
    cases hp : o.parse offset argc argv with
    | mk o1 r =>
      rw [hp] at h
      simp only [Prod.mk.injEq] at h
      obtain ⟨h1, h2⟩ := h
      subst h2
      rw [option_has_value_agree o o1 offset argc argv argv2 b o' a' hlt hp hag]
      simp only [Prod.mk.injEq, and_true]
      exact h1

theorem long_entry_agree {T : Type} [ValueType T] (self e' : LongEntry T)
    (offset argc : Nat) (argv argv2 : List Token) (b : Bool) (o' a' : Nat)
    (hlt : offset < argc) (h : self.parse offset argc argv = (e', .ok (b, o', a')))
    (hag : ∀ i, i < argc → i ≤ o' → argv2.getD i [] = argv.getD i []) :
    self.parse offset argc argv2 = (e', .ok (b, o', a')) := by
  have hprog := long_entry_progress self offset argc argv hlt
  rw [h] at hprog
  have hle : offset ≤ o' := by
    cases b <;> simp only [parse_progress] at hprog <;> omega
  cases self with
  | longOption o =>
    simp only [LongEntry.parse] at h ⊢
    rw [long_option_agree o offset argc argv argv2 (hag offset hlt hle)]
    exact h
  | longOptionHasValue o =>
    simp only [LongEntry.parse] at h ⊢
    cases hp : o.parse offset argc argv with
    | mk o1 r =>
      rw [hp] at h
      simp only [Prod.mk.injEq] at h
      obtain ⟨h1, h2⟩ := h
      subst h2
      rw [long_option_has_value_agree o o1 offset argc argv argv2 b o' a' hlt hp hag]
      simp only [Prod.mk.injEq, and_true]
      exact h1

theorem scan_agree {α T : Type}
    (parse : α → Nat → Nat → List Token → α × Except (Error T) Parsed)
    (argv argv2 : List Token)
    (hprog : ∀ ptr offset argc, offset < argc →
      parse_progress offset argc (parse ptr offset argc argv).2)
    (hstep : ∀ (p p' : α) (offset argc : Nat) (b : Bool) (o' a' : Nat), offset < argc →
      parse p offset argc argv = (p', .ok (b, o', a')) →
      (∀ i, i < argc → i ≤ o' → argv2.getD i [] = argv.getD i []) →
      parse p offset argc argv2 = (p', .ok (b, o', a'))) :
    ∀ (bucket bucket' : List α) (offset argc : Nat) (b : Bool) (o' a' : Nat), offset < argc →
      scan parse argv bucket offset argc = (bucket', .ok (b, o', a')) →
      (∀ i, i < argc → i ≤ o' → argv2.getD i [] = argv.getD i []) →
      scan parse argv2 bucket offset argc = (bucket', .ok (b, o', a')) := by
  intro bucket
  induction bucket with
  | nil =>
    intro bucket' offset argc b o' a' _ h _
    unfold scan at h ⊢
    exact h
  | cons ptr rest ih =>
    intro bucket' offset argc b o' a' hlt h hag
    have hp1 := hprog ptr offset argc hlt
    unfold scan at h ⊢
    cases hp : parse ptr offset argc argv with
    | mk ptr' r =>
      rw [hp] at h hp1
      cases r with
      | error e => cases h
      | ok p =>
        obtain ⟨b1, o1, a1⟩ := p
        cases b1 with
        | true =>
          simp only [Prod.mk.injEq, Except.ok.injEq] at h
          obtain ⟨h1, h2, h3, h4⟩ := h
          subst h3
          rw [hstep ptr ptr' offset argc true o1 a1 hlt hp hag]
          simp only [Prod.mk.injEq, Except.ok.injEq]
          exact ⟨h1, h2, by trivial, h4⟩
        | false =>
          simp only [parse_progress] at hp1
          obtain ⟨rfl, rfl⟩ := hp1
          simp only [] at h
          cases hs : scan parse argv rest o1 a1 with
          | mk rest' r2 =>
            rw [hs] at h
            simp only [Prod.mk.injEq] at h
            obtain ⟨h1, h2⟩ := h
            subst h2
            have hsp := scan_progress parse argv hprog rest o1 a1 hlt
            rw [hs] at hsp
            have hle : o1 ≤ o' := by
              cases b <;> simp only [parse_progress] at hsp <;> omega
            rw [hstep ptr ptr' o1 a1 false o1 a1 hlt hp
              (fun i hi hi' => hag i hi (by omega))]
            simp only []
            rw [ih rest' o1 a1 b o' a' hlt hs hag]
            simp only [Prod.mk.injEq, and_true]
            exact h1

theorem cursor_spec_reach {T : Type} [ValueType T] (argv : List Token) (m m' : OptionMap T)
    (offset argc r : Nat) (h : cursor_spec argv m m' offset argc r) :
    offset ≤ r ∧ r ≤ argc ∧ (r = argc ∨ offset < r) := by
  obtain ⟨h1, h2, h3, h4⟩ := h
  refine ⟨h2, h1, ?_⟩
  by_cases hp : m.paused_filled m'
  · exact .inr (h4 hp).1
  · exact .inl (h3 hp)

theorem parse_loop_agree {T : Type} [ValueType T] (argv argv2 : List Token) :
    ∀ (fuel : Nat) (self : OptionMap T) (offset argc : Nat) (m' : OptionMap T) (r : Nat),
      offset ≤ argc → OptionMap.parse_loop argv fuel self offset argc = (m', .ok r) →
      (∀ i, i < r → argv2.getD i [] = argv.getD i []) →
      OptionMap.parse_loop argv2 fuel self offset argc = (m', .ok r) := by
  intro fuel
  induction fuel with
  | zero =>
    intro self offset argc m' r _ h _
    unfold OptionMap.parse_loop at h ⊢
    exact h
  | succ fuel ih =>
    intro self offset argc m' r hle h hag
    have hcur := cursor_spec_reach argv _ _ _ _ _
      (parse_loop_cursor argv (fuel + 1) self offset argc m' r hle h)
    unfold OptionMap.parse_loop at h ⊢
    by_cases hlt : offset < argc
    · rw [if_pos hlt] at h ⊢
      by_cases ho : is_option (argv.getD offset []) = true
      · rw [if_pos ho] at h
        have hp := scan_progress ShortEntry.parse argv
          (fun p o a hl => short_entry_progress p o a argv hl) self._options offset argc hlt
        have hs := (scan_steps ShortEntry.parse ShortEntry.steps short_steps_refl argv
          (fun p o a => short_entry_steps p o a argv) self._options offset argc).2
        cases hscan : scan ShortEntry.parse argv self._options offset argc with
        | mk b res =>
          rw [hscan] at h hp hs
          cases res with
          | error e => cases h
          | ok p =>
            obtain ⟨exist, o, a⟩ := p
            have ha : a = argc := hs _ _ _ rfl
            cases exist with
            | false => cases h
            | true =>
              simp only [parse_progress] at hp
              simp only [Bool.not_true, Bool.false_eq_true, if_false] at h
              have hc2 := cursor_spec_reach argv _ _ _ _ _
                (parse_loop_cursor argv fuel _ o a m' r hp.2.1 h)
              have ht := hag offset (by omega)
              rw [ht, if_pos ho]
              rw [scan_agree ShortEntry.parse argv argv2
                (fun p o a hl => short_entry_progress p o a argv hl)
                (fun p p' o a b o' a' hl hh hg => short_entry_agree p p' o a argv argv2 b o' a'
                  hl hh hg) self._options b offset argc true o a hlt hscan
                (fun i hi hi' => hag i (by omega))]
              simp only [Bool.not_true, Bool.false_eq_true, if_false]
              exact ih _ o a m' r hp.2.1 h hag
      · rw [if_neg ho] at h
        by_cases hl : is_long_option (argv.getD offset []) = true
        · rw [if_pos hl] at h
          have hp := scan_progress LongEntry.parse argv
            (fun p o a hl => long_entry_progress p o a argv hl) self._long_options offset argc hlt
          have hs := (scan_steps LongEntry.parse LongEntry.steps long_steps_refl argv
            (fun p o a => long_entry_steps p o a argv) self._long_options offset argc).2
          cases hscan : scan LongEntry.parse argv self._long_options offset argc with
          | mk b res =>
            rw [hscan] at h hp hs
            cases res with
            | error e => cases h
            | ok p =>
              obtain ⟨exist, o, a⟩ := p
              have ha : a = argc := hs _ _ _ rfl
              cases exist with
              | false => cases h
              | true =>
                simp only [parse_progress] at hp
                simp only [Bool.not_true, Bool.false_eq_true, if_false] at h
                have hc2 := cursor_spec_reach argv _ _ _ _ _
                  (parse_loop_cursor argv fuel _ o a m' r hp.2.1 h)
                have ht := hag offset (by omega)
                rw [ht, if_neg ho, if_pos hl]
                rw [scan_agree LongEntry.parse argv argv2
                  (fun p o a hl => long_entry_progress p o a argv hl)
                  (fun p p' o a b o' a' hl hh hg => long_entry_agree p p' o a argv argv2 b o' a'
                    hl hh hg) self._long_options b offset argc true o a hlt hscan
                  (fun i hi hi' => hag i (by omega))]
                simp only [Bool.not_true, Bool.false_eq_true, if_false]
                exact ih _ o a m' r hp.2.1 h hag
        · rw [if_neg hl] at h
          have hpos : ∀ offset1 : Nat, offset ≤ offset1 → offset1 < argc →
              (match self._unnamed_options with
                | some u =>
                  match u.parse offset1 argc argv with
                  | (u', .error e) => ({ self with _unnamed_options := some u' }, .error e)
                  | (u', .ok (false, offset', _)) =>
                    ({ self with _unnamed_options := some u' },
                      .error (.unnamed_rejected (argv.getD offset' [])))
                  | (u', .ok (true, offset', argc')) =>
                    OptionMap.parse_loop argv fuel { self with _unnamed_options := some u' }
                      offset' argc'
                | none => (self, .error .unnamed_not_allowed) :
                  OptionMap T × Except (Error T) Nat) = (m', .ok r) →
              (match self._unnamed_options with
                | some u =>
                  match u.parse offset1 argc argv2 with
                  | (u', .error e) => ({ self with _unnamed_options := some u' }, .error e)
                  | (u', .ok (false, offset', _)) =>
                    ({ self with _unnamed_options := some u' },
                      .error (.unnamed_rejected (argv2.getD offset' [])))
                  | (u', .ok (true, offset', argc')) =>
                    OptionMap.parse_loop argv2 fuel { self with _unnamed_options := some u' }
                      offset' argc'
                | none => (self, .error .unnamed_not_allowed) :
                  OptionMap T × Except (Error T) Nat) = (m', .ok r) := by
            intro offset1 h01 h1lt h2
            cases hu : self._unnamed_options with
            | none => rw [hu] at h2; cases h2
            | some u =>
              rw [hu] at h2
              simp only [] at h2 ⊢
              have hup := unnamed_option_progress u offset1 argc argv h1lt
              cases hp : u.parse offset1 argc argv with
              | mk u' res =>
                rw [hp] at h2 hup
                cases res with
                | error e => cases h2
                | ok p =>
                  obtain ⟨exist, o, a⟩ := p
                  cases exist with
                  | false => cases h2
                  | true =>
                    simp only [] at h2
                    simp only [parse_progress] at hup
                    have hc2 := cursor_spec_reach argv _ _ _ _ _
                      (parse_loop_cursor argv fuel _ o a m' r hup.2.1 h2)
                    rw [unnamed_option_agree u offset1 argc argv argv2 (hag offset1 (by omega)),
                      hp]
                    simp only []
                    exact ih _ o a m' r hup.2.1 h2 hag
          have ht : argv2.getD offset [] = argv.getD offset [] := by
            by_cases hd : is_dash (argv.getD offset []) = true
            · simp only [hd, if_true, true_and] at h
              by_cases hge : offset + 1 ≥ argc
              · rw [if_pos hge] at h
                have := cursor_spec_reach argv _ _ _ _ _
                  (parse_loop_cursor argv fuel self (offset + 1) argc m' r (by omega) h)
                exact hag offset (by omega)
              · rw [if_neg hge] at h
                cases hu : self._unnamed_options with
                | none => rw [hu] at h; cases h
                | some u =>
                  rw [hu] at h
                  simp only [] at h
                  have hup := unnamed_option_progress u (offset + 1) argc argv (by omega)
                  cases hp : u.parse (offset + 1) argc argv with
                  | mk u' res =>
                    rw [hp] at h hup
                    cases res with
                    | error e => cases h
                    | ok p =>
                      obtain ⟨exist, o, a⟩ := p
                      cases exist with
                      | false => cases h
                      | true =>
                        simp only [] at h
                        simp only [parse_progress] at hup
                        have := cursor_spec_reach argv _ _ _ _ _
                          (parse_loop_cursor argv fuel _ o a m' r hup.2.1 h)
                        exact hag offset (by omega)
            · exact hag offset (by omega)
          rw [ht, if_neg ho, if_neg hl]
          by_cases hd : is_dash (argv.getD offset []) = true
          · simp only [hd, if_true, true_and] at h ⊢
            by_cases hge : offset + 1 ≥ argc
            · rw [if_pos hge] at h ⊢
              exact ih self (offset + 1) argc m' r (by omega) h hag
            · rw [if_neg hge] at h ⊢
              exact hpos _ (by omega) (by omega) h
          · simp only [hd, if_false, false_and] at h ⊢
            exact hpos _ (le_refl _) hlt h
    · rw [if_neg hlt] at h ⊢
      exact h

theorem parse_ok_loop {T : Type} [ValueType T] (self : OptionMap T) (argc : Nat)
    (argv : List Token) (validate : Bool) (m' : OptionMap T) (r : Nat)
    (h : self.parse argc argv validate = (m', .ok r)) :
    OptionMap.parse_loop argv argc self 0 argc = (m', .ok r) ∧
      (validate = true → m'.validate = .ok ()) := by
  unfold OptionMap.parse at h
  cases hp : OptionMap.parse_loop argv argc self 0 argc with
  | mk m res =>
    rw [hp] at h
    cases res with
    | error e => cases h
    | ok o =>
      simp only [] at h
      cases validate with
      | false =>
        simp only [Bool.false_eq_true, if_false] at h
        exact ⟨h, fun hv => by cases hv⟩
      | true =>
        simp only [if_true] at h
        cases hv : m.validate with
        | error e => rw [hv] at h; cases h
        | ok u =>
          rw [hv] at h
          simp only [Prod.mk.injEq, Except.ok.injEq] at h
          obtain ⟨rfl, rfl⟩ := h
          exact ⟨rfl, fun _ => hv⟩

theorem parse_of_loop {T : Type} [ValueType T] (self : OptionMap T) (argc : Nat)
    (argv : List Token) (validate : Bool) (m' : OptionMap T) (r : Nat)
    (hl : OptionMap.parse_loop argv argc self 0 argc = (m', .ok r))
    (hv : validate = true → m'.validate = .ok ()) :
    self.parse argc argv validate = (m', .ok r) := by
  unfold OptionMap.parse
  rw [hl]
  cases validate with
  | false => simp only [Bool.false_eq_true, if_false]
  | true => simp only [if_true, hv rfl]

theorem parse_agree {T : Type} [ValueType T] (self : OptionMap T) (argc : Nat)
    (argv argv2 : List Token) (validate : Bool) (m' : OptionMap T) (r : Nat)
    (h : self.parse argc argv validate = (m', .ok r))
    (hag : ∀ i, i < r → argv2.getD i [] = argv.getD i []) :
    self.parse argc argv2 validate = (m', .ok r) := by
  obtain ⟨hl, hv⟩ := parse_ok_loop self argc argv validate m' r h
  exact parse_of_loop self argc argv2 validate m' r
    (parse_loop_agree argv argv2 argc self 0 argc m' r (Nat.zero_le _) hl hag) hv

theorem parse_cursor {T : Type} [ValueType T] (self : OptionMap T) (argc : Nat)
    (argv : List Token) (validate : Bool) (m' : OptionMap T) (r : Nat)
    (h : self.parse argc argv validate = (m', .ok r)) :
    cursor_spec argv self m' 0 argc r :=
  parse_loop_cursor argv argc self 0 argc m' r (Nat.zero_le _)
    (parse_ok_loop self argc argv validate m' r h).1

/-! ## Lemmas on declarations, on value configurations and on `description` -/

theorem long_option_has_value_new_eq {T : Type} (value : Value T) (n desc : Token) (p : Nat)
    (hd : n.head? ≠ some '-') (he : '=' ∉ n) (hs : ' ' ∉ n) :
    LongOptionHasValue.new value n desc p =
      .ok { _name := n, _description := desc, _use := value.has_default,
            _value_info := value, _value := [], _arg_pattern := p } := by
  unfold LongOptionHasValue.new
  rw [base_new_eq, if_neg hd, if_neg he, if_neg hs]

theorem l_value_assign {T : Type} (ao : AddOptions T) (n : Token) (value : Value T)
    (desc : Token) (hd : n.head? ≠ some '-') (he : '=' ∉ n) (hs : ' ' ∉ n) :
    ao.l_value (n ++ ['=']) value desc =
      .ok { ao with
        _option_map := ao._option_map.add_long_option (.longOptionHasValue
          { _name := n, _description := desc, _use := value.has_default,
            _value_info := value, _value := [], _arg_pattern := ARG_PATTERN.ASSIGN }) } := by
  unfold AddOptions.l_value
  simp only [find_marker n '=' he, length_minus_one_marker, if_true, substr_marker,
    long_option_has_value_new_eq value n desc _ hd he hs]

theorem l_value_space {T : Type} (ao : AddOptions T) (n : Token) (value : Value T)
    (desc : Token) (hd : n.head? ≠ some '-') (he : '=' ∉ n) (hs : ' ' ∉ n) :
    ao.l_value (n ++ [' ']) value desc =
      .ok { ao with
        _option_map := ao._option_map.add_long_option (.longOptionHasValue
          { _name := n, _description := desc, _use := value.has_default,
            _value_info := value, _value := [], _arg_pattern := ARG_PATTERN.SPACE }) } := by
  unfold AddOptions.l_value
  have h1 : find (n ++ [' ']) '=' = none := find_other_marker n '=' ' ' he (by decide)
  have h2 : ¬ ((none : Option Nat) = some n.length) := by intro h; cases h
  simp only [h1, find_marker n ' ' hs, length_minus_one_marker, h2, if_false, if_true,
    substr_marker, long_option_has_value_new_eq value n desc _ hd he hs]

theorem l_value_both {T : Type} (ao : AddOptions T) (n : Token) (value : Value T)
    (desc : Token) (hn : n ≠ []) (hd : n.head? ≠ some '-') (he : '=' ∉ n) (hs : ' ' ∉ n) :
    ao.l_value n value desc =
      .ok { ao with
        _option_map := ao._option_map.add_long_option (.longOptionHasValue
          { _name := n, _description := desc, _use := value.has_default,
            _value_info := value, _value := [],
            _arg_pattern := ARG_PATTERN.ASSIGN ||| ARG_PATTERN.SPACE }) } := by
  unfold AddOptions.l_value
  have h1 : find n '=' = none := (find_eq_none_iff _ _).2 he
  have h2 : find n ' ' = none := (find_eq_none_iff _ _).2 hs
  have h3 : ¬ (none = length_minus_one n) := fun h => length_minus_one_ne_none n hn h.symm
  simp only [h1, h2, h3, if_false, long_option_has_value_new_eq value n desc _ hd he hs]

theorem value_call_limit {T : Type} (v v' : Value T) (c : ValueCall T)
    (h : v.call c = .ok v') (h1 : 1 ≤ v._limit) (hmax : v._default_value.length ≤ SIZE_MAX) :
    v'._default_value = v._default_value ∧ 1 ≤ v'._limit ∧
      (v._default_value.length ≤ v._limit ∨ c.sets_limit = true →
        v'._default_value.length ≤ v'._limit) := by
  cases c with
  | constraint f =>
    simp only [Value.call, Value.constraint] at h
    split at h
    · simp only [Except.ok.injEq] at h
      subst h
      exact ⟨rfl, h1, fun hh => hh.elim id (fun hc => by cases hc)⟩
    · cases h
  | limit l =>
    simp only [Value.call, Value.limit] at h
    split at h
    · cases h
    · split at h
      · cases h
      · simp only [Except.ok.injEq] at h
        subst h
        exact ⟨rfl, (by simp only; omega), fun _ => (by simp only; omega)⟩
  | unlimited =>
    simp only [Value.call, Value.unlimited, Except.ok.injEq] at h
    subst h
    exact ⟨rfl, (show 1 ≤ SIZE_MAX by decide), fun _ => hmax⟩
  | name n =>
    simp only [Value.call, Value.name, Except.ok.injEq] at h
    subst h
    exact ⟨rfl, h1, fun hh => hh.elim id (fun hc => by cases hc)⟩
  | required n =>
    simp only [Value.call, Value.required_n, Except.ok.injEq] at h
    subst h
    exact ⟨rfl, h1, fun hh => hh.elim id (fun hc => by cases hc)⟩

theorem value_calls_limit {T : Type} :
    ∀ (cs : List (ValueCall T)) (v v' : Value T), v.calls cs = .ok v' → 1 ≤ v._limit →
      v._default_value.length ≤ SIZE_MAX →
      v'._default_value = v._default_value ∧ 1 ≤ v'._limit ∧
        (v._default_value.length ≤ v._limit ∨ (∃ c ∈ cs, c.sets_limit = true) →
          v'._default_value.length ≤ v'._limit) := by
  intro cs
  induction cs with
  | nil =>
    intro v v' h h1 _
    simp only [Value.calls, Except.ok.injEq] at h
    subst h
    refine ⟨rfl, h1, fun hh => ?_⟩
    rcases hh with hh | ⟨c, hc, _⟩
    · exact hh
    · cases hc
  | cons c cs ih =>
    intro v v' h h1 hmax
    unfold Value.calls at h
    cases hc : v.call c with
    | error e => rw [hc] at h; cases h
    | ok v1 =>
      rw [hc] at h
      obtain ⟨d1, l1, k1⟩ := value_call_limit v v1 c hc h1 hmax
      obtain ⟨d2, l2, k2⟩ := ih v1 v' h l1 (by rw [d1]; exact hmax)
      refine ⟨d2.trans d1, l2, fun hh => k2 ?_⟩
      rcases hh with hh | ⟨c', hc', hs⟩
      · exact .inl (k1 (.inl hh))
      · rcases List.mem_cons.1 hc' with rfl | hc'
        · exact .inl (k1 (.inr hs))
        · exact .inr ⟨c', hc', hs⟩

theorem description_line_eq (cols gap : Nat) (nd d : Token) (hc : cols ≤ SIZE_MAX)
    (hs : nd.length + gap ≤ SIZE_MAX) :
    OptionMap.description_line cols gap nd d =
      "  ".toList ++ nd
        ++ List.replicate (if nd.length + gap ≤ cols then cols - nd.length else gap) ' '
        ++ d ++ "\n".toList := by
  unfold OptionMap.description_line
  have h1 : (nd.length + gap) % (SIZE_MAX + 1) = nd.length + gap :=
    Nat.mod_eq_of_lt (by omega)
  rw [h1]
  by_cases h : cols < nd.length + gap
  · rw [if_pos h, if_neg (by omega)]
  · rw [if_neg h, if_pos (by omega)]
    have h2 : (cols + (SIZE_MAX + 1) - nd.length) % (SIZE_MAX + 1) = cols - nd.length := by
      have e : cols + (SIZE_MAX + 1) - nd.length = (cols - nd.length) + (SIZE_MAX + 1) := by
        omega
      rw [e, Nat.add_mod_right]
      exact Nat.mod_eq_of_lt (by omega)
    rw [h2]

theorem zipWith_congr_right {α β γ : Type} (f g : α → β → γ) :
    ∀ (l : List α) (l' : List β), (∀ a b, b ∈ l' → f a b = g a b) →
      List.zipWith f l l' = List.zipWith g l l' := by
  intro l
  induction l with
  | nil => intro l' _; rfl
  | cons a l ih =>
    intro l' h
    cases l' with
    | nil => rfl
    | cons b l' =>
      rw [List.zipWith_cons_cons, List.zipWith_cons_cons, h a b (List.mem_cons_self _ _),
        ih l' (fun a' b' hb => h a' b' (List.mem_cons_of_mem _ hb))]

theorem description_loop_lines {T : Type} [StreamInsert T] (m : OptionMap T) (cols gap : Nat) :
    ∀ (refs : List OptionRef) (nds : List Token),
      List.Forall₂ (fun p nd => AnyOption.name_description p = .ok nd)
        (refs.filterMap m.lock) nds →
      m.description_loop cols gap refs =
        .ok (List.zipWith
          (fun p nd => OptionMap.description_line cols gap nd (AnyOption.description p))
          (refs.filterMap m.lock) nds).flatten := by
  intro refs
  induction refs with
  | nil =>
    intro nds h
    simp only [List.filterMap_nil] at h
    cases h
    rfl
  | cons e rest ih =>
    intro nds h
    unfold OptionMap.description_loop
    cases hl : m.lock e with
    | none =>
      rw [List.filterMap_cons_none hl] at h ⊢
      exact ih nds h
    | some p =>
      rw [List.filterMap_cons_some hl] at h ⊢
      cases h with
      | cons hp hrest =>
        simp only [hp, ih _ hrest, List.zipWith_cons_cons, List.flatten_cons]

theorem description_lines {T : Type} [StreamInsert T] (m : OptionMap T) (cols gap : Nat)
    (nds : List Token)
    (h : List.Forall₂ (fun p nd => AnyOption.name_description p = .ok nd) m.entries nds) :
    m.description cols gap =
      .ok ((List.zipWith
          (fun p nd => OptionMap.description_line cols gap nd (AnyOption.description p))
          m.entries nds).flatten
        ++ if m._ordered_options.isEmpty then "  None\n".toList else []) := by
  unfold OptionMap.description
  rw [description_loop_lines m cols gap _ nds h]
  simp only []
  split
  · rfl
  · simp only [List.append_nil]
    rfl

theorem value_call_limit_pos {T : Type} (v v' : Value T) (c : ValueCall T)
    (h : v.call c = .ok v') (h1 : 1 ≤ v._limit) : 1 ≤ v'._limit := by
  cases c with
  | constraint f =>
    simp only [Value.call, Value.constraint] at h
    split at h
    · simp only [Except.ok.injEq] at h
      subst h
      exact h1
    · cases h
  | limit l =>
    simp only [Value.call, Value.limit] at h
    split at h
    · cases h
    · split at h
      · cases h
      · simp only [Except.ok.injEq] at h
        subst h
        simp only
        omega
  | unlimited =>
    simp only [Value.call, Value.unlimited, Except.ok.injEq] at h
    subst h
    exact (show 1 ≤ SIZE_MAX by decide)
  | name n =>
    simp only [Value.call, Value.name, Except.ok.injEq] at h
    subst h
    exact h1
  | required n =>
    simp only [Value.call, Value.required_n, Except.ok.injEq] at h
    subst h
    exact h1

theorem value_calls_limit_pos {T : Type} :
    ∀ (cs : List (ValueCall T)) (v v' : Value T), v.calls cs = .ok v' → 1 ≤ v._limit →
      1 ≤ v'._limit := by
  intro cs
  induction cs with
  | nil =>
    intro v v' h h1
    simp only [Value.calls, Except.ok.injEq] at h
    subst h
    exact h1
  | cons c cs ih =>
    intro v v' h h1
    unfold Value.calls at h
    cases hc : v.call c with
    | error e => rw [hc] at h; cases h
    | ok v1 =>
      rw [hc] at h
      exact ih v1 v' h (value_call_limit_pos v v1 c hc h1)

theorem constructed_limit_pos {T : Type} (v : Value T) (h : v.constructed) : 1 ≤ v._limit := by
  obtain ⟨v0, cs, h0, hc⟩ := h
  refine value_calls_limit_pos cs v0 v hc ?_
  rcases h0 with rfl | ⟨x, rfl⟩ | ⟨xs, rfl⟩ <;> exact le_refl 1

/-! ## Lemmas on `init` and on the positional option of a declared map -/

theorem map_modify_eq {α β : Type} (f : α → β) (g : α → α) (hfg : ∀ a, f (g a) = f a) :
    ∀ (l : List α) (i : Nat), (List.modify g i l).map f = l.map f := by
  intro l
  induction l with
  | nil => intro i; rw [List.modify_nil]
  | cons a l ih =>
    intro i
    cases i with
    | zero => rw [List.modify_zero_cons, List.map_cons, List.map_cons, hfg]
    | succ i => rw [List.modify_succ_cons, List.map_cons, List.map_cons, ih]

theorem short_init_use {T : Type} (e : ShortEntry T) : e.init.base._use = e.base._use := by
  cases e <;> rfl

theorem long_init_use {T : Type} (e : LongEntry T) : e.init.base._use = e.base._use := by
  cases e <;> rfl

theorem init_one_use {T : Type} (m : OptionMap T) (ref : OptionRef) :
    (m.init_one ref)._options.map (fun e => e.base._use) = m._options.map (fun e => e.base._use) ∧
    (m.init_one ref)._long_options.map (fun e => e.base._use)
      = m._long_options.map (fun e => e.base._use) ∧
    (m.init_one ref)._unnamed_options.map (fun u => u._use)
      = m._unnamed_options.map (fun u => u._use) := by
  cases ref with
  | options i =>
    exact ⟨map_modify_eq _ _ short_init_use _ _, rfl, rfl⟩
  | long_options i =>
    exact ⟨rfl, map_modify_eq _ _ long_init_use _ _, rfl⟩
  | unnamed_options =>
    refine ⟨rfl, rfl, ?_⟩
    simp only [OptionMap.init_one]
    cases m._unnamed_options <;> rfl

theorem foldl_init_one_use {T : Type} (refs : List OptionRef) :
    ∀ m : OptionMap T,
      (refs.foldl OptionMap.init_one m)._options.map (fun e => e.base._use)
        = m._options.map (fun e => e.base._use) ∧
      (refs.foldl OptionMap.init_one m)._long_options.map (fun e => e.base._use)
        = m._long_options.map (fun e => e.base._use) ∧
      (refs.foldl OptionMap.init_one m)._unnamed_options.map (fun u => u._use)
        = m._unnamed_options.map (fun u => u._use) := by
  induction refs with
  | nil => intro m; exact ⟨rfl, rfl, rfl⟩
  | cons r refs ih =>
    intro m
    obtain ⟨a, b, c⟩ := ih (m.init_one r)
    obtain ⟨a', b', c'⟩ := init_one_use m r
    exact ⟨a.trans a', b.trans b', c.trans c'⟩

theorem init_use {T : Type} (m : OptionMap T) :
    m.init._options.map (fun e => e.base._use) = m._options.map (fun e => e.base._use) ∧
    m.init._long_options.map (fun e => e.base._use)
      = m._long_options.map (fun e => e.base._use) ∧
    m.init._unnamed_options.map (fun u => u._use)
      = m._unnamed_options.map (fun u => u._use) :=
  foldl_init_one_use _ m

theorem unnamed_option_new_eq {T : Type} (value : Value T) (desc : Token) :
    UnnamedOption.new value desc =
      .ok { _name := [], _description := desc, _use := false, _value_info := value,
            _value := [], _pause := false } := rfl

theorem builder_call_positional {T : Type} (ao : AddOptions T) (c : BuilderCall T)
    (ao' : AddOptions T)
    (hm : ∀ u, ao._option_map._unnamed_options = some u →
      u._name = [] ∧ OptionRef.unnamed_options ∈ ao._option_map._ordered_options)
    (h : ao.call c = .ok ao') :
    ∀ u, ao'._option_map._unnamed_options = some u →
      u._name = [] ∧ OptionRef.unnamed_options ∈ ao'._option_map._ordered_options := by
  cases c with
  | o name desc =>
    simp only [AddOptions.call, AddOptions.o] at h
    cases hn : (ShortOption.new name desc : Except (Error T) ShortOption) with
    | error e => rw [hn] at h; cases h
    | ok opt =>
      rw [hn] at h
      simp only [Except.ok.injEq] at h
      subst h
      intro u hu
      exact ⟨(hm u hu).1, List.mem_append_left _ (hm u hu).2⟩
  | o_value name value desc =>
    simp only [AddOptions.call, AddOptions.o_value] at h
    cases hn : OptionHasValue.new value name desc with
    | error e => rw [hn] at h; cases h
    | ok opt =>
      rw [hn] at h
      simp only [Except.ok.injEq] at h
      subst h
      intro u hu
      exact ⟨(hm u hu).1, List.mem_append_left _ (hm u hu).2⟩
  | l name desc =>
    simp only [AddOptions.call, AddOptions.l] at h
    cases hn : (LongOption.new name desc : Except (Error T) LongOption) with
    | error e => rw [hn] at h; cases h
    | ok opt =>
      rw [hn] at h
      simp only [Except.ok.injEq] at h
      subst h
      intro u hu
      exact ⟨(hm u hu).1, List.mem_append_left _ (hm u hu).2⟩
  | l_value name value desc =>
    simp only [AddOptions.call, AddOptions.l_value] at h
    split at h
    · simp only [Except.ok.injEq] at h
      subst h
      intro u hu
      exact ⟨(hm u hu).1, List.mem_append_left _ (hm u hu).2⟩
    · cases h
  | pause =>
    simp only [AddOptions.call, Except.ok.injEq] at h
    subst h
    exact hm
  | u value desc =>
    simp only [AddOptions.call, AddOptions.u, unnamed_option_new_eq,
      OptionMap.add_unnamed_option] at h
    by_cases hsome : ao._option_map._unnamed_options.isSome = true
    · rw [if_pos hsome] at h
      cases h
    · rw [if_neg hsome] at h
      simp only [Except.ok.injEq] at h
      subst h
      intro u hu
      simp only [Option.some.injEq] at hu
      subst hu
      exact ⟨rfl, List.mem_append_right _ (List.mem_singleton_self _)⟩

theorem declare_positional {T : Type} (cs : List (BuilderCall T)) (m : OptionMap T)
    (h : CommandLineOption.declare cs = .ok m) :
    ∀ u, m._unnamed_options = some u →
      u._name = [] ∧ OptionRef.unnamed_options ∈ m._ordered_options :=
  declare_induction
    (fun m => ∀ u, m._unnamed_options = some u →
      u._name = [] ∧ OptionRef.unnamed_options ∈ m._ordered_options)
    (fun _ => True) (fun _ hu => by cases hu)
    (fun ao c ao' hm _ hcall => builder_call_positional ao c ao' hm hcall) cs m
    (fun _ _ => trivial) h

/-! ## Lemmas on the arg-patterns of a declared map -/

theorem short_steps_pattern {T : Type} (e e' : ShortEntry T) (h : e.steps e')
    (hp : ∀ p, e.arg_pattern? = some p → p = ARG_PATTERN.SPACE) :
    ∀ p, e'.arg_pattern? = some p → p = ARG_PATTERN.SPACE := by
  cases e <;> cases e' <;> simp only [ShortEntry.steps] at h
  · intro p hp'; cases hp'
  · intro p hp'
    simp only [ShortEntry.arg_pattern?, Option.some.injEq] at hp'
    subst hp'
    rw [h.2.2]
    exact hp _ rfl

theorem long_steps_pattern {T : Type} (e e' : LongEntry T) (h : e.steps e')
    (hp : ∀ p, e.arg_pattern? = some p → p = ARG_PATTERN.ASSIGN ∨ p = ARG_PATTERN.SPACE ∨
      p = ARG_PATTERN.ASSIGN ||| ARG_PATTERN.SPACE) :
    ∀ p, e'.arg_pattern? = some p → p = ARG_PATTERN.ASSIGN ∨ p = ARG_PATTERN.SPACE ∨
      p = ARG_PATTERN.ASSIGN ||| ARG_PATTERN.SPACE := by
  cases e <;> cases e' <;> simp only [LongEntry.steps] at h
  · intro p hp'; cases hp'
  · intro p hp'
    simp only [LongEntry.arg_pattern?, Option.some.injEq] at hp'
    subst hp'
    rw [h.2.2]
    exact hp _ rfl

theorem known_patterns_of_steps {T : Type} (m m' : OptionMap T) (h : m.steps m')
    (hm : m.known_patterns) : m'.known_patterns :=
  ⟨forall2_transfer (fun a b => short_steps_pattern a b) _ _ h.1 hm.1,
    forall2_transfer (fun a b => long_steps_pattern a b) _ _ h.2.1 hm.2⟩

theorem short_init_pattern {T : Type} (e : ShortEntry T) :
    e.init.arg_pattern? = e.arg_pattern? := by
  cases e <;> rfl

theorem long_init_pattern {T : Type} (e : LongEntry T) :
    e.init.arg_pattern? = e.arg_pattern? := by
  cases e <;> rfl

theorem init_one_known_patterns {T : Type} (m : OptionMap T) (ref : OptionRef)
    (hm : m.known_patterns) : (m.init_one ref).known_patterns := by
  obtain ⟨ws, wl⟩ := hm
  cases ref with
  | options i =>
    refine ⟨fun e he => ?_, wl⟩
    rcases mem_modify _ _ _ _ he with h | ⟨a, ha, rfl⟩
    · exact ws e h
    · rw [short_init_pattern]; exact ws a ha
  | long_options i =>
    refine ⟨ws, fun e he => ?_⟩
    rcases mem_modify _ _ _ _ he with h | ⟨a, ha, rfl⟩
    · exact wl e h
    · rw [long_init_pattern]; exact wl a ha
  | unnamed_options => exact ⟨ws, wl⟩

theorem foldl_init_one_known_patterns {T : Type} (refs : List OptionRef) :
    ∀ m : OptionMap T, m.known_patterns → (refs.foldl OptionMap.init_one m).known_patterns := by
  induction refs with
  | nil => intro m hm; exact hm
  | cons r refs ih =>
    intro m hm
    exact ih _ (init_one_known_patterns m r hm)

theorem calls_known_patterns {T : Type} [ValueType T] (cs : List MapCall) :
    ∀ m : OptionMap T, m.known_patterns → (m.calls cs).known_patterns := by
  induction cs with
  | nil => intro m hm; exact hm
  | cons c cs ih =>
    intro m hm
    refine ih _ ?_
    cases c with
    | parse argc argv validate =>
      exact known_patterns_of_steps _ _ (parse_steps m argc argv validate) hm
    | init => exact foldl_init_one_known_patterns _ m hm

theorem option_has_value_new_pattern {T : Type} (value : Value T) (name desc : Token)
    (opt : OptionHasValue T) (h : OptionHasValue.new value name desc = .ok opt) :
    opt._arg_pattern = ARG_PATTERN.SPACE := by
  unfold OptionHasValue.new at h
  cases hb : (OptionBase.new name desc : Except (Error T) OptionBase) with
  | error e => rw [hb] at h; cases h
  | ok b =>
    rw [hb] at h
    simp only [Except.ok.injEq] at h
    subst h
    rfl

theorem long_option_has_value_new_pattern {T : Type} (value : Value T) (name desc : Token)
    (p : Nat) (opt : LongOptionHasValue T)
    (h : LongOptionHasValue.new value name desc p = .ok opt) :
    opt._arg_pattern = p := by
  unfold LongOptionHasValue.new at h
  cases hb : (OptionBase.new name desc : Except (Error T) OptionBase) with
  | error e => rw [hb] at h; cases h
  | ok b =>
    rw [hb] at h
    simp only [Except.ok.injEq] at h
    subst h
    rfl

theorem builder_call_known_patterns {T : Type} (ao : AddOptions T) (c : BuilderCall T)
    (ao' : AddOptions T) (hm : ao._option_map.known_patterns) (h : ao.call c = .ok ao') :
    ao'._option_map.known_patterns := by
  obtain ⟨ws, wl⟩ := hm
  cases c with
  | o name desc =>
    simp only [AddOptions.call, AddOptions.o] at h
    cases hn : (ShortOption.new name desc : Except (Error T) ShortOption) with
    | error e => rw [hn] at h; cases h
    | ok opt =>
      rw [hn] at h
      simp only [Except.ok.injEq] at h
      subst h
      refine ⟨fun a ha => ?_, wl⟩
      simp only [OptionMap.add_option, List.mem_append, List.mem_singleton] at ha
      rcases ha with ha | rfl
      · exact ws a ha
      · intro p hp; cases hp
  | o_value name value desc =>
    simp only [AddOptions.call, AddOptions.o_value] at h
    cases hn : OptionHasValue.new value name desc with
    | error e => rw [hn] at h; cases h
    | ok opt =>
      rw [hn] at h
      simp only [Except.ok.injEq] at h
      subst h
      refine ⟨fun a ha => ?_, wl⟩
      simp only [OptionMap.add_option, List.mem_append, List.mem_singleton] at ha
      rcases ha with ha | rfl
      · exact ws a ha
      · intro p hp
        simp only [ShortEntry.arg_pattern?, Option.some.injEq] at hp
        rw [← hp]
        exact option_has_value_new_pattern _ _ _ _ hn
  | l name desc =>
    simp only [AddOptions.call, AddOptions.l] at h
    cases hn : (LongOption.new name desc : Except (Error T) LongOption) with
    | error e => rw [hn] at h; cases h
    | ok opt =>
      rw [hn] at h
      simp only [Except.ok.injEq] at h
      subst h
      refine ⟨ws, fun a ha => ?_⟩
      simp only [OptionMap.add_long_option, List.mem_append, List.mem_singleton] at ha
      rcases ha with ha | rfl
      · exact wl a ha
      · intro p hp; cases hp
  | l_value name value desc =>
    simp only [AddOptions.call, AddOptions.l_value] at h
    split at h
    · rename_i opt hn
      simp only [Except.ok.injEq] at h
      subst h
      refine ⟨ws, fun a ha => ?_⟩
      simp only [OptionMap.add_long_option, List.mem_append, List.mem_singleton] at ha
      rcases ha with ha | rfl
      · exact wl a ha
      · intro p hp
        simp only [LongEntry.arg_pattern?, Option.some.injEq] at hp
        rw [← hp]
        split at hn
        · exact .inl (long_option_has_value_new_pattern _ _ _ _ _ hn)
        · split at hn
          · exact .inr (.inl (long_option_has_value_new_pattern _ _ _ _ _ hn))
          · exact .inr (.inr (long_option_has_value_new_pattern _ _ _ _ _ hn))
    · cases h
  | pause =>
    simp only [AddOptions.call, Except.ok.injEq] at h
    subst h
    exact ⟨ws, wl⟩
  | u value desc =>
    simp only [AddOptions.call, AddOptions.u, unnamed_option_new_eq,
      OptionMap.add_unnamed_option] at h
    by_cases hsome : ao._option_map._unnamed_options.isSome = true
    · rw [if_pos hsome] at h
      cases h
    · rw [if_neg hsome] at h
      simp only [Except.ok.injEq] at h
      subst h
      exact ⟨ws, wl⟩

theorem declare_known_patterns {T : Type} (cs : List (BuilderCall T)) (m : OptionMap T)
    (h : CommandLineOption.declare cs = .ok m) : m.known_patterns :=
  declare_induction OptionMap.known_patterns (fun _ => True)
    ⟨fun _ h _ _ => (by cases h), fun _ h _ _ => (by cases h)⟩
    (fun ao c ao' hm _ hcall => builder_call_known_patterns ao c ao' hm hcall) cs m
    (fun _ _ => trivial) h

theorem name_description_ok {T : Type} [StreamInsert T] (m : OptionMap T)
    (hm : m.known_patterns) (ref : OptionRef) (a : AnyOption T) (h : m.lock ref = some a) :
    ∃ nd, a.name_description = .ok nd := by
  cases ref with
  | options i =>
    simp only [OptionMap.lock] at h
    cases hg : m._options.get? i with
    | none => rw [hg] at h; cases h
    | some e =>
      rw [hg] at h
      simp only [Option.map_some', Option.some.injEq] at h
      subst h
      have hmem : e ∈ m._options := List.get?_mem hg
      cases e with
      | option o => exact ⟨_, rfl⟩
      | optionHasValue o =>
        have hp : o._arg_pattern = ARG_PATTERN.SPACE := hm.1 _ hmem _ rfl
        simp only [AnyOption.name_description, hp, arg_pattern_description]
        exact ⟨_, rfl⟩
  | long_options i =>
    simp only [OptionMap.lock] at h
    cases hg : m._long_options.get? i with
    | none => rw [hg] at h; cases h
    | some e =>
      rw [hg] at h
      simp only [Option.map_some', Option.some.injEq] at h
      subst h
      have hmem : e ∈ m._long_options := List.get?_mem hg
      cases e with
      | longOption o => exact ⟨_, rfl⟩
      | longOptionHasValue o =>
        rcases hm.2 _ hmem _ rfl with hp | hp | hp <;>
          simp only [AnyOption.name_description, LongEntry.arg_pattern?] at hp ⊢ <;>
          rw [hp] <;> exact ⟨_, rfl⟩
  | unnamed_options =>
    simp only [OptionMap.lock] at h
    cases hu : m._unnamed_options with
    | none => rw [hu] at h; cases h
    | some u =>
      rw [hu] at h
      simp only [Option.map_some', Option.some.injEq] at h
      subst h
      exact ⟨_, rfl⟩

theorem forall2_of_forall_exists {α β : Type} (R : α → β → Prop) :
    ∀ l : List α, (∀ a ∈ l, ∃ b, R a b) → ∃ l', List.Forall₂ R l l' := by
  intro l
  induction l with
  | nil => intro _; exact ⟨[], .nil⟩
  | cons a l ih =>
    intro h
    obtain ⟨b, hb⟩ := h a (List.mem_cons_self _ _)
    obtain ⟨l', hl'⟩ := ih (fun a' ha' => h a' (List.mem_cons_of_mem _ ha'))
    exact ⟨b :: l', .cons hb hl'⟩

theorem name_descriptions_exist {T : Type} [StreamInsert T] (m : OptionMap T)
    (hm : m.known_patterns) :
    ∃ nds, List.Forall₂ (fun p nd => AnyOption.name_description p = .ok nd) m.entries nds := by
  refine forall2_of_forall_exists _ _ (fun a ha => ?_)
  unfold OptionMap.entries at ha
  obtain ⟨ref, _, href⟩ := List.mem_filterMap.1 ha
  exact name_description_ok m hm ref a href

/-! ## The claims -/

/-- Claim C1. On the map that declares the long string options `service` and `user`,
both `required()`, and for any tokens `a`, `b` that are neither short-option-shaped,
long-option-shaped nor dash-only, `parse(4, ["--service", a, "--user", b], true)`
returns 4, after which `use("service").as<std::string>()` is `a` and
`use("user").as<std::string>()` is `b`. -/
theorem service_user_end_to_end (d1 d2 a b : Token)
    (ha : is_option a = false ∧ is_long_option a = false ∧ is_dash a = false)
    (hb : is_option b = false ∧ is_long_option b = false ∧ is_dash b = false) :
    ∃ ao, service_user_options d1 d2 = .ok ao ∧
      (ao._option_map.parse 4 ["--service".toList, a, "--user".toList, b] true).2 = .ok 4 ∧
      ((ao._option_map.parse 4 ["--service".toList, a, "--user".toList, b] true).1.use
        "service".toList).bind OptionWrapper.as = .ok a ∧
      ((ao._option_map.parse 4 ["--service".toList, a, "--user".toList, b] true).1.use
        "user".toList).bind OptionWrapper.as = .ok b := by
  refine ⟨_, rfl, ?_⟩
  let svc : LongOptionHasValue Token :=
    { _name := "service".toList, _description := d1, _use := false,
      _value_info := (Value.new.name "service".toList).required, _value := [],
      _arg_pattern := ARG_PATTERN.ASSIGN ||| ARG_PATTERN.SPACE }
  let usr : LongOptionHasValue Token :=
    { _name := "user".toList, _description := d2, _use := false,
      _value_info := (Value.new.name "user".toList).required, _value := [],
      _arg_pattern := ARG_PATTERN.ASSIGN ||| ARG_PATTERN.SPACE }
  let svc' : LongOptionHasValue Token := { svc with _value := [a], _use := true }
  let usr' : LongOptionHasValue Token := { usr with _value := [b], _use := true }
  let argv : List Token := ["--service".toList, a, "--user".toList, b]
  have hsn : "service".toList ≠ [] ∧ '=' ∉ "service".toList := by decide
  have hun : "user".toList ≠ [] ∧ '=' ∉ "user".toList := by decide
  have hpat : ((ARG_PATTERN.ASSIGN ||| ARG_PATTERN.SPACE) &&& ARG_PATTERN.SPACE)
      = ARG_PATTERN.SPACE := by decide
  have h1 : svc.parse 0 4 argv = (svc', .ok (true, 2, 4)) :=
    long_parse_space svc [] [a] ["--user".toList, b] hsn.1 hsn.2 hpat
      (show 0 < 1 by decide) (by simpa using ha) (show 0 + 1 ≤ 1 by decide)
      (Or.inl (show 0 + 1 = 1 by decide)) (show 0 + 1 ≠ 0 by decide)
  have h2 : svc'.parse 2 4 argv = (svc', .ok (false, 2, 4)) :=
    long_parse_no_match svc' 2 4 argv
      (show LongOption.match_name "service".toList
        (substr "--user".toList 0 (find "--user".toList '=')) = false by decide)
  have h3 : usr.parse 2 4 argv = (usr', .ok (true, 4, 4)) :=
    long_parse_space usr ["--service".toList, a] [b] [] hun.1 hun.2 hpat
      (show 0 < 1 by decide) (by simpa using hb) (show 0 + 1 ≤ 1 by decide)
      (Or.inl (show 0 + 1 = 1 by decide)) (show 0 + 1 ≠ 0 by decide)
  have s1 : scan LongEntry.parse argv [.longOptionHasValue svc, .longOptionHasValue usr] 0 4
      = ([.longOptionHasValue svc', .longOptionHasValue usr], .ok (true, 2, 4)) :=
    scan_hit _ _ _ _ _ _ _ _ _ (by simp only [LongEntry.parse, h1])
  have s2 : scan LongEntry.parse argv [.longOptionHasValue svc', .longOptionHasValue usr] 2 4
      = ([.longOptionHasValue svc', .longOptionHasValue usr'], .ok (true, 4, 4)) := by
    rw [scan_miss LongEntry.parse argv (.longOptionHasValue svc') (.longOptionHasValue svc')
      _ 2 4 2 4 (by simp only [LongEntry.parse, h2])]
    rw [scan_hit LongEntry.parse argv (.longOptionHasValue usr) (.longOptionHasValue usr')
      [] 2 4 4 4 (by simp only [LongEntry.parse, h3])]
  let m0 : OptionMap Token :=
    { _long_options := [.longOptionHasValue svc, .longOptionHasValue usr],
      _ordered_options := [.long_options 0, .long_options 1] }
  let m2 : OptionMap Token :=
    { _long_options := [.longOptionHasValue svc', .longOptionHasValue usr'],
      _ordered_options := [.long_options 0, .long_options 1] }
  have hl : OptionMap.parse_loop argv 4 m0 0 4 = (m2, .ok 4) := by
    rw [parse_loop_long argv 3 m0 0 4 _ 2 4 (by decide)
      (show is_option "--service".toList = false by decide)
      (show is_long_option "--service".toList = true by decide) s1]
    rw [parse_loop_long argv 2 _ 2 4 _ 4 4 (by decide)
      (show is_option "--user".toList = false by decide)
      (show is_long_option "--user".toList = true by decide) s2]
    rw [parse_loop_exit argv 2 _ 4 4 (le_refl _)]
  have hv : m2.validate = .ok () := rfl
  have hp : m0.parse 4 argv true = (m2, .ok 4) := by
    simp only [OptionMap.parse, hl, hv, if_true]
  show (m0.parse 4 argv true).2 = .ok 4 ∧
    ((m0.parse 4 argv true).1.use "service".toList).bind OptionWrapper.as = .ok a ∧
    ((m0.parse 4 argv true).1.use "user".toList).bind OptionWrapper.as = .ok b
  rw [hp]
  exact ⟨rfl, rfl, rfl⟩

theorem service_user_end_to_end_witness :
    (is_option "foo".toList = false ∧ is_long_option "foo".toList = false ∧
      is_dash "foo".toList = false) ∧
    (is_option "bar".toList = false ∧ is_long_option "bar".toList = false ∧
      is_dash "bar".toList = false) ∧
    ∃ ao, service_user_options [] [] = .ok ao ∧
      (ao._option_map.parse 4
        ["--service".toList, "foo".toList, "--user".toList, "bar".toList] true).2 = .ok 4 ∧
      ((ao._option_map.parse 4
        ["--service".toList, "foo".toList, "--user".toList, "bar".toList] true).1.use
          "service".toList).bind OptionWrapper.as = .ok "foo".toList ∧
      ((ao._option_map.parse 4
        ["--service".toList, "foo".toList, "--user".toList, "bar".toList] true).1.use
          "user".toList).bind OptionWrapper.as = .ok "bar".toList :=
  ⟨by decide, by decide,
    service_user_end_to_end [] [] "foo".toList "bar".toList (by decide) (by decide)⟩

/-- Claim C2. A long valued option that holds no bound value and is matched by the
token `--name` (space form) raises the missing-value error carrying its full name
`--name` when that token is the last argument or is directly followed by a short- or
long-option-shaped token; on the map declaring the required long options `service`
and `user`, `parse(1, ["--service"])` fails with that error for `--service`. -/
theorem long_option_without_value_is_missing_value {T : Type} [ValueType T]
    (self : LongOptionHasValue T) (offset argc : Nat) (argv : List Token) (d1 d2 : Token)
    (hn : self._name ≠ []) (heq : '=' ∉ self._name)
    (hpat : (self._arg_pattern &&& ARG_PATTERN.SPACE) = ARG_PATTERN.SPACE)
    (hval : self._value = []) (hlimit : 0 < self._value_info._limit)
    (htok : argv.getD offset [] = '-' :: '-' :: self._name)
    (hnext : argc ≤ offset + 1 ∨
      (is_option (argv.getD (offset + 1) []) || is_long_option (argv.getD (offset + 1) []))
        = true) :
    self.parse offset argc argv
      = (self, .error (.missing_value ('-' :: '-' :: self._name))) ∧
    ∃ ao, service_user_options d1 d2 = .ok ao ∧
      (ao._option_map.parse 1 ["--service".toList] true).2
        = .error (.missing_value "--service".toList) := by
  refine ⟨long_parse_missing self offset argc argv hn heq hpat hval hlimit htok hnext,
    _, rfl, ?_⟩
  let svc : LongOptionHasValue Token :=
    { _name := "service".toList, _description := d1, _use := false,
      _value_info := (Value.new.name "service".toList).required, _value := [],
      _arg_pattern := ARG_PATTERN.ASSIGN ||| ARG_PATTERN.SPACE }
  let usr : LongOptionHasValue Token :=
    { _name := "user".toList, _description := d2, _use := false,
      _value_info := (Value.new.name "user".toList).required, _value := [],
      _arg_pattern := ARG_PATTERN.ASSIGN ||| ARG_PATTERN.SPACE }
  let m0 : OptionMap Token :=
    { _long_options := [.longOptionHasValue svc, .longOptionHasValue usr],
      _ordered_options := [.long_options 0, .long_options 1] }
  have hsn : "service".toList ≠ [] ∧ '=' ∉ "service".toList := by decide
  have h1 : svc.parse 0 1 ["--service".toList]
      = (svc, .error (.missing_value "--service".toList)) :=
    long_parse_missing svc 0 1 ["--service".toList] hsn.1 hsn.2
      (show (ARG_PATTERN.ASSIGN ||| ARG_PATTERN.SPACE) &&& ARG_PATTERN.SPACE
        = ARG_PATTERN.SPACE by decide) rfl
      (show 0 < 1 by decide) rfl (Or.inl (le_refl _))
  have hl : OptionMap.parse_loop ["--service".toList] 1 m0 0 1
      = (m0, .error (.missing_value "--service".toList)) := by
    rw [parse_loop_long_error ["--service".toList] 0 m0 0 1 _ _ (by decide)
      (show is_option "--service".toList = false by decide)
      (show is_long_option "--service".toList = true by decide)
      (scan_error LongEntry.parse ["--service".toList] (.longOptionHasValue svc)
        (.longOptionHasValue svc) [.longOptionHasValue usr] 0 1
        (.missing_value "--service".toList) (by simp only [LongEntry.parse, h1]))]
  show (m0.parse 1 ["--service".toList] true).2 = _
  simp only [OptionMap.parse, hl]

theorem long_option_without_value_is_missing_value_witness :
    (long_string_option "service".toList Value.new.required
        (ARG_PATTERN.ASSIGN ||| ARG_PATTERN.SPACE))._name ≠ [] ∧
    (long_string_option "service".toList Value.new.required
        (ARG_PATTERN.ASSIGN ||| ARG_PATTERN.SPACE)).parse 0 2
        ["--service".toList, "--user".toList]
      = (long_string_option "service".toList Value.new.required
            (ARG_PATTERN.ASSIGN ||| ARG_PATTERN.SPACE),
          .error (.missing_value "--service".toList)) ∧
    ∃ ao, service_user_options [] [] = .ok ao ∧
      (ao._option_map.parse 1 ["--service".toList] true).2
        = .error (.missing_value "--service".toList) :=
  ⟨by decide,
    long_option_without_value_is_missing_value
      (long_string_option "service".toList Value.new.required
        (ARG_PATTERN.ASSIGN ||| ARG_PATTERN.SPACE))
      0 2 ["--service".toList, "--user".toList] [] []
      (by decide) (by decide) (by decide) rfl (by decide) rfl (Or.inr (by decide))⟩

/-- Claim C3. For every valued entry the accessor returns the bound values when one
is bound (the first for `as<T>`, all of them in binding order for
`as<std::vector<T>>`), otherwise the defaults when there are any (the first for
`as<T>`), otherwise it fails with the no-value-set error; a long option constructed
with the default `"stdout"` holds no bound value and yields `"stdout"`. -/
theorem accessor_bound_then_default_then_error {T : Type} (w : OptionWrapper T)
    (p : OptionValue T) (hp : AnyOption.value? w = some p) :
    (∀ x xs, p._value = x :: xs →
      OptionWrapper.as w = .ok x ∧ OptionWrapper.as_vector w = .ok (x :: xs)) ∧
    (∀ d ds, p._value = [] → p._value_info._default_value = d :: ds →
      OptionWrapper.as w = .ok d ∧ OptionWrapper.as_vector w = .ok (d :: ds)) ∧
    (p._value = [] → p._value_info._default_value = [] →
      OptionWrapper.as w = .error (.as_failed (AnyOption.full_name w) .no_value_set) ∧
      OptionWrapper.as_vector w
        = .error (.as_failed (AnyOption.full_name w) .no_value_set)) ∧
    (∀ (n d : Token) (pat : Nat) (o : LongOptionHasValue Token),
      LongOptionHasValue.new (Value.of "stdout".toList) n d pat = .ok o →
      o._value = [] ∧
      OptionWrapper.as (.long (.longOptionHasValue o)) = .ok "stdout".toList) := by
  obtain ⟨h1, h2⟩ := wrapper_as_eq w p hp
  refine ⟨?_, ?_, ?_, ?_⟩
  · intro x xs hv
    rw [h1, h2]
    simp [OptionValue.as, OptionValue.as_vector, hv]
  · intro d ds hv hd
    rw [h1, h2]
    simp [OptionValue.as, OptionValue.as_vector, hv, hd, Value.has_default]
  · intro hv hd
    rw [h1, h2]
    simp [OptionValue.as, OptionValue.as_vector, hv, hd, Value.has_default]
  · intro n d pat o ho
    simp only [LongOptionHasValue.new] at ho
    cases hb : (OptionBase.new n d : Except (Error Token) OptionBase) with
    | error e => rw [hb] at ho; simp at ho
    | ok b =>
      rw [hb] at ho
      simp only [Except.ok.injEq] at ho
      subst ho
      exact ⟨rfl, rfl⟩

theorem accessor_bound_then_default_then_error_witness :
    OptionWrapper.as (.long (.longOptionHasValue
        (long_string_option "target".toList (Value.of "stdout".toList) 3)))
      = .ok "stdout".toList ∧
    OptionWrapper.as_vector (.long (.longOptionHasValue
        (long_string_option "target".toList (Value.of "stdout".toList) 3)))
      = .ok ["stdout".toList] :=
  (accessor_bound_then_default_then_error
    (.long (.longOptionHasValue
      (long_string_option "target".toList (Value.of "stdout".toList) 3)))
    (long_string_option "target".toList (Value.of "stdout".toList) 3).toOptionValue
    rfl).2.1 "stdout".toList [] rfl rfl

/-- Claim C4. For a long valued string option whose arg-pattern includes ASSIGN and
which holds fewer bound values than its limit, `parse` on the token `--name=v` at
offset `c` appends exactly `v`, the text after the first `=` (`v` may be empty or hold
further `=`), sets the used flag and the offset to `c + 1`, whatever `argc` and the
other arguments are. -/
theorem assign_form_binds_exactly_one (self : LongOptionHasValue Token) (v : Token)
    (c argc : Nat) (argv : List Token) (hn : self._name ≠ []) (heq : '=' ∉ self._name)
    (hpat : (self._arg_pattern &&& ARG_PATTERN.ASSIGN) = ARG_PATTERN.ASSIGN)
    (hroom : self._value.length < self._value_info._limit)
    (htok : argv.getD c [] = '-' :: '-' :: (self._name ++ '=' :: v)) :
    self.parse c argc argv =
      ({ self with _value := self._value ++ [v], _use := true }, .ok (true, c + 1, argc)) :=
  long_parse_assign self v c argc argv hn heq hpat hroom htok

theorem assign_form_binds_exactly_one_witness :
    (long_string_option "col".toList Value.new ARG_PATTERN.ASSIGN).parse 0 2
        ["--col=srv".toList, "pw".toList]
      = ({ long_string_option "col".toList Value.new ARG_PATTERN.ASSIGN with
            _value := ["srv".toList], _use := true },
          .ok (true, 1, 2)) :=
  assign_form_binds_exactly_one (long_string_option "col".toList Value.new ARG_PATTERN.ASSIGN)
    "srv".toList 0 2 ["--col=srv".toList, "pw".toList]
    (by decide) (by decide) (by decide) (by decide) (by decide)

/-- Claim C5. For a long string option whose arg-pattern includes SPACE, configured
`unlimited()` and holding no bound value, `parse` on `--name v1 ... vm` (at any
offset), with `m >= 1`, no `vi` option-shaped or dash-only, followed by the end of
the arguments or by a short- or long-option-shaped token, binds exactly
`[v1, ..., vm]` in that order and leaves the offset on the token right after `vm`
(`m` is at most `SIZE_MAX`, as every argument count is). -/
theorem space_form_unlimited_binds_all (self : LongOptionHasValue Token)
    (pre vs rest : List Token) (hn : self._name ≠ []) (heq : '=' ∉ self._name)
    (hpat : (self._arg_pattern &&& ARG_PATTERN.SPACE) = ARG_PATTERN.SPACE)
    (hunlimited : self._value_info._limit = SIZE_MAX) (hval : self._value = [])
    (hm : 1 ≤ vs.length) (hargc : vs.length ≤ SIZE_MAX)
    (hvs : ∀ v ∈ vs, is_option v = false ∧ is_long_option v = false ∧ is_dash v = false)
    (hrest : rest = [] ∨ ∃ r rs, rest = r :: rs ∧ (is_option r || is_long_option r) = true) :
    self.parse pre.length (pre ++ ('-' :: '-' :: self._name) :: vs ++ rest).length
        (pre ++ ('-' :: '-' :: self._name) :: vs ++ rest) =
      ({ self with _value := vs, _use := true },
        .ok (true, pre.length + 1 + vs.length,
          (pre ++ ('-' :: '-' :: self._name) :: vs ++ rest).length)) := by
  have h := long_parse_space self pre vs rest hn heq hpat
    (by rw [hval, hunlimited]; exact (by decide : 0 < SIZE_MAX))
    hvs (by rw [hval, hunlimited]; simpa using hargc) (Or.inr hrest)
    (by rw [hval]; simp only [List.length_nil, Nat.zero_add]; omega)
  rw [h, hval]
  rfl

theorem space_form_unlimited_binds_all_witness :
    (long_string_option "col".toList Value.new.unlimited ARG_PATTERN.SPACE).parse 0 4
        ["--col".toList, "srv".toList, "pw".toList, "--help".toList]
      = ({ long_string_option "col".toList Value.new.unlimited ARG_PATTERN.SPACE with
            _value := ["srv".toList, "pw".toList], _use := true },
          .ok (true, 3, 4)) :=
  space_form_unlimited_binds_all
    (long_string_option "col".toList Value.new.unlimited ARG_PATTERN.SPACE)
    [] ["srv".toList, "pw".toList] ["--help".toList]
    (by decide) (by decide) (by decide) rfl rfl (by decide) (by decide) (by decide)
    (Or.inr ⟨"--help".toList, [], rfl, by decide⟩)

/-- Claim C6. On a map whose positional string option has limit 1, `pause` set and no
bound value, for arguments `t :: rest` with `t` a bare token (not option-shaped, not
dash-only), `parse` without validation binds the positional to `[t]`, sets its used
flag and returns 1, and so does `parse` with validation when validation passes; the
map afterwards is the same whatever `rest` is and differs from the map before only in
the positional option. -/
theorem paused_positional_stops_after_first (m : OptionMap Token) (u : UnnamedOption Token)
    (t : Token) (rest : List Token) (hu : m._unnamed_options = some u)
    (hlimit : u._value_info._limit = 1) (hpause : u._pause = true) (hval : u._value = [])
    (ht : is_option t = false ∧ is_long_option t = false ∧ is_dash t = false) :
    m.parse (rest.length + 1) (t :: rest) false
      = ({ m with _unnamed_options := some { u with _value := [t], _use := true } }, .ok 1) ∧
    (OptionMap.validate
        { m with _unnamed_options := some { u with _value := [t], _use := true } } = .ok () →
      m.parse (rest.length + 1) (t :: rest) true
        = ({ m with _unnamed_options := some { u with _value := [t], _use := true } },
            .ok 1)) := by
  have hup : u.parse 0 (rest.length + 1) (t :: rest)
      = ({ u with _value := [t], _use := true }, .ok (true, 1, 1)) := by
    simp [UnnamedOption.parse, OptionValue.argNum, OptionValue.argLimit, hval, hlimit,
      append_string, hpause]
  have hl : OptionMap.parse_loop (t :: rest) (rest.length + 1) m 0 (rest.length + 1)
      = ({ m with _unnamed_options := some { u with _value := [t], _use := true } },
          .ok 1) := by
    have hex := parse_loop_exit (t :: rest) rest.length
      { m with _unnamed_options := some { u with _value := [t], _use := true } } 1 1
      (le_refl _)
    simp only [OptionMap.parse_loop, Nat.zero_lt_succ, if_true, List.getD_cons_zero, ht.1,
      ht.2.1, ht.2.2, Bool.false_eq_true, if_false, false_and, hu, hup, hex]
  constructor
  · simp only [OptionMap.parse, hl, Bool.false_eq_true, if_false]
  · intro hv
    simp only [OptionMap.parse, hl, hv, if_true]

theorem paused_positional_stops_after_first_witness :
    (is_option "get".toList = false ∧ is_long_option "get".toList = false ∧
      is_dash "get".toList = false) ∧
    (command_map []).parse 3 ["get".toList, "--col".toList, "srv".toList] false
      = ({ command_map [] with
            _unnamed_options :=
              some { command_option [] with _value := ["get".toList], _use := true } },
          .ok 1) ∧
    (command_map []).parse 3 ["get".toList, "--col".toList, "srv".toList] true
      = ({ command_map [] with
            _unnamed_options :=
              some { command_option [] with _value := ["get".toList], _use := true } },
          .ok 1) :=
  ⟨by decide,
    (paused_positional_stops_after_first (command_map []) (command_option [])
      "get".toList ["--col".toList, "srv".toList] rfl rfl rfl rfl (by decide)).1,
    (paused_positional_stops_after_first (command_map []) (command_option [])
      "get".toList ["--col".toList, "srv".toList] rfl rfl rfl rfl (by decide)).2 rfl⟩

/-- Claim C7. For every valued entry, with the effective values being the bound
values when at least one is bound and the defaults otherwise, `validate()` throws if
and only if (a) their count exceeds the limit, or (b) their count is below the
required minimum, which is `min(limit, required)` except that it is 1 when both the
limit and the required count are `SIZE_MAX` (`unlimited()` with `required()`), or
(c) a constraint is set and some effective value fails it. -/
theorem validate_fails_iff {T : Type} (w : AnyOption T) (p : OptionValue T)
    (hp : AnyOption.value? w = some p) :
    (∃ e, AnyOption.validate w = .error e) ↔
      ((if p._value.length ≠ 0 then p._value else p._value_info._default_value).length
          > p._value_info._limit ∨
       (if p._value.length ≠ 0 then p._value else p._value_info._default_value).length
          < (if p._value_info._limit = SIZE_MAX ∧ p._value_info._required = SIZE_MAX then 1
             else min p._value_info._limit p._value_info._required) ∨
       ∃ f, p._value_info._constraint = some f ∧
         ∃ x ∈ (if p._value.length ≠ 0 then p._value else p._value_info._default_value),
           f x = false) := by
  rw [any_validate_eq w p hp]
  have hc := check_constraint_error_iff p._value_info._constraint
    (if p._value.length ≠ 0 then p._value else p._value_info._default_value)
  have ht : (if p._value.length ≠ 0 then p._value else p._value_info._default_value).length = 0
      → p._value_info._default_value.length = 0 := by
    intro h
    by_cases hv : p._value.length ≠ 0
    · rw [if_pos hv] at h; exact absurd h hv
    · rw [if_neg hv] at h; exact h
  simp only [OptionValue.validateArg]
  generalize (if p._value.length ≠ 0 then p._value else p._value_info._default_value) = ts
    at hc ht ⊢
  by_cases h1 : ts.length > p._value_info._limit
  · simp only [h1, if_true, Except.error.injEq, exists_eq', true_or]
  · by_cases hU : p._value_info._limit = SIZE_MAX ∧ p._value_info._required = SIZE_MAX
    · obtain ⟨hU1, hU2⟩ := hU
      rw [hU1] at h1
      by_cases h0 : ts.length = 0
      · have hd := ht h0
        rw [h0] at h1
        simp only [hU1, hU2, h1, if_false, and_self, if_true, hd, h0, Except.error.injEq,
          exists_eq', true_iff]
        right; left; decide
      · have h2 : ¬ (p._value_info._default_value.length = 0 ∧ ts.length = 0) :=
          fun h => h0 h.2
        have h3 : ¬ ts.length < 1 := by omega
        simp only [hU1, hU2, h1, if_false, and_self, if_true, h2, hc, false_or, h3]
    · by_cases h2 : ts.length < min p._value_info._limit p._value_info._required
      · simp only [h1, if_false, hU, h2, if_true, Except.error.injEq, exists_eq', true_or,
          or_true]
      · simp only [h1, if_false, hU, h2, hc, false_or]

theorem validate_fails_iff_witness :
    ∃ e, AnyOption.validate (.long (.longOptionHasValue
      (long_string_option "service".toList Value.new.required 3))) = .error e :=
  (validate_fails_iff
    (.long (.longOptionHasValue (long_string_option "service".toList Value.new.required 3)))
    (long_string_option "service".toList Value.new.required 3).toOptionValue rfl).2
    (Or.inr (Or.inl (by decide)))

/-- Claim C8, as stated, fails: a long option whose `Value` was configured with
`unlimited()` only, without defaults and without constraint, passes `validate()`
with no bound value. -/
theorem unlimited_without_required_accepts_nothing :
    ∃ o : LongOptionHasValue Token,
      LongOptionHasValue.new (Value.new.unlimited) "col".toList [] ARG_PATTERN.SPACE = .ok o ∧
      o._value_info._default_value = [] ∧ o._value_info._constraint.isNone = true ∧
      o._value = [] ∧
      AnyOption.validate (.long (.longOptionHasValue o)) = .ok () :=
  ⟨_, rfl, rfl, rfl, rfl, rfl⟩

/-- Claim C8, amended. For a valued entry whose `Value` was configured with
`unlimited()` and `required()` (limit and required count both `SIZE_MAX`), without
defaults and without constraint, `validate()` throws the too-few-arguments error when
no value is bound and succeeds when one or more values are bound. -/
theorem unlimited_required_needs_one_value {T : Type} (w : AnyOption T) (p : OptionValue T)
    (hp : AnyOption.value? w = some p)
    (hunlimited : p._value_info._limit = SIZE_MAX)
    (hrequired : p._value_info._required = SIZE_MAX)
    (hdef : p._value_info._default_value = [])
    (hcon : p._value_info._constraint = none) :
    (p._value = [] → AnyOption.validate w = .error .args_too_few) ∧
    (1 ≤ p._value.length → p._value.length ≤ SIZE_MAX → AnyOption.validate w = .ok ()) := by
  rw [any_validate_eq w p hp]
  constructor
  · intro hv
    simp [OptionValue.validateArg, hv, hdef, hunlimited, hrequired]
  · intro h1 h2
    have h3 : p._value.length ≠ 0 := by omega
    have h4 : ¬ SIZE_MAX < p._value.length := by omega
    simp [OptionValue.validateArg, hdef, hunlimited, hrequired, hcon, h3, h4,
      OptionValue.check_constraint]

theorem unlimited_required_needs_one_value_witness :
    AnyOption.validate (.long (.longOptionHasValue
        (long_string_option "col".toList Value.new.unlimited.required ARG_PATTERN.SPACE)))
      = .error .args_too_few ∧
    AnyOption.validate (.long (.longOptionHasValue
        { long_string_option "col".toList Value.new.unlimited.required ARG_PATTERN.SPACE with
          _value := ["srv".toList] }))
      = .ok () :=
  ⟨(unlimited_required_needs_one_value
      (.long (.longOptionHasValue
        (long_string_option "col".toList Value.new.unlimited.required ARG_PATTERN.SPACE)))
      (long_string_option "col".toList Value.new.unlimited.required
        ARG_PATTERN.SPACE).toOptionValue
      rfl rfl rfl rfl rfl).1 rfl,
    (unlimited_required_needs_one_value
      (.long (.longOptionHasValue
        { long_string_option "col".toList Value.new.unlimited.required ARG_PATTERN.SPACE with
          _value := ["srv".toList] }))
      { (long_string_option "col".toList Value.new.unlimited.required
          ARG_PATTERN.SPACE).toOptionValue with _value := ["srv".toList] }
      rfl rfl rfl rfl rfl).2 (by decide) (by decide)⟩

/-- Claim C9, as stated, fails: on the map declaring the long option `x` with the two
defaults `a`, `b` and `limit(3)`, after `parse` of `--x c` the sequence accessor
returns the single value `c`, not three values, and a further `parse` of `--x d`
succeeds instead of raising the too-many-values error. -/
theorem defaults_are_replaced_not_merged :
    ∃ ao, two_defaults_limit3 = .ok ao ∧
      (ao._option_map.parse 2 ["--x".toList, "c".toList] true).2 = .ok 2 ∧
      ((ao._option_map.parse 2 ["--x".toList, "c".toList] true).1.luse "x".toList).bind
        OptionWrapper.as_vector = .ok ["c".toList] ∧
      ((ao._option_map.parse 2 ["--x".toList, "c".toList] true).1.parse 2
        ["--x".toList, "d".toList] true).2 = .ok 2 :=
  ⟨_, rfl, by decide, by decide, by decide⟩

/-- Claim C9, amended. For a long valued string option declared with two defaults and
`limit(3)` and holding no bound value, the sequence accessor returns the two defaults;
one matched occurrence `--name v` (followed by the end of the arguments or an
option-shaped token) binds `v`, after which the sequence accessor returns exactly
`[v]`: the defaults are returned only while nothing is bound and do not count against
the limit. Once three values are bound, a further
token `--name` raises the too-many-values error and leaves the option unchanged. -/
theorem limit_counts_bound_values_only (self : LongOptionHasValue Token)
    (d1 d2 v x1 x2 x3 : Token) (pre rest : List Token) (c argc : Nat) (argv : List Token)
    (hn : self._name ≠ []) (heq : '=' ∉ self._name)
    (hpat : (self._arg_pattern &&& ARG_PATTERN.SPACE) = ARG_PATTERN.SPACE)
    (hdef : self._value_info._default_value = [d1, d2])
    (hlimit : self._value_info._limit = 3) (hval : self._value = [])
    (hv : is_option v = false ∧ is_long_option v = false ∧ is_dash v = false)
    (hrest : rest = [] ∨ ∃ r rs, rest = r :: rs ∧ (is_option r || is_long_option r) = true)
    (htok : argv.getD c [] = '-' :: '-' :: self._name) :
    OptionWrapper.as_vector (.long (.longOptionHasValue self)) = .ok [d1, d2] ∧
    self.parse pre.length (pre ++ ('-' :: '-' :: self._name) :: [v] ++ rest).length
        (pre ++ ('-' :: '-' :: self._name) :: [v] ++ rest)
      = ({ self with _value := [v], _use := true },
          .ok (true, pre.length + 1 + 1,
            (pre ++ ('-' :: '-' :: self._name) :: [v] ++ rest).length)) ∧
    OptionWrapper.as_vector
        (.long (.longOptionHasValue { self with _value := [v], _use := true }))
      = .ok [v] ∧
    LongOptionHasValue.parse { self with _value := [x1, x2, x3] } c argc argv
      = ({ self with _value := [x1, x2, x3] },
          .error (.too_many_values ('-' :: '-' :: self._name))) := by
  refine ⟨?_, ?_, rfl, ?_⟩
  · simp [OptionWrapper.as_vector, AnyOption.value?, LongEntry.value?, OptionValue.as_vector,
      hval, hdef, Value.has_default]
  · have h := long_parse_space self pre [v] rest hn heq hpat
      (by rw [hval, hlimit]; decide)
      (by intro w hw; simp only [List.mem_singleton] at hw; subst hw; exact hv)
      (by rw [hval, hlimit]; exact (by decide : 0 + 1 ≤ 3)) (Or.inr hrest)
      (by rw [hval]; exact (by decide : 0 + 1 ≠ 0))
    rw [h, hval]
    rfl
  · exact long_parse_too_many { self with _value := [x1, x2, x3] } c argc argv hn heq
      (by show 0 < self._value_info._limit; rw [hlimit]; decide)
      (by show 3 = self._value_info._limit; rw [hlimit])
      (Or.inl ⟨htok, hpat⟩)

theorem limit_counts_bound_values_only_witness :
    OptionWrapper.as_vector
        (.long (.longOptionHasValue
          (long_string_option "x".toList
            { _default_value := ["a".toList, "b".toList], _limit := 3 } 3)))
      = .ok ["a".toList, "b".toList] ∧
    (long_string_option "x".toList
        { _default_value := ["a".toList, "b".toList], _limit := 3 } 3).parse 0 2
        ["--x".toList, "c".toList]
      = ({ long_string_option "x".toList
              { _default_value := ["a".toList, "b".toList], _limit := 3 } 3 with
            _value := ["c".toList], _use := true },
          .ok (true, 2, 2)) ∧
    OptionWrapper.as_vector
        (.long (.longOptionHasValue
          { long_string_option "x".toList
              { _default_value := ["a".toList, "b".toList], _limit := 3 } 3 with
            _value := ["c".toList], _use := true }))
      = .ok ["c".toList] ∧
    LongOptionHasValue.parse
        { long_string_option "x".toList
            { _default_value := ["a".toList, "b".toList], _limit := 3 } 3 with
          _value := ["c".toList, "d".toList, "e".toList] } 0 2 ["--x".toList, "f".toList]
      = ({ long_string_option "x".toList
              { _default_value := ["a".toList, "b".toList], _limit := 3 } 3 with
            _value := ["c".toList, "d".toList, "e".toList] },
          .error (.too_many_values "--x".toList)) :=
  limit_counts_bound_values_only
    (long_string_option "x".toList { _default_value := ["a".toList, "b".toList], _limit := 3 } 3)
    "a".toList "b".toList "c".toList "c".toList "d".toList "e".toList [] [] 0 2
    ["--x".toList, "f".toList]
    (by decide) (by decide) (by decide) rfl rfl rfl (by decide) (Or.inl rfl) rfl

/-- Claim C10. Name matching is exact: for every non-empty name `n` without `=` and
every token `t`, `Option::match_name` accepts `t` iff `t` is `-n`;
`LongOption::match_name` accepts `t` iff `t` is `--n`; and the test of
`LongOptionHasValue::parse`, `match_name` on the part of `t` before its first `=`,
accepts `t` iff `t` is `--n` or begins with `--n=`. So short `x` matches neither `-xy`
nor `--x`, and long `x` does not match `-x`. -/
theorem name_matching_is_exact (n t : Token) (hn : n ≠ []) (heq : '=' ∉ n) :
    (ShortOption.match_name n t = true ↔ t = '-' :: n) ∧
    (LongOption.match_name n t = true ↔ t = '-' :: '-' :: n) ∧
    (LongOption.match_name n (substr t 0 (find t '=')) = true ↔
      (t = '-' :: '-' :: n ∨ ('-' :: '-' :: (n ++ ['='])) <+: t)) ∧
    ShortOption.match_name "x".toList "-xy".toList = false ∧
    ShortOption.match_name "x".toList "--x".toList = false ∧
    LongOption.match_name "x".toList "-x".toList = false ∧
    LongOption.match_name "x".toList (substr "-x".toList 0 (find "-x".toList '=')) = false := by
  refine ⟨short_match_name_iff n t hn, long_match_name_iff n t hn, ?_,
    by decide, by decide, by decide, by decide⟩
  rw [long_valued_match_iff n t hn heq]
  constructor
  · rintro (h | ⟨v, h⟩)
    · exact Or.inl h
    · exact Or.inr ⟨v, by simp [h]⟩
  · rintro (h | ⟨v, h⟩)
    · exact Or.inl h
    · exact Or.inr ⟨v, by simp [← h]⟩

theorem name_matching_is_exact_witness :
    ("col".toList ≠ [] ∧ '=' ∉ "col".toList) ∧
    (ShortOption.match_name "col".toList "--col=srv".toList = true ↔
      "--col=srv".toList = '-' :: "col".toList) ∧
    (LongOption.match_name "col".toList "--col=srv".toList = true ↔
      "--col=srv".toList = '-' :: '-' :: "col".toList) ∧
    (LongOption.match_name "col".toList
        (substr "--col=srv".toList 0 (find "--col=srv".toList '=')) = true ↔
      ("--col=srv".toList = '-' :: '-' :: "col".toList ∨
        ('-' :: '-' :: ("col".toList ++ ['='])) <+: "--col=srv".toList)) ∧
    ShortOption.match_name "x".toList "-xy".toList = false ∧
    ShortOption.match_name "x".toList "--x".toList = false ∧
    LongOption.match_name "x".toList "-x".toList = false ∧
    LongOption.match_name "x".toList (substr "-x".toList 0 (find "-x".toList '=')) = false :=
  ⟨by decide,
    name_matching_is_exact "col".toList "--col=srv".toList (by decide) (by decide)⟩

/-- Claim C11, as stated, fails: the name `a<TAB>b` contains a whitespace character,
the tab, and the constructors accept it. -/
theorem name_with_tab_is_accepted :
    Char.isWhitespace '\t' = true ∧ '\t' ∈ ['a', '\t', 'b'] ∧
    (∃ o, (LongOption.new ['a', '\t', 'b'] [] : Except (Error Token) LongOption) = .ok o ∧
      o._name = ['a', '\t', 'b']) ∧
    (∃ o, (OptionHasValue.new Value.new ['a', '\t', 'b'] [] :
        Except (Error Token) (OptionHasValue Token)) = .ok o ∧
      o._name = ['a', '\t', 'b']) :=
  ⟨by decide, by decide, ⟨_, rfl, rfl⟩, ⟨_, rfl, rfl⟩⟩

/-- Claim C11, amended. For every option name, the constructor of each named option
class (`Option`, `LongOption`, `OptionHasValue`, `LongOptionHasValue`) throws if and
only if the name has `-` as its first character, contains `=`, or contains the space
character; every other name, a name with a tab or a newline included, is accepted
and stored as it is. -/
theorem constructor_rejects_dash_equal_space {T : Type} (name description : Token)
    (value_info : Value T) (arg_pattern : Nat) :
    ((∃ e, (ShortOption.new name description : Except (Error T) ShortOption) = .error e) ↔
      (name.head? = some '-' ∨ '=' ∈ name ∨ ' ' ∈ name)) ∧
    ((∃ e, (LongOption.new name description : Except (Error T) LongOption) = .error e) ↔
      (name.head? = some '-' ∨ '=' ∈ name ∨ ' ' ∈ name)) ∧
    ((∃ e, OptionHasValue.new value_info name description = .error e) ↔
      (name.head? = some '-' ∨ '=' ∈ name ∨ ' ' ∈ name)) ∧
    ((∃ e, LongOptionHasValue.new value_info name description arg_pattern = .error e) ↔
      (name.head? = some '-' ∨ '=' ∈ name ∨ ' ' ∈ name)) ∧
    (¬ (name.head? = some '-' ∨ '=' ∈ name ∨ ' ' ∈ name) →
      (∃ o, (ShortOption.new name description : Except (Error T) ShortOption) = .ok o ∧
        o._name = name) ∧
      (∃ o, (LongOption.new name description : Except (Error T) LongOption) = .ok o ∧
        o._name = name) ∧
      (∃ o, OptionHasValue.new value_info name description = .ok o ∧ o._name = name) ∧
      (∃ o, LongOptionHasValue.new value_info name description arg_pattern = .ok o ∧
        o._name = name)) := by
  have hb := base_new_error_iff (T := T) name description
  have hq := base_new_eq (T := T) name description
  by_cases hc : name.head? = some '-' ∨ '=' ∈ name ∨ ' ' ∈ name
  · obtain ⟨e, he⟩ := hb.2 hc
    simp only [ShortOption.new, LongOption.new, OptionHasValue.new, LongOptionHasValue.new, he,
      hc, iff_true, not_true_eq_false, false_implies, and_true]
    exact ⟨⟨e, rfl⟩, ⟨e, rfl⟩, ⟨e, rfl⟩, ⟨e, rfl⟩⟩
  · have h1 : ¬ name.head? = some '-' := fun h => hc (Or.inl h)
    have h2 : ¬ '=' ∈ name := fun h => hc (Or.inr (Or.inl h))
    have h3 : ¬ ' ' ∈ name := fun h => hc (Or.inr (Or.inr h))
    rw [if_neg h1, if_neg h2, if_neg h3] at hq
    simp only [ShortOption.new, LongOption.new, OptionHasValue.new, LongOptionHasValue.new, hq,
      hc, iff_false, not_exists, not_false_eq_true, true_implies]
    refine ⟨?_, ?_, ?_, ?_, ⟨_, rfl, rfl⟩, ⟨_, rfl, rfl⟩, ⟨_, rfl, rfl⟩, ⟨_, rfl, rfl⟩⟩ <;>
      intro e <;> simp

/-- Claim C12. A valued option whose number of bound values equals its limit (at
least 1, as every limit is) raises the too-many-values error carrying its full name on
a token that matches it — `-name` for a short option, `--name` for a long option
whose arg-pattern includes SPACE, `--name=v` for one whose arg-pattern includes
ASSIGN — and the option, its bound values included, is left as it was; the offset is
not moved since the exception leaves `parse`. On the map declaring the long option
`srv` with the default limit 1, `parse` of `--srv a --srv b` fails so at the second
`--srv`, with `a` still the only bound value. -/
theorem at_limit_raises_too_many {T : Type} [ValueType T] (s : OptionHasValue T)
    (l : LongOptionHasValue T) (offset argc : Nat) (argv : List Token)
    (hsn : s._name ≠ []) (hln : l._name ≠ []) (hleq : '=' ∉ l._name)
    (hs : 0 < s._value_info._limit ∧ s._value.length = s._value_info._limit)
    (hl : 0 < l._value_info._limit ∧ l._value.length = l._value_info._limit) :
    (argv.getD offset [] = '-' :: s._name →
      s.parse offset argc argv = (s, .error (.too_many_values ('-' :: s._name)))) ∧
    (argv.getD offset [] = '-' :: '-' :: l._name →
      (l._arg_pattern &&& ARG_PATTERN.SPACE) = ARG_PATTERN.SPACE →
      l.parse offset argc argv = (l, .error (.too_many_values ('-' :: '-' :: l._name)))) ∧
    (∀ v, argv.getD offset [] = '-' :: '-' :: (l._name ++ '=' :: v) →
      (l._arg_pattern &&& ARG_PATTERN.ASSIGN) = ARG_PATTERN.ASSIGN →
      l.parse offset argc argv = (l, .error (.too_many_values ('-' :: '-' :: l._name)))) ∧
    (∃ m, declare_long "srv".toList Value.new = .ok m ∧
      (m.parse 4 ["--srv".toList, "a".toList, "--srv".toList, "b".toList] true).2
        = .error (.too_many_values "--srv".toList) ∧
      ((m.parse 4 ["--srv".toList, "a".toList, "--srv".toList, "b".toList] true).1.luse
        "srv".toList).bind OptionWrapper.as_vector = .ok ["a".toList]) := by
  refine ⟨?_, ?_, ?_, _, rfl, by decide, by decide⟩
  · intro htok
    exact short_parse_too_many s offset argc argv hsn hs.1 hs.2 htok
  · intro htok hpat
    exact long_parse_too_many l offset argc argv hln hleq hl.1 hl.2 (Or.inl ⟨htok, hpat⟩)
  · intro v htok hpat
    exact long_parse_too_many l offset argc argv hln hleq hl.1 hl.2
      (Or.inr ⟨⟨v, htok⟩, hpat⟩)

theorem at_limit_raises_too_many_witness :
    ({ short_string_option "o".toList Value.new with _value := ["a".toList] } :
        OptionHasValue Token).parse 0 2 ["-o".toList, "b".toList]
      = ({ short_string_option "o".toList Value.new with _value := ["a".toList] },
          .error (.too_many_values "-o".toList)) ∧
    ({ long_string_option "srv".toList Value.new 3 with _value := ["a".toList] } :
        LongOptionHasValue Token).parse 2 4
        ["--srv".toList, "a".toList, "--srv".toList, "b".toList]
      = ({ long_string_option "srv".toList Value.new 3 with _value := ["a".toList] },
          .error (.too_many_values "--srv".toList)) :=
  ⟨(at_limit_raises_too_many
      { short_string_option "o".toList Value.new with _value := ["a".toList] }
      { long_string_option "srv".toList Value.new 3 with _value := ["a".toList] }
      0 2 ["-o".toList, "b".toList]
      (by decide) (by decide) (by decide) (by decide) (by decide)).1 rfl,
    (at_limit_raises_too_many
      { short_string_option "o".toList Value.new with _value := ["a".toList] }
      { long_string_option "srv".toList Value.new 3 with _value := ["a".toList] }
      2 4 ["--srv".toList, "a".toList, "--srv".toList, "b".toList]
      (by decide) (by decide) (by decide) (by decide) (by decide)).2.1 rfl (by decide)⟩

/-- Claim C13 at its failing input. On the map declaring the long option `col` with
`limit(2)`, `parse` of `--col a --col` succeeds and returns 3: the second `--col`
binds no value and raises nothing, `a` stays the only bound value. On the map
declaring the short option `c` with `limit(2)`, `parse` of `-c a -c` raises the
missing-value error for `-c`. -/
theorem long_second_occurrence_without_value_is_accepted :
    (∃ m, declare_long "col".toList limit_two = .ok m ∧
      (m.parse 3 ["--col".toList, "a".toList, "--col".toList] false).2 = .ok 3 ∧
      ((m.parse 3 ["--col".toList, "a".toList, "--col".toList] false).1.luse
        "col".toList).bind OptionWrapper.as_vector = .ok ["a".toList]) ∧
    (∃ m, declare_short "c".toList limit_two = .ok m ∧
      (m.parse 3 ["-c".toList, "a".toList, "-c".toList] false).2
        = .error (.missing_value "-c".toList)) :=
  ⟨⟨_, rfl, by decide, by decide⟩, ⟨_, rfl, by decide⟩⟩

/-- Claim C14, as stated, fails: the short option `o` with `limit(2)` and no bound
value, on `-o a b`, binds `a` only and moves the offset by 2, not by `1 + min(2, 2)`. -/
theorem short_option_binds_one_of_two :
    ((short_string_option "o".toList limit_two).parse 0 3
      ["-o".toList, "a".toList, "b".toList]).2 = .ok (true, 2, 3) ∧
    ((short_string_option "o".toList limit_two).parse 0 3
      ["-o".toList, "a".toList, "b".toList]).1._value = ["a".toList] := by
  decide

/-- Claim C14, amended. A valued short string option named `n` with limit `L >= 1`
that holds no bound value, on a matching token `-n` followed by `m >= 1` plain
tokens, binds the first of them only and moves the offset by 2, whatever `L` and the
later arguments are: a short option takes one value per occurrence. A long valued
string option in space form, in the same situation with the plain tokens followed by
the end of the arguments or an option-shaped token, binds the first `min(m, L)` of
them and moves the offset by `1 + min(m, L)`. -/
theorem short_option_takes_one_value (s : OptionHasValue Token) (l : LongOptionHasValue Token)
    (pre vs rest : List Token)
    (hsn : s._name ≠ []) (hln : l._name ≠ []) (hleq : '=' ∉ l._name)
    (hlpat : (l._arg_pattern &&& ARG_PATTERN.SPACE) = ARG_PATTERN.SPACE)
    (hsval : s._value = []) (hlval : l._value = [])
    (hslimit : 1 ≤ s._value_info._limit) (hllimit : 1 ≤ l._value_info._limit)
    (hm : 1 ≤ vs.length)
    (hvs : ∀ v ∈ vs, is_option v = false ∧ is_long_option v = false ∧ is_dash v = false) :
    s.parse pre.length (pre ++ ('-' :: s._name) :: vs ++ rest).length
        (pre ++ ('-' :: s._name) :: vs ++ rest) =
      ({ s with _value := vs.take 1, _use := true },
        .ok (true, pre.length + 2, (pre ++ ('-' :: s._name) :: vs ++ rest).length)) ∧
    ((rest = [] ∨ ∃ r rs, rest = r :: rs ∧ (is_option r || is_long_option r) = true) →
      l.parse pre.length (pre ++ ('-' :: '-' :: l._name) :: vs ++ rest).length
          (pre ++ ('-' :: '-' :: l._name) :: vs ++ rest) =
        ({ l with _value := vs.take l._value_info._limit, _use := true },
          .ok (true, pre.length + 1 + min vs.length l._value_info._limit,
            (pre ++ ('-' :: '-' :: l._name) :: vs ++ rest).length))) := by
  constructor
  · cases vs with
    | nil => simp at hm
    | cons v vs' =>
      have h := short_parse_one s pre (vs' ++ rest) v hsn (by rw [hsval]; exact hslimit)
        (hvs v (by simp))
      rw [hsval] at h
      simpa using h
  · intro hrest
    exact long_parse_space_min l pre vs rest hln hleq hlpat hlval hllimit hm hvs hrest

theorem short_option_takes_one_value_witness :
    (short_string_option "o".toList limit_two).parse 0 3 ["-o".toList, "a".toList, "b".toList]
      = ({ short_string_option "o".toList limit_two with
            _value := ["a".toList], _use := true },
          .ok (true, 2, 3)) ∧
    (long_string_option "col".toList limit_two 3).parse 0 3
        ["--col".toList, "a".toList, "b".toList]
      = ({ long_string_option "col".toList limit_two 3 with
            _value := ["a".toList, "b".toList], _use := true },
          .ok (true, 3, 3)) :=
  ⟨(short_option_takes_one_value (short_string_option "o".toList limit_two)
      (long_string_option "col".toList limit_two 3) [] ["a".toList, "b".toList] []
      (by decide) (by decide) (by decide) (by decide) rfl rfl (by decide) (by decide)
      (by decide) (by decide)).1,
    (short_option_takes_one_value (short_string_option "o".toList limit_two)
      (long_string_option "col".toList limit_two 3) [] ["a".toList, "b".toList] []
      (by decide) (by decide) (by decide) (by decide) rfl rfl (by decide) (by decide)
      (by decide) (by decide)).2 (Or.inl rfl)⟩

/-- Claim C15. In the value loop of a valued string option (short, or long in space
form) with capacity left (`j < limit`) and a dash-only token `d` at `offset2`: when a
token follows `d` within `argc` and begins with `-`, that token is appended as it is,
whatever its shape, `d` is not, and the loop goes on behind it (at `offset2 + 2`);
otherwise the loop ends without a further value, behind `d`. So `--pw - -secret` binds
`-secret`, and `--pw - x` binds nothing and raises the missing-value error. -/
theorem dash_only_token_escapes_the_next (full_name : Token) (argc : Nat) (argv : List Token)
    (limit fuel : Nat) (self : OptionValue Token) (j offset2 : Nat)
    (hcap : j < limit) (hin : offset2 < argc) (hd : is_dash (argv.getD offset2 []) = true) :
    ((offset2 + 1 < argc ∧ (argv.getD (offset2 + 1) []).head? = some '-') →
      consume full_name argc argv limit (fuel + 1) self j offset2 =
        consume full_name argc argv limit fuel
          { self with _value := self._value ++ [argv.getD (offset2 + 1) []] }
          (j + 1) (offset2 + 2)) ∧
    (¬ (offset2 + 1 < argc ∧ (argv.getD (offset2 + 1) []).head? = some '-') →
      consume full_name argc argv limit (fuel + 1) self j offset2 =
        (self, .ok (j, offset2 + 1))) ∧
    ((long_string_option "pw".toList Value.new 3).parse 0 3
      ["--pw".toList, "-".toList, "-secret".toList]).2 = .ok (true, 3, 3) ∧
    ((long_string_option "pw".toList Value.new 3).parse 0 3
      ["--pw".toList, "-".toList, "-secret".toList]).1._value = ["-secret".toList] ∧
    ((long_string_option "pw".toList Value.new 3).parse 0 3
      ["--pw".toList, "-".toList, "x".toList]).2 = .error (.missing_value "--pw".toList) ∧
    ((long_string_option "pw".toList Value.new 3).parse 0 3
      ["--pw".toList, "-".toList, "x".toList]).1._value = [] :=
  ⟨consume_dash_escape full_name argc argv limit fuel self j offset2 hcap hin hd,
    consume_dash_stop full_name argc argv limit fuel self j offset2 hcap hin hd,
    by decide, by decide, by decide, by decide⟩

theorem dash_only_token_escapes_the_next_witness :
    consume "--pw".toList 3 ["--pw".toList, "-".toList, "-secret".toList] 1 2
        ({ _value_info := Value.new } : OptionValue Token) 0 1 =
      consume "--pw".toList 3 ["--pw".toList, "-".toList, "-secret".toList] 1 1
        ({ _value_info := Value.new, _value := ["-secret".toList] } : OptionValue Token) 1 3 :=
  (dash_only_token_escapes_the_next "--pw".toList 3
    ["--pw".toList, "-".toList, "-secret".toList] 1 1
    ({ _value_info := Value.new } : OptionValue Token) 0 1
    (by decide) (by decide) (by decide)).1 (by decide)

/-- Claim C16. In the loop of `OptionMap::parse`, when the token at the offset is
short-option-shaped and every entry of the short bucket returns `false` on it, the
loop ends with the unknown-option error carrying that token and the map is left as
it was; likewise for a long-option-shaped token, the long bucket and the
unknown-long-option error. Neither the other bucket nor the positional option is
tried: `--col=srv` against a SPACE-only `col`, and `-5` against a map with only a
positional option, are such errors. -/
theorem unknown_option_is_an_error {T : Type} [ValueType T] (m : OptionMap T)
    (argv : List Token) (fuel offset argc : Nat) (hlt : offset < argc) :
    (is_option (argv.getD offset []) = true →
      (∀ e ∈ m._options, (e.parse offset argc argv).2 = .ok (false, offset, argc)) →
      OptionMap.parse_loop argv (fuel + 1) m offset argc
        = (m, .error (.unknown_option (argv.getD offset [])))) ∧
    (is_long_option (argv.getD offset []) = true →
      (∀ e ∈ m._long_options, (e.parse offset argc argv).2 = .ok (false, offset, argc)) →
      OptionMap.parse_loop argv (fuel + 1) m offset argc
        = (m, .error (.unknown_long_option (argv.getD offset [])))) ∧
    (∃ m', declare_long "col ".toList Value.new = .ok m' ∧
      (m'.parse 1 ["--col=srv".toList] true).2
        = .error (.unknown_long_option "--col=srv".toList)) ∧
    ((command_map []).parse 1 ["-5".toList] true).2
      = .error (.unknown_option "-5".toList) := by
  refine ⟨?_, ?_, ⟨_, rfl, by decide⟩, by decide⟩
  · intro h1 hnone
    have hs := scan_all_false ShortEntry.parse argv offset argc m._options
      (fun e he => short_entry_false_unchanged e offset argc argv offset argc (hnone e he))
    rw [parse_loop_short_unknown argv fuel m offset argc _ _ _ hlt h1 hs]
  · intro h2 hnone
    have hs := scan_all_false LongEntry.parse argv offset argc m._long_options
      (fun e he => long_entry_false_unchanged e offset argc argv offset argc (hnone e he))
    rw [parse_loop_long_unknown argv fuel m offset argc _ _ _ hlt h2 hs]

theorem unknown_option_is_an_error_witness :
    OptionMap.parse_loop ["-5".toList] 1 (command_map []) 0 1
      = (command_map [], .error (.unknown_option "-5".toList)) :=
  (unknown_option_is_an_error (command_map []) ["-5".toList] 0 0 1 (by decide)).1
    (by decide) (by intro e he; simp [command_map] at he)

/-- Claim C17. In the loop of `OptionMap::parse`, when the token at the offset is a
bare token (not option-shaped, not dash-only): without a positional option the loop
ends with the no-positional error; with a positional option that holds as many values
as its limit (or more) it ends with the positional-rejected error carrying the token,
the map left as it was; otherwise exactly that token (its value `x` under
`Value::transform`, the token itself for `std::string`) is appended to the bound
values of the positional option, its used flag is set, and the loop goes on one
place further (with `argc` cut to that place when the limit is now reached and
`pause` is set). -/
theorem bare_token_goes_to_the_positional {T : Type} [ValueType T] (m : OptionMap T)
    (argv : List Token) (fuel offset argc : Nat) (hlt : offset < argc)
    (h1 : is_option (argv.getD offset []) = false)
    (h2 : is_long_option (argv.getD offset []) = false)
    (h3 : is_dash (argv.getD offset []) = false) :
    (m._unnamed_options = none →
      OptionMap.parse_loop argv (fuel + 1) m offset argc = (m, .error .unnamed_not_allowed)) ∧
    (∀ u, m._unnamed_options = some u → u._value_info._limit ≤ u._value.length →
      OptionMap.parse_loop argv (fuel + 1) m offset argc
        = (m, .error (.unnamed_rejected (argv.getD offset [])))) ∧
    (∀ u x, m._unnamed_options = some u → u._value.length < u._value_info._limit →
      ValueType.transform (argv.getD offset []) = some x →
      OptionMap.parse_loop argv (fuel + 1) m offset argc
        = OptionMap.parse_loop argv fuel
            { m with
              _unnamed_options := some { u with _value := u._value ++ [x], _use := true } }
            (offset + 1)
            (if u._value.length + 1 = u._value_info._limit ∧ u._pause = true
             then offset + 1 else argc)) := by
  have hstep := parse_loop_bare argv fuel m offset argc hlt h1 h2 h3
  refine ⟨?_, ?_, ?_⟩
  · intro hu
    rw [hstep, hu]
  · intro u hu hfull
    rw [hstep, hu]
    simp only [unnamed_parse_full u offset argc argv hfull]
    rw [← hu]
  · intro u x hu hroom hx
    rw [hstep, hu]
    simp only [unnamed_parse_room u offset argc argv x hroom hx]

theorem bare_token_goes_to_the_positional_witness :
    OptionMap.parse_loop ["get".toList, "x".toList] 2 (command_map []) 0 2
      = OptionMap.parse_loop ["get".toList, "x".toList] 1
          { command_map [] with
            _unnamed_options :=
              some { command_option [] with _value := [] ++ ["get".toList], _use := true } }
          1 (if 0 + 1 = 1 ∧ true = true then 0 + 1 else 2) :=
  (bare_token_goes_to_the_positional (command_map []) ["get".toList, "x".toList] 1 0 2
    (by decide) (by decide) (by decide) (by decide)).2.2 (command_option []) "get".toList
    rfl (by decide) rfl

/-- Claim C18. A valued long option whose arg-pattern is ASSIGN only returns `false`
on the token `--name`, and one whose arg-pattern is SPACE only returns `false` on
every token `--name=v`; in both cases the option (bound values and used flag
included), the offset and `argc` are unchanged. With the flag `help` and the
ASSIGN-only valued `help` declared in either order, `--help` sets the used flag of
the flag only and binds nothing, and `--help=x` binds `x` to the valued option and
leaves the flag unused. -/
theorem excluded_form_is_left_to_later_entries {T : Type} [ValueType T]
    (self : LongOptionHasValue T) (offset argc : Nat) (argv : List Token)
    (heq : '=' ∉ self._name) :
    (self._arg_pattern = ARG_PATTERN.ASSIGN →
      argv.getD offset [] = '-' :: '-' :: self._name →
      self.parse offset argc argv = (self, .ok (false, offset, argc))) ∧
    (self._arg_pattern = ARG_PATTERN.SPACE →
      ∀ v, argv.getD offset [] = '-' :: '-' :: (self._name ++ '=' :: v) →
      self.parse offset argc argv = (self, .ok (false, offset, argc))) ∧
    (∃ m, help_options = .ok m ∧
      (m.parse 1 ["--help".toList] false).2 = .ok 1 ∧
      (m.parse 1 ["--help".toList] false).1._long_options.map
          (fun e => (e.base._use, e.value?.map OptionValue._value))
        = [(true, none), (false, some [])] ∧
      (m.parse 1 ["--help=x".toList] false).2 = .ok 1 ∧
      (m.parse 1 ["--help=x".toList] false).1._long_options.map
          (fun e => (e.base._use, e.value?.map OptionValue._value))
        = [(false, none), (true, some ["x".toList])]) ∧
    (∃ m, help_options_swapped = .ok m ∧
      (m.parse 1 ["--help".toList] false).2 = .ok 1 ∧
      (m.parse 1 ["--help".toList] false).1._long_options.map
          (fun e => (e.base._use, e.value?.map OptionValue._value))
        = [(false, some []), (true, none)] ∧
      (m.parse 1 ["--help=x".toList] false).2 = .ok 1 ∧
      (m.parse 1 ["--help=x".toList] false).1._long_options.map
          (fun e => (e.base._use, e.value?.map OptionValue._value))
        = [(true, some ["x".toList]), (false, none)]) := by
  refine ⟨?_, ?_, ⟨_, rfl, by decide, by decide, by decide, by decide⟩,
    ⟨_, rfl, by decide, by decide, by decide, by decide⟩⟩
  · intro hpat htok
    refine long_parse_without_space self offset argc argv ?_ ?_
    · rw [hpat]; decide
    · rw [htok]; simp [heq]
  · intro hpat v htok
    refine long_parse_without_assign self offset argc argv ?_ ?_
    · rw [hpat]; decide
    · rw [htok]; simp

theorem excluded_form_is_left_to_later_entries_witness :
    (long_string_option "help".toList Value.new ARG_PATTERN.ASSIGN).parse 0 1
        ["--help".toList]
      = (long_string_option "help".toList Value.new ARG_PATTERN.ASSIGN,
          .ok (false, 0, 1)) ∧
    (long_string_option "col".toList Value.new ARG_PATTERN.SPACE).parse 0 1
        ["--col=srv".toList]
      = (long_string_option "col".toList Value.new ARG_PATTERN.SPACE,
          .ok (false, 0, 1)) :=
  ⟨(excluded_form_is_left_to_later_entries
      (long_string_option "help".toList Value.new ARG_PATTERN.ASSIGN) 0 1 ["--help".toList]
      (by decide)).1 rfl rfl,
    (excluded_form_is_left_to_later_entries
      (long_string_option "col".toList Value.new ARG_PATTERN.SPACE) 0 1
      ["--col=srv".toList] (by decide)).2.1 rfl "srv".toList rfl⟩

/-- Claim C19. For a non-empty base name `n` without `=` and without space, and a
bucket `options`: `use_impl` with the key `n=` returns the first entry named `n` that
has an arg-pattern (a valued option) including ASSIGN, and nothing when there is
none; with the key `n` followed by a space it does the same for SPACE; with the key
`n` it returns the first entry named `n` whatever its kind. `ouse` and `luse` throw
the no-such-option error exactly when `use_impl` finds nothing in their bucket, and
`use` exactly when it finds nothing in both. A flag `x` and a SPACE-only valued `x`
give nothing for the key `x=`. -/
theorem lookup_by_key {T : Type} (n : Token) (options : List (AnyOption T))
    (m : OptionMap T) (key : Token) (hn : n ≠ []) (heq : '=' ∉ n) (hsp : ' ' ∉ n) :
    OptionMap.use_impl (n ++ ['=']) options =
      options.find? (fun option =>
        option.name == n &&
          match option.arg_pattern? with
          | some p => (p &&& ARG_PATTERN.ASSIGN) == ARG_PATTERN.ASSIGN
          | none => false) ∧
    OptionMap.use_impl (n ++ [' ']) options =
      options.find? (fun option =>
        option.name == n &&
          match option.arg_pattern? with
          | some p => (p &&& ARG_PATTERN.SPACE) == ARG_PATTERN.SPACE
          | none => false) ∧
    OptionMap.use_impl n options = options.find? (fun option => option.name == n) ∧
    (m.ouse key = .error (.no_such_option key) ↔
      OptionMap.use_impl key (m._options.map .short) = none) ∧
    (m.luse key = .error (.no_such_option key) ↔
      OptionMap.use_impl key (m._long_options.map .long) = none) ∧
    (m.use key = .error (.no_such_option key) ↔
      (OptionMap.use_impl key (m._options.map .short) = none ∧
        OptionMap.use_impl key (m._long_options.map .long) = none)) ∧
    (OptionMap.use_impl "x=".toList
      [AnyOption.long (.longOption { _name := "x".toList, _description := [] }),
       AnyOption.long (.longOptionHasValue
        (long_string_option "x".toList Value.new ARG_PATTERN.SPACE))]).isNone = true := by
  refine ⟨use_impl_assign n options heq, use_impl_space n options heq hsp,
    use_impl_plain n options hn heq hsp, ?_, ?_, ?_, by decide⟩
  · unfold OptionMap.ouse
    cases OptionMap.use_impl key (m._options.map .short) <;> simp
  · unfold OptionMap.luse
    cases OptionMap.use_impl key (m._long_options.map .long) <;> simp
  · unfold OptionMap.use
    cases OptionMap.use_impl key (m._options.map .short) <;>
      cases OptionMap.use_impl key (m._long_options.map .long) <;> simp

theorem lookup_by_key_witness :
    (∃ m, help_options = .ok m ∧
      (OptionMap.use_impl "help=".toList (m._long_options.map .long)).map
          (fun w => (w.name, w.arg_pattern?))
        = some ("help".toList, some ARG_PATTERN.ASSIGN) ∧
      (OptionMap.use_impl "help ".toList (m._long_options.map .long)).isNone = true ∧
      (OptionMap.use_impl "help".toList (m._long_options.map .long)).map
          (fun w => (w.name, w.arg_pattern?))
        = some ("help".toList, none)) ∧
    OptionMap.use_impl ("help".toList ++ ['='])
        ([] : List (AnyOption Token)) =
      ([] : List (AnyOption Token)).find? (fun option =>
        option.name == "help".toList &&
          match option.arg_pattern? with
          | some p => (p &&& ARG_PATTERN.ASSIGN) == ARG_PATTERN.ASSIGN
          | none => false) :=
  ⟨⟨_, rfl, by decide, by decide, by decide⟩,
    (lookup_by_key "help".toList [] (command_map []) [] (by decide) (by decide)
      (by decide)).1⟩

/-- Claim C20 at its failing input. On the map declaring only a positional option with
the default `get` (`.u(Value<std::string>("get"), "")`), `parse` of no arguments
succeeds and the accessor yields the default `get`, but `operator bool` of the
positional option is `false`: `UnnamedOption` does not set `_use` for a default. The
constructors of the valued short and long options do set it. -/
theorem positional_default_is_not_present :
    (∃ m, declare_unnamed (Value.of "get".toList) = .ok m ∧
      (m.parse 0 [] true).2 = .ok 0 ∧
      (m.parse 0 [] true).1.unnamed_options.map OptionWrapper.toBool = some false ∧
      (m.parse 0 [] true).1.unnamed_options.map OptionWrapper.as
        = some (.ok "get".toList)) ∧
    (∃ m, declare_long "target".toList (Value.of "stdout".toList) = .ok m ∧
      (m.parse 0 [] true).2 = .ok 0 ∧
      ((m.parse 0 [] true).1.luse "target".toList).map OptionWrapper.toBool = .ok true) ∧
    (∃ m, declare_short "o".toList (Value.of "out".toList) = .ok m ∧
      (m.parse 0 [] true).2 = .ok 0 ∧
      ((m.parse 0 [] true).1.ouse "o".toList).map OptionWrapper.toBool = .ok true) :=
  ⟨⟨_, rfl, by decide, by decide, by decide⟩, ⟨_, rfl, by decide, by decide⟩,
    ⟨_, rfl, by decide, by decide⟩⟩

/-- Claim C21 at its failing input. On the map declaring the flag `help`, the flag is
not used after declaration; after `parse` of `--help` followed by `init()` it is still
used, and a parse of no argument at all on that map leaves it used, while the same
parse on the freshly declared map leaves it unused. On the map declaring the valued
long option `x` without default, `parse` of `--x a` followed by `init()` leaves no
bound value (the accessor fails) but the option still used, while it is unused after
declaration. So `init()` does not restore the state before the parse: on every map it
leaves the used flag of every entry as it finds it. -/
theorem init_keeps_the_used_flag :
    (∀ (T : Type) (m : OptionMap T),
      m.init._options.map (fun e => e.base._use) = m._options.map (fun e => e.base._use) ∧
      m.init._long_options.map (fun e => e.base._use)
        = m._long_options.map (fun e => e.base._use) ∧
      m.init._unnamed_options.map (fun u => u._use)
        = m._unnamed_options.map (fun u => u._use)) ∧
    (∃ m, declare_flag "help".toList [] = .ok m ∧
      (m.luse "help".toList).map OptionWrapper.toBool = .ok false ∧
      ((m.parse 1 ["--help".toList] true).1.init.luse "help".toList).map OptionWrapper.toBool
        = .ok true ∧
      (((m.parse 1 ["--help".toList] true).1.init.parse 0 [] true).1.luse
          "help".toList).map OptionWrapper.toBool = .ok true ∧
      ((m.parse 0 [] true).1.luse "help".toList).map OptionWrapper.toBool = .ok false) ∧
    (∃ m, declare_long "x".toList Value.new = .ok m ∧
      (m.luse "x".toList).map OptionWrapper.toBool = .ok false ∧
      ((m.parse 2 ["--x".toList, "a".toList] true).1.luse "x".toList).bind
          OptionWrapper.as_vector = .ok ["a".toList] ∧
      ((m.parse 2 ["--x".toList, "a".toList] true).1.init.luse "x".toList).bind
          OptionWrapper.as_vector = .error (.as_failed "--x".toList .no_value_set) ∧
      ((m.parse 2 ["--x".toList, "a".toList] true).1.init.luse "x".toList).map
          OptionWrapper.toBool = .ok true) :=
  ⟨fun _ m => init_use m, ⟨_, rfl, by decide, by decide, by decide, by decide⟩,
    ⟨_, rfl, by decide, by decide, by decide, by decide⟩⟩

/-- Claim C22 as stated is refuted. On the map declaring the long option `x` without
default, after `parse` of `--x a` the clone exists and its accessor for `x` returns
the bound value `a`, whereas on the freshly declared map the accessor fails because
nothing is set: the clone carries the bound values. -/
theorem clone_carries_bound_values :
    ∃ m, declare_long "x".toList Value.new = .ok m ∧
      (m.luse "x".toList).bind OptionWrapper.as_vector
        = .error (.as_failed "--x".toList .no_value_set) ∧
      ∃ c, (m.parse 2 ["--x".toList, "a".toList] true).1.clone = .ok c ∧
        (c.luse "x".toList).bind OptionWrapper.as_vector = .ok ["a".toList] ∧
        (c.luse "x".toList).map OptionWrapper.toBool = .ok true :=
  ⟨_, rfl, by decide, _, rfl, by decide, by decide⟩

/-- Claim C22, amended. For every map of short and long options built by builder
calls on a fresh `CommandLineOption` (none of them the positional builder) and every
sequence of `parse` and `init` calls on it, `clone()` returns a map equal to the map
itself: the same entries in the same order with the same configuration, the same
bound values and the same used flags. -/
theorem clone_copies_the_parse_state {T : Type} [ValueType T] (cs : List (BuilderCall T))
    (m : OptionMap T) (hb : CommandLineOption.declare cs = .ok m)
    (hn : ∀ c ∈ cs, c.is_u = false) (calls : List MapCall) :
    (m.calls calls).clone = .ok (m.calls calls) :=
  clone_named_only _ (calls_named_only calls m (declare_named_only cs m hn hb))

theorem clone_copies_the_parse_state_witness :
    (∀ c ∈ [BuilderCall.l_value "x".toList (Value.new : Value Token) []], c.is_u = false) ∧
      (OptionMap.calls
          (OptionMap.add_long_option {}
            (.longOptionHasValue (long_string_option "x".toList Value.new
              (ARG_PATTERN.ASSIGN ||| ARG_PATTERN.SPACE))))
          [.parse 2 ["--x".toList, "a".toList] true]).clone
        = .ok (OptionMap.calls
          (OptionMap.add_long_option {}
            (.longOptionHasValue (long_string_option "x".toList Value.new
              (ARG_PATTERN.ASSIGN ||| ARG_PATTERN.SPACE))))
          [.parse 2 ["--x".toList, "a".toList] true]) :=
  ⟨by intro c hc; simp only [List.mem_singleton] at hc; subst hc; rfl,
    clone_copies_the_parse_state
      [BuilderCall.l_value "x".toList (Value.new : Value Token) []] _ rfl
      (by intro c hc; simp only [List.mem_singleton] at hc; subst hc; rfl)
      [.parse 2 ["--x".toList, "a".toList] true]⟩

/-- Claim C23 at its failing inputs. On every map built by builder calls on a fresh
`CommandLineOption` that holds a positional option, `clone()` throws the
unknown-pattern error naming the positional option (whose name is empty): the loop
over `_ordered_options` reaches the positional option, which is neither an `Option`
nor a `LongOption`. -/
theorem clone_throws_on_a_positional_option {T : Type} (cs : List (BuilderCall T))
    (m : OptionMap T) (hb : CommandLineOption.declare cs = .ok m)
    (hu : m._unnamed_options.isSome = true) :
    m.clone = .error (.unknown_pattern []) := by
  cases hm : m._unnamed_options with
  | none => rw [hm] at hu; cases hu
  | some u =>
    obtain ⟨hname, hmem⟩ := declare_positional cs m hb u hm
    rw [clone_unnamed m u hm hmem, hname]

theorem clone_throws_on_a_positional_option_witness :
    ∃ m, main_options = .ok m ∧ m._unnamed_options.isSome = true ∧
      m.clone = .error (.unknown_pattern []) :=
  ⟨_, rfl, rfl,
    clone_throws_on_a_positional_option
      [.l "help".toList [], .l_value "help=".toList (Value.new.name "option".toList) [],
        .l_value "target".toList ((Value.of "stdout".toList).name "type".toList) [],
        .o_value "o".toList (Value.new.name "out".toList) [], .pause,
        .u (Value.new.name "command".toList) []] _ rfl rfl⟩

/-- Claim C24. For every name `n` that the constructor accepts (not starting with
`-`, without `=` and without space) and that is not empty, and every value
configuration and description: the valued long declaration of the name `n` followed
by `=` adds to `_long_options` (and to `_ordered_options`) an option named `n` with
arg-pattern ASSIGN only; that of `n` followed by a space adds one named `n` with
arg-pattern SPACE only; that of `n` itself adds one named `n` with the arg-pattern
ASSIGN and SPACE; in each case with the given configuration and description, no bound
value, and the used flag set exactly when the configuration has a default. -/
theorem declared_name_selects_the_arg_pattern {T : Type} (ao : AddOptions T) (n : Token)
    (value : Value T) (desc : Token) (hn : n ≠ []) (hd : n.head? ≠ some '-')
    (he : '=' ∉ n) (hs : ' ' ∉ n) :
    ao.l_value (n ++ ['=']) value desc =
      .ok { ao with
        _option_map := ao._option_map.add_long_option (.longOptionHasValue
          { _name := n, _description := desc, _use := value.has_default,
            _value_info := value, _value := [], _arg_pattern := ARG_PATTERN.ASSIGN }) } ∧
    ao.l_value (n ++ [' ']) value desc =
      .ok { ao with
        _option_map := ao._option_map.add_long_option (.longOptionHasValue
          { _name := n, _description := desc, _use := value.has_default,
            _value_info := value, _value := [], _arg_pattern := ARG_PATTERN.SPACE }) } ∧
    ao.l_value n value desc =
      .ok { ao with
        _option_map := ao._option_map.add_long_option (.longOptionHasValue
          { _name := n, _description := desc, _use := value.has_default,
            _value_info := value, _value := [],
            _arg_pattern := ARG_PATTERN.ASSIGN ||| ARG_PATTERN.SPACE }) } ∧
    (ARG_PATTERN.ASSIGN ||| ARG_PATTERN.SPACE) &&& ARG_PATTERN.ASSIGN = ARG_PATTERN.ASSIGN ∧
    (ARG_PATTERN.ASSIGN ||| ARG_PATTERN.SPACE) &&& ARG_PATTERN.SPACE = ARG_PATTERN.SPACE ∧
    ARG_PATTERN.ASSIGN &&& ARG_PATTERN.SPACE = ARG_PATTERN.NONE :=
  ⟨l_value_assign ao n value desc hd he hs, l_value_space ao n value desc hd he hs,
    l_value_both ao n value desc hn hd he hs, by decide, by decide, by decide⟩

theorem declared_name_selects_the_arg_pattern_witness :
    "help".toList ≠ [] ∧ "help".toList.head? ≠ some '-' ∧ '=' ∉ "help".toList ∧
      ' ' ∉ "help".toList ∧
      (CommandLineOption.add_options (CommandLineOption.new : OptionMap Token)).l_value
          ("help".toList ++ ['=']) (Value.new.name "option".toList) [] =
        .ok { CommandLineOption.add_options (CommandLineOption.new : OptionMap Token) with
          _option_map := OptionMap.add_long_option CommandLineOption.new (.longOptionHasValue
            { _name := "help".toList, _description := [],
              _use := (Value.new.name "option".toList : Value Token).has_default,
              _value_info := Value.new.name "option".toList, _value := [],
              _arg_pattern := ARG_PATTERN.ASSIGN }) } :=
  ⟨by decide, by decide, by decide, by decide,
    (declared_name_selects_the_arg_pattern
      (CommandLineOption.add_options (CommandLineOption.new : OptionMap Token)) "help".toList
      (Value.new.name "option".toList) [] (by decide) (by decide) (by decide) (by decide)).1⟩

/-- Claim C25 as stated is refuted. The value configuration that the constructor from
a list makes of the two defaults `a` and `b`, followed by the successful calls
`name("x")` and `required(1)`, has the limit 1, below its number of defaults 2. -/
theorem list_constructor_leaves_limit_one :
    ∃ v, (Value.of_list ["a".toList, "b".toList]).calls
        [.name "x".toList, .required 1] = .ok v ∧
      v._limit = 1 ∧ v._default_value.length = 2 ∧ v._limit < v._default_value.length :=
  ⟨_, rfl, rfl, rfl, by decide⟩

/-- Claim C25, amended. Every value configuration obtained from a constructor (no
default, one default, or a list of defaults, of a length that fits `std::size_t`) by a
chain of `constraint`, `limit`, `unlimited`, `name` and `required` calls none of which
threw has a limit of at least 1; and its limit is at least its number of defaults
when the constructor was given at most one default or the chain holds a `limit` or an
`unlimited` call. -/
theorem limit_is_positive_and_covers_defaults_once_set {T : Type} (v0 v : Value T)
    (cs : List (ValueCall T))
    (hctor : v0 = Value.new ∨ (∃ x, v0 = Value.of x) ∨
      ∃ xs, v0 = Value.of_list xs ∧ xs.length ≤ SIZE_MAX)
    (h : v0.calls cs = .ok v) :
    1 ≤ v._limit ∧
      (v0._default_value.length ≤ 1 ∨ (∃ c ∈ cs, c.sets_limit = true) →
        v._default_value.length ≤ v._limit) := by
  have h1 : v0._limit = 1 := by
    rcases hctor with rfl | ⟨x, rfl⟩ | ⟨xs, rfl, _⟩ <;> rfl
  have hmax : v0._default_value.length ≤ SIZE_MAX := by
    rcases hctor with rfl | ⟨x, rfl⟩ | ⟨xs, rfl, hx⟩
    · exact Nat.zero_le _
    · exact (show 1 ≤ SIZE_MAX by decide)
    · exact hx
  obtain ⟨_, hl, hk⟩ := value_calls_limit cs v0 v h (le_of_eq h1.symm) hmax
  refine ⟨hl, fun hh => hk ?_⟩
  rcases hh with hh | hh
  · exact .inl (by rw [h1]; exact hh)
  · exact .inr hh

theorem limit_is_positive_and_covers_defaults_once_set_witness :
    ∃ v, (Value.of_list ["a".toList, "b".toList, "c".toList]).calls [.unlimited] = .ok v ∧
      1 ≤ v._limit ∧
      ((Value.of_list ["a".toList, "b".toList, "c".toList])._default_value.length ≤ 1 ∨
          (∃ c ∈ [(ValueCall.unlimited : ValueCall Token)], c.sets_limit = true) →
        v._default_value.length ≤ v._limit) :=
  ⟨_, rfl,
    limit_is_positive_and_covers_defaults_once_set
      (Value.of_list ["a".toList, "b".toList, "c".toList]) _ [.unlimited]
      (.inr (.inr ⟨_, rfl, by decide⟩)) rfl⟩

/-- Claim C26. When `OptionMap::parse` on `argc` arguments returns the offset `r` and
leaves the map `m'`: `r` is at most `argc`; `r` is `argc` unless a positional option
with `_pause` set reached its limit in the call; when one did, `r` is at least 1 and
the last argument bound to the positional option is the token at `r - 1` (its value
under `Value::transform`); and the call reads no token at `r` or beyond, so that on
every argument vector with the same tokens below `r` it returns the same offset and
leaves the same map: nothing at `r` or beyond was bound to an entry. -/
theorem parse_returns_the_cursor {T : Type} [ValueType T] (m : OptionMap T) (argc : Nat)
    (argv : List Token) (validate : Bool) (m' : OptionMap T) (r : Nat)
    (h : m.parse argc argv validate = (m', .ok r)) :
    r ≤ argc ∧
    (¬ m.paused_filled m' → r = argc) ∧
    (m.paused_filled m' → 1 ≤ r ∧
      ∃ u' x, m'._unnamed_options = some u' ∧
        ValueType.transform (argv.getD (r - 1) []) = some x ∧ u'._value.getLast? = some x) ∧
    (∀ argv2 : List Token, (∀ i, i < r → argv2.getD i [] = argv.getD i []) →
      m.parse argc argv2 validate = (m', .ok r)) := by
  obtain ⟨h1, _, h3, h4⟩ := parse_cursor m argc argv validate m' r h
  refine ⟨h1, h3, fun hp => ?_, fun argv2 hag => parse_agree m argc argv argv2 validate m' r h hag⟩
  obtain ⟨h5, h6⟩ := h4 hp
  exact ⟨by omega, h6⟩

theorem parse_returns_the_cursor_witness :
    (command_map []).parse 3 ["get".toList, "--x".toList, "y".toList] false
        = (((command_map []).parse 3 ["get".toList, "--x".toList, "y".toList] false).1, .ok 1) ∧
      1 ≤ 3 ∧
      ((command_map []).parse 3 ["get".toList, "y".toList, "--x".toList] false
        = (((command_map []).parse 3 ["get".toList, "--x".toList, "y".toList] false).1,
            .ok 1)) :=
  ⟨rfl,
    (parse_returns_the_cursor (command_map []) 3 ["get".toList, "--x".toList, "y".toList]
      false _ 1 rfl).1,
    (parse_returns_the_cursor (command_map []) 3 ["get".toList, "--x".toList, "y".toList]
      false _ 1 rfl).2.2.2 ["get".toList, "y".toList, "--x".toList]
      (by intro i hi; interval_cases i; rfl)⟩

/-- Claim C27 as stated is refuted. With column width 25 and gap 2, the line of the
flag whose name descriptor `--abcdefghijklmnopqrstuv` has length 24, not above the
column width, holds 2 spaces between the descriptor and the description `D`, not
25 - 24 = 1. -/
theorem descriptor_near_the_column_width_gets_the_gap :
    ∃ m, declare_flag "abcdefghijklmnopqrstuv".toList "D".toList = .ok m ∧
      m.entries.map AnyOption.name_description = [.ok "--abcdefghijklmnopqrstuv".toList] ∧
      "--abcdefghijklmnopqrstuv".toList.length = 24 ∧
      m.description 25 2 = .ok "  --abcdefghijklmnopqrstuv  D\n".toList ∧
      m.description 25 2 ≠ .ok "  --abcdefghijklmnopqrstuv D\n".toList :=
  ⟨_, rfl, by decide, by decide, by decide, by decide⟩

/-- Claim C27, amended. On every map built by builder calls on a fresh
`CommandLineOption`, after any sequence of `parse` and `init` calls, every entry has a
name descriptor and `OptionMap::description(optionCols, gap)` returns: one line per
entry, in the order of declaration; each line is two spaces, the name descriptor of
the entry, of length `len`, then `optionCols - len` spaces when `len + gap` is at most
`optionCols` and `gap` spaces otherwise, then the description of the entry and the end
of line; when there is no entry, the output is the line `None` after two spaces
(`optionCols` and every `len + gap` being values of `std::size_t`). -/
theorem description_pads_to_the_column_or_by_the_gap {T : Type} [ValueType T]
    [StreamInsert T] (cs : List (BuilderCall T)) (m : OptionMap T)
    (hb : CommandLineOption.declare cs = .ok m) (calls : List MapCall)
    (optionCols gap : Nat) (hc : optionCols ≤ SIZE_MAX) :
    ∃ nds : List Token,
      List.Forall₂ (fun p nd => AnyOption.name_description p = .ok nd)
        (m.calls calls).entries nds ∧
      ((∀ nd ∈ nds, nd.length + gap ≤ SIZE_MAX) →
        (m.calls calls).description optionCols gap =
          .ok ((List.zipWith
              (fun p nd => "  ".toList ++ nd
                ++ List.replicate (if nd.length + gap ≤ optionCols then optionCols - nd.length
                    else gap) ' '
                ++ AnyOption.description p ++ "\n".toList)
              (m.calls calls).entries nds).flatten
            ++ if (m.calls calls)._ordered_options.isEmpty then "  None\n".toList else [])) := by
  obtain ⟨nds, h⟩ := name_descriptions_exist (m.calls calls)
    (calls_known_patterns calls m (declare_known_patterns cs m hb))
  refine ⟨nds, h, fun hs => ?_⟩
  rw [description_lines (m.calls calls) optionCols gap nds h]
  rw [zipWith_congr_right
    (fun p nd => OptionMap.description_line optionCols gap nd (AnyOption.description p))
    (fun p nd => "  ".toList ++ nd
      ++ List.replicate (if nd.length + gap ≤ optionCols then optionCols - nd.length
          else gap) ' '
      ++ AnyOption.description p ++ "\n".toList) (m.calls calls).entries nds
    (fun p nd hnd => description_line_eq optionCols gap nd _ hc (hs nd hnd))]

theorem description_pads_to_the_column_or_by_the_gap_witness :
    ∃ m, main_options = .ok m ∧
      m.description 25 2 = .ok (
        "  --help                   \n".toList
        ++ "  --help=<option>          \n".toList
        ++ "  --target[ |=]<type>(=stdout)  \n".toList
        ++ "  -o <out>                 \n".toList
        ++ "  <command>                \n".toList) ∧
      ∃ nds : List Token,
        List.Forall₂ (fun p nd => AnyOption.name_description p = .ok nd)
          (m.calls []).entries nds ∧
        ((∀ nd ∈ nds, nd.length + 2 ≤ SIZE_MAX) →
          (m.calls []).description 25 2 =
            .ok ((List.zipWith
                (fun p nd => "  ".toList ++ nd
                  ++ List.replicate (if nd.length + 2 ≤ 25 then 25 - nd.length else 2) ' '
                  ++ AnyOption.description p ++ "\n".toList)
                (m.calls []).entries nds).flatten
              ++ if (m.calls [])._ordered_options.isEmpty then "  None\n".toList else [])) :=
  ⟨_, rfl, by decide,
    description_pads_to_the_column_or_by_the_gap
      [.l "help".toList [], .l_value "help=".toList (Value.new.name "option".toList) [],
        .l_value "target".toList ((Value.of "stdout".toList).name "type".toList) [],
        .o_value "o".toList (Value.new.name "out".toList) [], .pause,
        .u (Value.new.name "command".toList) []] _ rfl [] 25 2 (by decide)⟩

/-- Claim C28. In the loop of `OptionMap::parse`, when the token at the offset is
dash-only (such a token is never option-shaped): if it is the last argument the loop
ends there with success, the map left as it was, whether a positional option is
declared or not; otherwise, without a positional option the loop ends with the
no-positional error, with a positional option that holds as many values as its limit
it ends with the positional-rejected error carrying the token after the dash-only
one, and in the remaining case exactly the token after the dash-only one, whatever its
shape (its value `x` under `Value::transform`, the token itself for `std::string`),
is appended to the bound values of the positional option, and the loop goes on two
places further. In no case is the dash-only token itself bound. On `-`, `--foo` with
a positional option declared the parse binds `--foo`; on `-` alone with nothing
declared it succeeds. -/
theorem dash_only_token_hands_the_next_to_the_positional {T : Type} [ValueType T]
    (m : OptionMap T) (argv : List Token) (fuel offset argc : Nat) (hlt : offset < argc)
    (hd : is_dash (argv.getD offset []) = true) :
    (is_option (argv.getD offset []) = false ∧ is_long_option (argv.getD offset []) = false) ∧
    (offset + 1 = argc →
      OptionMap.parse_loop argv (fuel + 1) m offset argc = (m, .ok argc)) ∧
    (offset + 1 < argc → m._unnamed_options = none →
      OptionMap.parse_loop argv (fuel + 1) m offset argc = (m, .error .unnamed_not_allowed)) ∧
    (offset + 1 < argc → ∀ u, m._unnamed_options = some u →
      u._value_info._limit ≤ u._value.length →
      OptionMap.parse_loop argv (fuel + 1) m offset argc
        = (m, .error (.unnamed_rejected (argv.getD (offset + 1) [])))) ∧
    (offset + 1 < argc → ∀ u x, m._unnamed_options = some u →
      u._value.length < u._value_info._limit →
      ValueType.transform (argv.getD (offset + 1) []) = some x →
      OptionMap.parse_loop argv (fuel + 1) m offset argc
        = OptionMap.parse_loop argv fuel
            { m with
              _unnamed_options := some { u with _value := u._value ++ [x], _use := true } }
            (offset + 2)
            (if u._value.length + 1 = u._value_info._limit ∧ u._pause = true
             then offset + 2 else argc)) ∧
    (∃ m0, declare_unnamed Value.new = .ok m0 ∧
      (m0.parse 2 ["-".toList, "--foo".toList] true).2 = .ok 2 ∧
      ((m0.parse 2 ["-".toList, "--foo".toList] true).1.unnamed_options.map
        OptionWrapper.as_vector) = some (.ok ["--foo".toList]) ∧
      (m0.parse 2 ["-".toList, "-".toList] true).2 = .ok 2 ∧
      ((m0.parse 2 ["-".toList, "-".toList] true).1.unnamed_options.map
        OptionWrapper.as_vector) = some (.ok ["-".toList])) ∧
    (({} : OptionMap Token).parse 1 ["-".toList] true).2 = .ok 1 := by
  obtain ⟨h1, h2⟩ := is_dash_not_option _ hd
  refine ⟨⟨h1, h2⟩, ?_, ?_, ?_, ?_, ⟨_, rfl, by decide, by decide, by decide, by decide⟩,
    by decide⟩
  · intro hlast
    have hge : offset + 1 ≥ argc := by omega
    simp only [OptionMap.parse_loop, hlt, if_true, h1, h2, hd, Bool.false_eq_true, if_false,
      true_and, hge]
    rw [parse_loop_at_end argv fuel m (offset + 1) argc (by omega), hlast]
  · intro hnext hu
    have hge : ¬ offset + 1 ≥ argc := by omega
    simp only [OptionMap.parse_loop, hlt, if_true, h1, h2, hd, Bool.false_eq_true, if_false,
      true_and, hge, hu]
  · intro hnext u hu hfull
    have hge : ¬ offset + 1 ≥ argc := by omega
    simp only [OptionMap.parse_loop, hlt, if_true, h1, h2, hd, Bool.false_eq_true, if_false,
      true_and, hge, hu, unnamed_parse_full u (offset + 1) argc argv hfull]
    rw [← hu]
  · intro hnext u x hu hroom hx
    have hge : ¬ offset + 1 ≥ argc := by omega
    simp only [OptionMap.parse_loop, hlt, if_true, h1, h2, hd, Bool.false_eq_true, if_false,
      true_and, hge, hu, unnamed_parse_room u (offset + 1) argc argv x hroom hx]

theorem dash_only_token_hands_the_next_to_the_positional_witness :
    OptionMap.parse_loop ["-".toList, "--foo".toList] 2 (command_map []) 0 2
      = OptionMap.parse_loop ["-".toList, "--foo".toList] 1
          { command_map [] with
            _unnamed_options :=
              some { command_option [] with _value := [] ++ ["--foo".toList], _use := true } }
          (0 + 2) (if 0 + 1 = 1 ∧ true = true then 0 + 2 else 2) :=
  (dash_only_token_hands_the_next_to_the_positional (command_map [])
    ["-".toList, "--foo".toList] 1 0 2 (by decide) (by decide)).2.2.2.2.1 (by decide)
    (command_option []) "--foo".toList rfl (by decide) rfl

/-- Claim C29. For every map built by builder calls on a fresh `CommandLineOption`,
each value configuration handed to a builder being one that a constructor of
`Value<T>` and setter calls make, and for every sequence of `parse` calls (returning
or throwing, the map being the one the call leaves) and `init` calls on it: every
valued short option, valued long option and positional option of the map holds at
most as many bound arguments as its limit. -/
theorem bound_values_never_exceed_the_limit {T : Type} [ValueType T]
    (cs : List (BuilderCall T)) (m : OptionMap T)
    (hb : CommandLineOption.declare cs = .ok m)
    (hv : ∀ c ∈ cs, ∀ v, c.value? = some v → v.constructed) (calls : List MapCall) :
    (∀ e ∈ (m.calls calls)._options, ∀ v, e.value? = some v →
      v._value.length ≤ v._value_info._limit) ∧
    (∀ e ∈ (m.calls calls)._long_options, ∀ v, e.value? = some v →
      v._value.length ≤ v._value_info._limit) ∧
    (∀ u, (m.calls calls)._unnamed_options = some u →
      u._value.length ≤ u._value_info._limit) := by
  have hw := calls_within_limits calls m
    (declare_within_limits cs m (fun c hc v hcv => constructed_limit_pos v (hv c hc v hcv)) hb)
  exact ⟨fun e he v hev => (hw.1 e he v hev).2, fun e he v hev => (hw.2.1 e he v hev).2,
    fun u hu => (hw.2.2 u hu).2⟩

theorem bound_values_never_exceed_the_limit_witness :
    ∃ m, CommandLineOption.declare [BuilderCall.l_value "x".toList (Value.new : Value Token) []]
        = .ok m ∧
      (∀ e ∈ (m.calls [.parse 2 ["--x".toList, "a".toList] true,
            .parse 2 ["--x".toList, "b".toList] true])._long_options,
        ∀ v, e.value? = some v → v._value.length ≤ v._value_info._limit) ∧
      (m.calls [.parse 2 ["--x".toList, "a".toList] true,
          .parse 2 ["--x".toList, "b".toList] true])._long_options.map
        (fun e => e.value?.map OptionValue._value) = [some ["a".toList]] :=
  ⟨_, rfl,
    (bound_values_never_exceed_the_limit
      [BuilderCall.l_value "x".toList (Value.new : Value Token) []] _ rfl
      (by
        intro c hc v hcv
        simp only [List.mem_singleton] at hc
        subst hc
        simp only [BuilderCall.value?, Option.some.injEq] at hcv
        subst hcv
        exact ⟨Value.new, [], .inl rfl, rfl⟩)
      [.parse 2 ["--x".toList, "a".toList] true,
        .parse 2 ["--x".toList, "b".toList] true]).2.1,
    by decide⟩

/-- Claim C30. For every map and every call of `OptionMap::parse` on it, returning or
throwing, the map the call leaves has the same entries in the same places, each with
the configuration it had, with the arguments bound before the call as the first of
the arguments bound after it, and with its used flag still set when it was set
(`OptionMap.steps`). Two parses of `--x a` on an unlimited long option `x` leave `a`,
`a` bound; with the limit 1 the second parse throws the too-many-values error and
leaves `a` bound; after `init()` nothing is bound. -/
theorem parse_keeps_what_was_bound {T : Type} [ValueType T] (m : OptionMap T) (argc : Nat)
    (argv : List Token) (validate : Bool) :
    m.steps (m.parse argc argv validate).1 ∧
    (∃ m0, declare_long "x".toList Value.new.unlimited = .ok m0 ∧
      (((m0.parse 2 ["--x".toList, "a".toList] true).1.parse 2
          ["--x".toList, "a".toList] true).1.luse "x".toList).bind OptionWrapper.as_vector
        = .ok ["a".toList, "a".toList] ∧
      (((m0.parse 2 ["--x".toList, "a".toList] true).1.parse 2
          ["--x".toList, "a".toList] true).1.init.luse "x".toList).bind
            OptionWrapper.as_vector
        = .error (.as_failed "--x".toList .no_value_set)) ∧
    (∃ m1, declare_long "x".toList Value.new = .ok m1 ∧
      ((m1.parse 2 ["--x".toList, "a".toList] true).1.parse 2
          ["--x".toList, "a".toList] true).2 = .error (.too_many_values "--x".toList) ∧
      (((m1.parse 2 ["--x".toList, "a".toList] true).1.parse 2
          ["--x".toList, "a".toList] true).1.luse "x".toList).bind OptionWrapper.as_vector
        = .ok ["a".toList]) :=
  ⟨parse_steps m argc argv validate, ⟨_, rfl, by decide, by decide⟩,
    ⟨_, rfl, by decide, by decide⟩⟩

end cli
